import Mathlib

/-!
Verification development for the Octree library (single header `octree.h`).

The development shallowly embeds the Morton space indexing arithmetic, the
geometry predicates, the ray-box slab intersection, and the hash-keyed node
store with its edit operations.  Machine integers are modelled by `Nat`; the
claims under study come with explicit representation-limit hypotheses under
which the C++ fixed-width arithmetic never overflows, so no masking is
needed.  Geometry scalars (C++ `double`) are modelled by the exact rationals.
-/

namespace Octree

/-! ### Morton space indexing (`MortonSpaceIndexing` in `octree.h`)

`DIMENSION_NO` is the parameter `D`.  Grid identifiers are lists of length
`D` of per-dimension raster coordinates.  `Encode` interleaves bits; the
generic source path loops over bit index `i` while any grid component still
has bits, depositing bit `i` of dimension `d` at position `i*D + d` of the
location id.  We model that loop little-endian: one recursion step deposits
the current low bits of every dimension and shifts the rest up by `D`. -/

/-- Low bits of every dimension packed into one Morton digit:
`lowBits [g0, g1, ...] = (g0 % 2) + 2*(g1 % 2) + 4*(g2 % 2) + ...`. -/
def lowBits : List ℕ → ℕ
  | [] => 0
  | x :: xs => x % 2 + 2 * lowBits xs

/-- Bit-interleaving loop of `MortonSpaceIndexing::Encode` (generic path),
unrolled for `t` bit positions: step `i` of the source loop deposits bit `i`
of `gridID[d]` at position `i*D + d` of the location id. -/
def encodeBits (D : ℕ) : ℕ → List ℕ → ℕ
  | 0, _ => 0
  | t + 1, g => lowBits g + 2 ^ D * encodeBits D t (g.map (· / 2))

/-- The source loop runs while `msb` (the or of all grid components) is
nonzero, hence processes exactly `Nat.size` of that or many bits. -/
def Encode (D : ℕ) (g : List ℕ) : ℕ :=
  encodeBits D (Nat.size (g.foldr Nat.lor 0)) g

/-- Key of a node: `(NodeID(1) << (depth*D)) | locationID`
(`MortonSpaceIndexing::GetHash`; the source asserts
`locationID < (1 << (depth*D))`). -/
def GetHash (D depth locationID : ℕ) : ℕ :=
  (1 <<< (depth * D)) ||| locationID

/-- Depth recovery from a node key (`MortonSpaceIndexing::GetDepthID`,
linear-tree branch): `(bit_width(key) - 1) / D`. -/
def GetDepthID (D key : ℕ) : ℕ :=
  (Nat.size key - 1) / D

/-- De-interleaving loop of `MortonSpaceIndexing::Decode` before the final
alignment shift: reads `t` Morton digits, little-endian.  Digit `i` of the
key contributes bit `i` of every reconstructed grid component. -/
def deinterleave (D : ℕ) : ℕ → ℕ → List ℕ
  | 0, _ => List.replicate D 0
  | t + 1, key =>
      List.zipWith (fun low high => low + 2 * high)
        ((List.range D).map fun d => (key >>> d) % 2)
        (deinterleave D t (key >>> D))

/-- Grid-id recovery (`MortonSpaceIndexing::Decode`, generic loop): the
`depthID` Morton digits of the key are written to output bit positions
`maxDepthID - depthID, ..., maxDepthID - 1` of each dimension. -/
def Decode (D maxDepthID key : ℕ) : List ℕ :=
  (deinterleave D (GetDepthID D key) key).map (· <<< (maxDepthID - GetDepthID D key))

/-- Type-system determined maximal depth id
(`MortonSpaceIndexing::MAX_THEORETICAL_DEPTH_ID`): for the linear tree
`((bits of NodeID) - 1) / D` with a 32-bit id below dimension 4 and a
64-bit id below dimension 15; beyond that the bitset representation fixes
the limit at `MAX_NONLINEAR_DEPTH_ID = 4`. -/
def maxTheoreticalDepthID (D : ℕ) : ℕ :=
  if D < 4 then (32 - 1) / D
  else if D < 15 then (64 - 1) / D
  else 4

/-! ### Range location metadata (`RangeLocationMetaData`, `GetRangeLocationMetaData`, `IsLess`) -/

/-- Metadata of the deepest node enclosing a rasterized box
(`MortonSpaceIndexing::RangeLocationMetaData`). -/
structure RangeLocationMetaData where
  DepthID : ℕ
  LocID : ℕ
  TouchedDimensionsFlag : ℕ
  LowerSegmentID : ℕ
  deriving DecidableEq, Repr

/-- Local variable `levelID` of `GetRangeLocationMetaData`:
`(bit_width(locMin ^ locMax) + D - 1) / D` in the linear-tree branch. -/
def rangeLevelID (D locMin locMax : ℕ) : ℕ :=
  (Nat.size (locMin ^^^ locMax) + D - 1) / D

/-- Transcription of `MortonSpaceIndexing::GetRangeLocationMetaData` for the
linear tree: `CHILD_MASK = 2^D - 1`, `bit_width = Nat.size`; the local
`shiftToChildSegment = (levelID - 1) * D` is inlined. -/
def GetRangeLocationMetaData (D maxDepthID locMin locMax : ℕ) : RangeLocationMetaData :=
  if locMin = locMax then
    ⟨maxDepthID, locMin, 0, 0⟩
  else if 0 < rangeLevelID D locMin locMax then
    ⟨maxDepthID - rangeLevelID D locMin locMax,
     ((locMin >>> ((rangeLevelID D locMin locMax - 1) * D)) >>> D) <<<
       ((rangeLevelID D locMin locMax - 1) * D + D),
     ((locMin ^^^ locMax) >>> ((rangeLevelID D locMin locMax - 1) * D)) &&& (2 ^ D - 1),
     (locMin >>> ((rangeLevelID D locMin locMax - 1) * D)) &&& (2 ^ D - 1)⟩
  else
    ⟨maxDepthID, locMin, 0, 0⟩

/-- Ordering of range metadata (`MortonSpaceIndexing::IsLess`): primary key
the location id; at equal location id the smaller `DepthID` is less. -/
def IsLess (l r : RangeLocationMetaData) : Bool :=
  (l.LocID < r.LocID) || ((l.LocID == r.LocID) && (l.DepthID < r.DepthID))

/-! ### Bit-level lemmas about the Morton encoding -/

theorem lowBits_lt (g : List ℕ) : lowBits g < 2 ^ g.length := by
  induction g with
  | nil => simp [lowBits]
  | cons x xs ih =>
      have hx : x % 2 < 2 := Nat.mod_lt _ (by norm_num)
      simp only [lowBits, List.length_cons, pow_succ]
      omega

theorem testBit_lowBits (g : List ℕ) (d : ℕ) :
    (lowBits g).testBit d = (decide (d < g.length) && (g.getD d 0).testBit 0) := by
  induction g generalizing d with
  | nil => simp [lowBits, Nat.zero_testBit]
  | cons x xs ih =>
      have hx : x % 2 < 2 ^ 1 := by
        simpa using Nat.mod_lt x (two_pos)
      have hrw : lowBits (x :: xs) = 2 ^ 1 * lowBits xs + x % 2 := by
        simp [lowBits]; ring
      rw [hrw, Nat.testBit_mul_pow_two_add _ hx]
      cases d with
      | zero =>
          simp [Nat.testBit_zero, Nat.mod_mod_of_dvd]
      | succ d =>
          simp only [if_neg (by omega : ¬ (d + 1 < 1))]
          rw [ih]
          simp [List.getD_cons_succ]

theorem testBit_encodeBits {D : ℕ} (hD : 0 < D) (t : ℕ) (g : List ℕ) (hg : g.length ≤ D) (j : ℕ) :
    (encodeBits D t g).testBit j =
      (decide (j < t * D) && decide (j % D < g.length) && (g.getD (j % D) 0).testBit (j / D)) := by
  induction t generalizing g j with
  | zero => simp [encodeBits, Nat.zero_testBit]
  | succ t ih =>
      have hlow : lowBits g < 2 ^ D :=
        lt_of_lt_of_le (lowBits_lt g) (Nat.pow_le_pow_right (by norm_num) hg)
      have hrw : encodeBits D (t + 1) g = 2 ^ D * encodeBits D t (g.map (· / 2)) + lowBits g := by
        show lowBits g + 2 ^ D * encodeBits D t (g.map (· / 2)) = _
        ring
      rw [hrw, Nat.testBit_mul_pow_two_add _ hlow]
      by_cases hj : j < D
      · rw [if_pos hj]
        rw [testBit_lowBits]
        have h1 : j % D = j := Nat.mod_eq_of_lt hj
        have h2 : j / D = 0 := Nat.div_eq_of_lt hj
        have h3 : j < (t + 1) * D := lt_of_lt_of_le hj (by nlinarith)
        simp [h1, h2, h3]
      · rw [if_neg hj]
        obtain ⟨k, rfl⟩ : ∃ k, j = D + k := ⟨j - D, by omega⟩
        have hmap : (g.map (· / 2)).length ≤ D := by simpa using hg
        rw [ih _ hmap]
        have e1 : D + k - D = k := by omega
        have e2 : (D + k) % D = k % D := Nat.add_mod_left D k
        have e3 : (D + k) / D = k / D + 1 := Nat.add_div_left k hD
        have e4 : ((g.map (· / 2)).getD (k % D) 0) = (g.getD (k % D) 0) / 2 := by
          simpa using List.getD_map g 0 (· / 2)
        have e5 : (decide (k < t * D) : Bool) = decide (D + k < (t + 1) * D) := by
          simp only [decide_eq_decide]
          constructor <;> intro h <;> nlinarith

        have e6 : ((g.map (· / 2)).length : ℕ) = g.length := by simp
        rw [e1, e2, e4, e6, Nat.testBit_div_two, e5, e3]

theorem encodeBits_lt {D : ℕ} (t : ℕ) (g : List ℕ) (hg : g.length ≤ D) :
    encodeBits D t g < 2 ^ (t * D) := by
  induction t generalizing g with
  | zero => simp [encodeBits]
  | succ t ih =>
      have hlow : lowBits g < 2 ^ D :=
        lt_of_lt_of_le (lowBits_lt g) (Nat.pow_le_pow_right (by norm_num) hg)
      have hrec := ih (g.map (· / 2)) (by simpa using hg)
      have : encodeBits D (t + 1) g = lowBits g + 2 ^ D * encodeBits D t (g.map (· / 2)) := rfl
      rw [this]
      calc lowBits g + 2 ^ D * encodeBits D t (g.map (· / 2))
          < 2 ^ D + 2 ^ D * encodeBits D t (g.map (· / 2)) := by omega
        _ = 2 ^ D * (encodeBits D t (g.map (· / 2)) + 1) := by ring
        _ ≤ 2 ^ D * 2 ^ (t * D) := by
            exact Nat.mul_le_mul_left _ (by omega)
        _ = 2 ^ ((t + 1) * D) := by rw [← pow_add]; ring_nf

theorem lowBits_eq_zero {g : List ℕ} (h : ∀ x ∈ g, x = 0) : lowBits g = 0 := by
  induction g with
  | nil => rfl
  | cons x xs ih =>
      have hx : x = 0 := h x (List.mem_cons_self x xs)
      have hxs : lowBits xs = 0 := ih fun y hy => h y (List.mem_cons_of_mem x hy)
      simp [lowBits, hx, hxs]

theorem encodeBits_zero_of_zero {D t : ℕ} {g : List ℕ} (h : ∀ x ∈ g, x = 0) :
    encodeBits D t g = 0 := by
  induction t generalizing g with
  | zero => rfl
  | succ t ih =>
      have h2 : ∀ x ∈ g.map (· / 2), x = 0 := by
        intro x hx
        obtain ⟨y, hy, rfl⟩ := List.mem_map.mp hx
        simp [h y hy]
      show lowBits g + 2 ^ D * encodeBits D t (g.map (· / 2)) = 0
      rw [lowBits_eq_zero h, ih h2]
      simp

theorem encodeBits_succ_eq {D : ℕ} {t : ℕ} {g : List ℕ} (h : ∀ x ∈ g, x < 2 ^ t) :
    encodeBits D (t + 1) g = encodeBits D t g := by
  induction t generalizing g with
  | zero =>
      have h0 : ∀ x ∈ g, x = 0 := by intro x hx; have := h x hx; omega
      rw [encodeBits_zero_of_zero h0, encodeBits_zero_of_zero h0]
  | succ t ih =>
      have h2 : ∀ x ∈ g.map (· / 2), x < 2 ^ t := by
        intro x hx
        obtain ⟨y, hy, rfl⟩ := List.mem_map.mp hx
        have := h y hy
        rw [pow_succ] at this
        omega
      show lowBits g + 2 ^ D * encodeBits D (t + 1) (g.map (· / 2)) = _
      rw [ih h2]
      rfl

theorem encodeBits_eq_of_le {D : ℕ} {t u : ℕ} {g : List ℕ} (h : ∀ x ∈ g, x < 2 ^ t)
    (htu : t ≤ u) : encodeBits D u g = encodeBits D t g := by
  obtain ⟨k, rfl⟩ : ∃ k, u = t + k := ⟨u - t, by omega⟩
  clear htu
  induction k with
  | zero => rfl
  | succ k ih =>
      have hk : ∀ x ∈ g, x < 2 ^ (t + k) := by
        intro x hx
        exact lt_of_lt_of_le (h x hx) (Nat.pow_le_pow_right (by norm_num) (by omega))
      calc encodeBits D (t + (k + 1)) g = encodeBits D ((t + k) + 1) g := rfl
        _ = encodeBits D (t + k) g := encodeBits_succ_eq hk
        _ = encodeBits D t g := ih

theorem testBit_natLor (a b i : ℕ) :
    (Nat.lor a b).testBit i = (a.testBit i || b.testBit i) :=
  Nat.testBit_lor a b i

theorem testBit_foldr_lor {g : List ℕ} {x : ℕ} (hx : x ∈ g) {i : ℕ}
    (hbit : x.testBit i = true) : (g.foldr Nat.lor 0).testBit i = true := by
  induction g with
  | nil => cases hx
  | cons y ys ih =>
      simp only [List.foldr_cons, testBit_natLor]
      rcases List.mem_cons.mp hx with rfl | hmem
      · simp [hbit]
      · simp [ih hmem]

theorem mem_lt_two_pow_size_foldr {g : List ℕ} {x : ℕ} (hx : x ∈ g) :
    x < 2 ^ (Nat.size (g.foldr Nat.lor 0)) := by
  set s := Nat.size (g.foldr Nat.lor 0) with hs
  apply Nat.lt_pow_two_of_testBit
  intro i hi
  by_contra hbit
  have hbit2 : x.testBit i = true := by
    cases h : x.testBit i
    · exact absurd h hbit
    · rfl
  have hor := testBit_foldr_lor hx hbit2
  have hlt : g.foldr Nat.lor 0 < 2 ^ i := by
    calc g.foldr Nat.lor 0 < 2 ^ s := Nat.lt_size_self _
      _ ≤ 2 ^ i := Nat.pow_le_pow_right (by norm_num) hi
  rw [Nat.testBit_lt_two_pow hlt] at hor
  exact Bool.false_ne_true hor

/-- Bridge between the while-loop fuel of the source `Encode` and any fuel
large enough for the input bounds. -/
theorem Encode_eq_encodeBits {D t : ℕ} {g : List ℕ} (h : ∀ x ∈ g, x < 2 ^ t) :
    Encode D g = encodeBits D t g := by
  unfold Encode
  set s := Nat.size (g.foldr Nat.lor 0) with hs
  rcases le_total t s with hts | hst
  · exact encodeBits_eq_of_le h hts
  · have hbound : ∀ x ∈ g, x < 2 ^ s := fun x hx => mem_lt_two_pow_size_foldr hx
    exact (encodeBits_eq_of_le hbound hst).symm

theorem shiftRight_D_encodeBits {D : ℕ} (t : ℕ) (g : List ℕ) (hg : g.length ≤ D) :
    (encodeBits D (t + 1) g) >>> D = encodeBits D t (g.map (· / 2)) := by
  have hlow : lowBits g < 2 ^ D :=
    lt_of_lt_of_le (lowBits_lt g) (Nat.pow_le_pow_right (by norm_num) hg)
  show (lowBits g + 2 ^ D * encodeBits D t (g.map (· / 2))) >>> D = _
  rw [Nat.shiftRight_eq_div_pow]
  rw [Nat.add_mul_div_left _ _ (Nat.pos_pow_of_pos D (by norm_num))]
  rw [Nat.div_eq_of_lt hlow]
  omega

theorem div_pow_mod_two_eq_of_testBit_eq {x i y j : ℕ} (h : x.testBit i = y.testBit j) :
    x / 2 ^ i % 2 = y / 2 ^ j % 2 := by
  rw [Nat.testBit_to_div_mod, Nat.testBit_to_div_mod] at h
  have hx := Nat.mod_two_eq_zero_or_one (x / 2 ^ i)
  have hy := Nat.mod_two_eq_zero_or_one (y / 2 ^ j)
  rcases hx with hx | hx <;> rcases hy with hy | hy <;> simp [hx, hy] at h ⊢

theorem zipWith_mod_div (g : List ℕ) :
    List.zipWith (fun low high => low + 2 * high) (g.map (· % 2)) (g.map (· / 2)) = g := by
  induction g with
  | nil => rfl
  | cons x xs ih =>
      simp only [List.map_cons, List.zipWith_cons_cons, ih]
      congr 1
      omega

theorem deinterleave_encodeBits {D : ℕ} (hD : 0 < D) (t : ℕ) (g : List ℕ)
    (hlen : g.length = D) (hb : ∀ x ∈ g, x < 2 ^ t) :
    deinterleave D t (encodeBits D t g) = g := by
  induction t generalizing g with
  | zero =>
      show List.replicate D 0 = g
      symm
      rw [List.eq_replicate_iff]
      refine ⟨hlen, fun b hb2 => ?_⟩
      have := hb b hb2
      omega
  | succ t ih =>
      have hg : g.length ≤ D := le_of_eq hlen
      show List.zipWith _ _ _ = g
      have hrec : (encodeBits D (t + 1) g) >>> D = encodeBits D t (g.map (· / 2)) :=
        shiftRight_D_encodeBits t g hg
      have hhalf : deinterleave D t ((encodeBits D (t + 1) g) >>> D) = g.map (· / 2) := by
        rw [hrec]
        refine ih _ (by rw [List.length_map]; exact hlen) ?_
        intro x hx
        obtain ⟨y, hy, rfl⟩ := List.mem_map.mp hx
        have := hb y hy
        rw [pow_succ] at this
        omega
      have hlowlist :
          (List.range D).map (fun d => ((encodeBits D (t + 1) g) >>> d) % 2) = g.map (· % 2) := by
        apply List.ext_getElem
        · simp [hlen]
        · intro n h1 h2
          have hnD : n < D := by simpa using h1
          have hng : n < g.length := by simpa [hlen] using hnD
          simp only [List.getElem_map, List.getElem_range]
          have hbit := testBit_encodeBits hD (t + 1) g hg n
          have e1 : n % D = n := Nat.mod_eq_of_lt hnD
          have e2 : n / D = 0 := Nat.div_eq_of_lt hnD
          have e3 : n < (t + 1) * D := lt_of_lt_of_le hnD (by nlinarith)
          rw [e1, e2] at hbit
          have hget : g.getD n 0 = g[n] := List.getD_eq_getElem g 0 hng
          rw [hget] at hbit
          rw [decide_eq_true e3, decide_eq_true hng] at hbit
          simp only [Bool.true_and] at hbit
          have := div_pow_mod_two_eq_of_testBit_eq hbit
          simpa [Nat.shiftRight_eq_div_pow] using this
      rw [hhalf, hlowlist, zipWith_mod_div]

theorem getHash_eq_add {D t loc : ℕ} (h : loc < 2 ^ (t * D)) :
    GetHash D t loc = 2 ^ (t * D) + loc := by
  unfold GetHash
  apply Nat.eq_of_testBit_eq
  intro j
  have h1 : (1 : ℕ) <<< (t * D) = 2 ^ (t * D) := by
    rw [Nat.shiftLeft_eq]; ring
  rw [Nat.testBit_lor, h1]
  have h2 : (2 ^ (t * D) + loc) = 2 ^ (t * D) * 1 + loc := by ring
  rw [h2, Nat.testBit_mul_pow_two_add _ h]
  by_cases hj : j < t * D
  · rw [if_pos hj]
    have : (2 ^ (t * D)).testBit j = false := by
      rw [Nat.testBit_two_pow]
      simp
      omega
    simp [this]
  · rw [if_neg hj]
    have hlocj : loc.testBit j = false := by
      apply Nat.testBit_lt_two_pow
      exact lt_of_lt_of_le h (Nat.pow_le_pow_right (by norm_num) (by omega))
    have h1t : (1 : ℕ) = 2 ^ 0 := rfl
    rw [hlocj, h1t, Nat.testBit_two_pow, Nat.testBit_two_pow]
    simp only [Bool.or_false]
    apply decide_eq_decide.mpr
    omega

theorem size_two_pow_add {n loc : ℕ} (h : loc < 2 ^ n) :
    Nat.size (2 ^ n + loc) = n + 1 := by
  have hle : Nat.size (2 ^ n + loc) ≤ n + 1 := by
    rw [Nat.size_le]
    rw [pow_succ]
    omega
  have hlt : n < Nat.size (2 ^ n + loc) := by
    rw [Nat.lt_size]
    omega
  omega

theorem getDepthID_getHash {D t loc : ℕ} (hD : 0 < D) (h : loc < 2 ^ (t * D)) :
    GetDepthID D (GetHash D t loc) = t := by
  rw [getHash_eq_add h]
  unfold GetDepthID
  rw [size_two_pow_add h]
  simp
  exact Nat.mul_div_cancel t hD

theorem deinterleave_two_pow_add {D : ℕ} (hD : 0 < D) (t loc : ℕ) (h : loc < 2 ^ (t * D)) :
    deinterleave D t (2 ^ (t * D) + loc) = deinterleave D t loc := by
  induction t generalizing loc with
  | zero => rfl
  | succ t ih =>
      show List.zipWith _ _ _ = List.zipWith _ _ _
      have hreads :
          ((List.range D).map fun d => ((2 ^ ((t + 1) * D) + loc) >>> d) % 2) =
            ((List.range D).map fun d => (loc >>> d) % 2) := by
        apply List.map_congr_left
        intro d hd
        have hdD : d < D := List.mem_range.mp hd
        have hdn : d < (t + 1) * D := lt_of_lt_of_le hdD (by nlinarith)
        simp only [Nat.shiftRight_eq_div_pow]
        have hsplit : 2 ^ ((t + 1) * D) + loc = loc + 2 ^ d * 2 ^ ((t + 1) * D - d) := by
          rw [← pow_add]
          have he : d + ((t + 1) * D - d) = (t + 1) * D := by omega
          rw [he]
          omega
        rw [hsplit, Nat.add_mul_div_left _ _ (Nat.pos_pow_of_pos d (by norm_num))]
        have hpow : 2 ^ ((t + 1) * D - d) = 2 * 2 ^ ((t + 1) * D - d - 1) := by
          rw [← pow_succ']
          congr 1
          omega
        rw [hpow]
        omega
      have hshift : (2 ^ ((t + 1) * D) + loc) >>> D = 2 ^ (t * D) + loc >>> D := by
        simp only [Nat.shiftRight_eq_div_pow]
        have hsplit : 2 ^ ((t + 1) * D) + loc = loc + 2 ^ D * 2 ^ (t * D) := by
          rw [← pow_add]
          have he : D + t * D = (t + 1) * D := by ring
          rw [he]
          omega
        rw [hsplit, Nat.add_mul_div_left _ _ (Nat.pos_pow_of_pos D (by norm_num))]
        omega
      have hlocD : loc >>> D < 2 ^ (t * D) := by
        rw [Nat.shiftRight_eq_div_pow]
        apply Nat.div_lt_of_lt_mul
        calc loc < 2 ^ ((t + 1) * D) := h
          _ = 2 ^ D * 2 ^ (t * D) := by rw [← pow_add]; ring_nf
      rw [hreads, hshift, ih _ hlocD]

/-- Claim C3: decoding the Morton encoding of a valid grid-id tuple, with the
sentinel bit attached at `maxDepthID`, restores the tuple. -/
theorem encode_decode_roundtrip (D maxDepthID : ℕ) (g : List ℕ) (hD : 0 < D)
    (hlen : g.length = D) (hb : ∀ x ∈ g, x < 2 ^ maxDepthID)
    (hrep : maxDepthID ≤ maxTheoreticalDepthID D) :
    Decode D maxDepthID (GetHash D maxDepthID (Encode D g)) = g := by
  have henc : Encode D g = encodeBits D maxDepthID g := Encode_eq_encodeBits hb
  have hgle : g.length ≤ D := le_of_eq hlen
  have hbound : encodeBits D maxDepthID g < 2 ^ (maxDepthID * D) := encodeBits_lt _ _ hgle
  rw [henc]
  unfold Decode
  rw [getDepthID_getHash hD hbound]
  rw [getHash_eq_add hbound]
  rw [deinterleave_two_pow_add hD _ _ hbound]
  rw [deinterleave_encodeBits hD _ _ hlen hb]
  simp

/-- Witness for C3 at a concrete input: dimension 2, depth 2, grid (1, 2). -/
theorem encode_decode_roundtrip_witness :
    Decode 2 2 (GetHash 2 2 (Encode 2 [1, 2])) = [1, 2] :=
  encode_decode_roundtrip 2 2 [1, 2] (by norm_num) (by simp) (by decide) (by decide)

/-! ### Correctness of the range location metadata (claim C4) -/

/-- Specification predicate, following the wording of the spec: the
rasterized box with corners `gmin, gmax` fits inside a single cell at depth
`t` exactly when both corners agree on the depth-`t` grid prefix in every
dimension. -/
def fitsAtDepth (D maxDepthID t : ℕ) (gmin gmax : List ℕ) : Prop :=
  ∀ d < D, (gmin.getD d 0) >>> (maxDepthID - t) = (gmax.getD d 0) >>> (maxDepthID - t)

instance (D maxDepthID t : ℕ) (gmin gmax : List ℕ) :
    Decidable (fitsAtDepth D maxDepthID t gmin gmax) := by
  unfold fitsAtDepth
  infer_instance

/-- Specification predicate, following the wording of the spec: with `L` the
number of levels between the cell and the finest grid, the box straddles the
midplane of its cell in one dimension exactly when the lower corner lies
strictly below the midplane coordinate and the upper corner at or above it. -/
def straddlesMidplane (L a b : ℕ) : Prop :=
  a < ((a >>> L) * 2 + 1) <<< (L - 1) ∧ ((a >>> L) * 2 + 1) <<< (L - 1) ≤ b

instance (L a b : ℕ) : Decidable (straddlesMidplane L a b) := by
  unfold straddlesMidplane
  infer_instance

theorem ceil_div_le_iff {D s m : ℕ} (hD : 0 < D) : (s + D - 1) / D ≤ m ↔ s ≤ D * m := by
  rw [← Nat.lt_succ_iff, Nat.div_lt_iff_lt_mul hD]
  have he : (m + 1) * D = D * m + D := by ring
  rw [he]
  generalize D * m = A
  omega

theorem le_mul_ceil_div {D s : ℕ} (hD : 0 < D) : s ≤ D * ((s + D - 1) / D) :=
  (ceil_div_le_iff hD).mp le_rfl

theorem lt_two_pow_iff_high_bits (x n : ℕ) :
    x < 2 ^ n ↔ ∀ j, n ≤ j → x.testBit j = false := by
  constructor
  · intro h j hj
    exact Nat.testBit_lt_two_pow
      (lt_of_lt_of_le h (Nat.pow_le_pow_right (by norm_num) hj))
  · exact Nat.lt_pow_two_of_testBit x

theorem testBit_encodeBits_at {D : ℕ} (hD : 0 < D) {mD : ℕ} {g : List ℕ}
    (hlen : g.length = D) (i d : ℕ) (hd : d < D) :
    (encodeBits D mD g).testBit (i * D + d) =
      (decide (i < mD) && (g.getD d 0).testBit i) := by
  rw [testBit_encodeBits hD mD g (le_of_eq hlen)]
  have e1 : (i * D + d) % D = d := by
    rw [Nat.mul_comm i D, Nat.mul_add_mod]
    exact Nat.mod_eq_of_lt hd
  have e2 : (i * D + d) / D = i := by
    rw [Nat.mul_comm i D, Nat.mul_add_div hD]
    rw [Nat.div_eq_of_lt hd]
    omega
  rw [e1, e2, hlen, decide_eq_true hd]
  have e3 : (decide (i * D + d < mD * D) : Bool) = decide (i < mD) := by
    apply decide_eq_decide.mpr
    constructor
    · intro h
      by_contra hcon
      push_neg at hcon
      have : mD * D ≤ i * D := Nat.mul_le_mul_right D hcon
      omega
    · intro h
      have h1 : i * D + d < i * D + D := by omega
      have h2 : i * D + D = (i + 1) * D := by ring
      have h3 : (i + 1) * D ≤ mD * D := Nat.mul_le_mul_right D h
      omega
  rw [e3]
  simp

theorem testBit_encodeBits_ge {D : ℕ} {mD : ℕ} {g : List ℕ} (hg : g.length ≤ D)
    {j : ℕ} (hj : mD * D ≤ j) : (encodeBits D mD g).testBit j = false := by
  apply Nat.testBit_lt_two_pow
  exact lt_of_lt_of_le (encodeBits_lt mD g hg) (Nat.pow_le_pow_right (by norm_num) hj)

/-- Bridge between the per-dimension grid prefixes and the bit width of the
Morton xor: the corners agree above level `k` in every dimension exactly when
the xor of the encodings fits in `k * D` bits. -/
theorem fits_iff_size_xor_le {D mD : ℕ} (hD : 0 < D) {gmin gmax : List ℕ}
    (h1 : gmin.length = D) (h2 : gmax.length = D)
    (hb1 : ∀ x ∈ gmin, x < 2 ^ mD) (hb2 : ∀ x ∈ gmax, x < 2 ^ mD) (k : ℕ) :
    (∀ d < D, (gmin.getD d 0) >>> k = (gmax.getD d 0) >>> k) ↔
      Nat.size (encodeBits D mD gmin ^^^ encodeBits D mD gmax) ≤ k * D := by
  rw [Nat.size_le, lt_two_pow_iff_high_bits]
  have hbitd : ∀ d, d < D → gmin.getD d 0 < 2 ^ mD := by
    intro d hd
    rcases lt_or_ge d gmin.length with hlt | hge
    · rw [List.getD_eq_getElem _ _ hlt]
      exact hb1 _ (List.getElem_mem hlt)
    · rw [List.getD_eq_default _ _ hge]
      exact Nat.pos_pow_of_pos mD (by norm_num)
  have hbitd2 : ∀ d, d < D → gmax.getD d 0 < 2 ^ mD := by
    intro d hd
    rcases lt_or_ge d gmax.length with hlt | hge
    · rw [List.getD_eq_getElem _ _ hlt]
      exact hb2 _ (List.getElem_mem hlt)
    · rw [List.getD_eq_default _ _ hge]
      exact Nat.pos_pow_of_pos mD (by norm_num)
  constructor
  · intro hfit j hj
    rw [Nat.testBit_xor]
    rcases lt_or_ge j (mD * D) with hjlt | hjge
    · obtain ⟨i, d, hd, rfl⟩ : ∃ i d, d < D ∧ j = i * D + d := by
        refine ⟨j / D, j % D, Nat.mod_lt _ hD, ?_⟩
        rw [Nat.mul_comm]
        exact (Nat.div_add_mod j D).symm
      have hik : k ≤ i := by
        by_contra hcon
        push_neg at hcon
        have : i * D + d < k * D := by
          have h3 : (i + 1) * D ≤ k * D := Nat.mul_le_mul_right D hcon
          have h4 : i * D + d < (i + 1) * D := by
            have : (i + 1) * D = i * D + D := by ring
            omega
          omega
        omega
      rw [testBit_encodeBits_at hD h1 i d hd, testBit_encodeBits_at hD h2 i d hd]
      have hshift := hfit d hd
      have : (gmin.getD d 0).testBit i = (gmax.getD d 0).testBit i := by
        have e1 : (gmin.getD d 0).testBit i = ((gmin.getD d 0) >>> k).testBit (i - k) := by
          rw [Nat.testBit_shiftRight]
          congr 1
          omega
        have e2 : (gmax.getD d 0).testBit i = ((gmax.getD d 0) >>> k).testBit (i - k) := by
          rw [Nat.testBit_shiftRight]
          congr 1
          omega
        rw [e1, e2, hshift]
      rw [this]
      simp
    · rw [testBit_encodeBits_ge (le_of_eq h1) hjge, testBit_encodeBits_ge (le_of_eq h2) hjge]
      simp
  · intro hsz d hd
    apply Nat.eq_of_testBit_eq
    intro i
    rw [Nat.testBit_shiftRight, Nat.testBit_shiftRight]
    rcases lt_or_ge (k + i) mD with hlt | hge
    · have hbit := hsz ((k + i) * D + d) (by nlinarith)
      rw [Nat.testBit_xor] at hbit
      rw [testBit_encodeBits_at hD h1 (k + i) d hd, testBit_encodeBits_at hD h2 (k + i) d hd]
        at hbit
      rw [decide_eq_true hlt] at hbit
      simp only [Bool.true_and, bne_eq_false_iff_eq] at hbit
      exact hbit
    · have e1 : (gmin.getD d 0).testBit (k + i) = false :=
        Nat.testBit_lt_two_pow
          (lt_of_lt_of_le (hbitd d hd) (Nat.pow_le_pow_right (by norm_num) hge))
      have e2 : (gmax.getD d 0).testBit (k + i) = false :=
        Nat.testBit_lt_two_pow
          (lt_of_lt_of_le (hbitd2 d hd) (Nat.pow_le_pow_right (by norm_num) hge))
      rw [e1, e2]

theorem testBit_true_iff_ge {a l : ℕ} (h : a < 2 ^ (l + 1)) :
    a.testBit l = true ↔ 2 ^ l ≤ a := by
  constructor
  · intro hbit
    by_contra hcon
    push_neg at hcon
    rw [Nat.testBit_lt_two_pow hcon] at hbit
    exact Bool.false_ne_true hbit
  · intro hge
    rw [Nat.testBit_to_div_mod]
    have h1 : 1 ≤ a / 2 ^ l := (Nat.le_div_iff_mul_le (Nat.pos_pow_of_pos l two_pos)).mpr
      (by omega)
    have h2 : a / 2 ^ l < 2 := (Nat.div_lt_iff_lt_mul (Nat.pos_pow_of_pos l two_pos)).mpr
      (by rw [pow_succ] at h; omega)
    have h3 : a / 2 ^ l = 1 := by omega
    simp [h3]

theorem xor_lt_two_pow {a b n : ℕ} (ha : a < 2 ^ n) (hb : b < 2 ^ n) : a ^^^ b < 2 ^ n := by
  rw [lt_two_pow_iff_high_bits]
  intro j hj
  rw [Nat.testBit_xor]
  rw [(lt_two_pow_iff_high_bits a n).mp ha j hj, (lt_two_pow_iff_high_bits b n).mp hb j hj]
  rfl

/-- Case analysis core of the straddle characterization, over abstract
decompositions of the two corners within their shared cell. -/
theorem straddle_core {F a b P a0 b0 : ℕ} (hda : P + a0 = a) (hdb : P + b0 = b)
    (hmoda : a0 < 2 * F) (hmodb : b0 < 2 * F) (hab : a ≤ b)
    (bitA bitB : Bool) (hA : bitA = true ↔ F ≤ a0) (hB : bitB = true ↔ F ≤ b0) :
    ((bitA ^^ bitB) = true ↔ (a < P + F ∧ P + F ≤ b)) := by
  rcases bitA <;> rcases bitB <;> simp at hA hB ⊢ <;> omega

/-- In one dimension, with the two corners sharing their grid prefix above
level `l + 1` and ordered, the bit of the xor at level `l` detects exactly
the straddling of the midplane of the shared cell. -/
theorem straddle_iff_xor_bit {l a b : ℕ} (hab : a ≤ b)
    (hpre : a >>> (l + 1) = b >>> (l + 1)) :
    ((a ^^^ b).testBit l = true ↔ straddlesMidplane (l + 1) a b) := by
  unfold straddlesMidplane
  have hE : (0 : ℕ) < 2 ^ (l + 1) := Nat.pos_pow_of_pos _ two_pos
  have hda := Nat.div_add_mod a (2 ^ (l + 1))
  have hdb := Nat.div_add_mod b (2 ^ (l + 1))
  have hsa : a >>> (l + 1) = a / 2 ^ (l + 1) := Nat.shiftRight_eq_div_pow a (l + 1)
  have hsb : b >>> (l + 1) = b / 2 ^ (l + 1) := Nat.shiftRight_eq_div_pow b (l + 1)
  have hmoda : a % 2 ^ (l + 1) < 2 ^ (l + 1) := Nat.mod_lt _ hE
  have hmodb : b % 2 ^ (l + 1) < 2 ^ (l + 1) := Nat.mod_lt _ hE
  have hmid : ((a >>> (l + 1)) * 2 + 1) <<< ((l + 1) - 1) =
      2 ^ (l + 1) * (a / 2 ^ (l + 1)) + 2 ^ l := by
    rw [hsa, Nat.shiftLeft_eq]
    have h0 : (l + 1) - 1 = l := by omega
    rw [h0, pow_succ]
    ring
  rw [hmid]
  have hbita : a.testBit l = (a % 2 ^ (l + 1)).testBit l := by
    rw [Nat.testBit_mod_two_pow]
    simp
  have hbitb : b.testBit l = (b % 2 ^ (l + 1)).testBit l := by
    rw [Nat.testBit_mod_two_pow]
    simp
  have hqeq : b / 2 ^ (l + 1) = a / 2 ^ (l + 1) := by rw [← hsa, ← hsb, hpre]
  rw [Nat.testBit_xor, hbita, hbitb]
  rw [hqeq] at hdb
  have hpowsucc : 2 ^ (l + 1) = 2 * 2 ^ l := by rw [pow_succ]; ring
  have hmoda2 : a % 2 ^ (l + 1) < 2 * 2 ^ l := by omega
  have hmodb2 : b % 2 ^ (l + 1) < 2 * 2 ^ l := by omega
  exact straddle_core hda hdb hmoda2 hmodb2 hab _ _
    (testBit_true_iff_ge hmoda) (testBit_true_iff_ge hmodb)

/-- Claim C4: for a box whose rasterized grid-id range lies within the
resolution, the computed range metadata has the largest depth at which the
box fits inside one cell; its touched-dimensions flag has bit `d` set
exactly when the box straddles the midplane of that cell in dimension `d`;
equal encoded corners give depth `maxDepthID` with zero flag, and otherwise
the number of levels stepped up from the bottom is
`ceil(bit_width(locMin xor locMax) / D)`. -/
theorem rangeLocationMetaData_correct (D maxDepthID : ℕ) (gmin gmax : List ℕ)
    (md : RangeLocationMetaData) (hD : 0 < D)
    (hlen1 : gmin.length = D) (hlen2 : gmax.length = D)
    (hb1 : ∀ x ∈ gmin, x < 2 ^ maxDepthID) (hb2 : ∀ x ∈ gmax, x < 2 ^ maxDepthID)
    (hle : ∀ d, d < D → gmin.getD d 0 ≤ gmax.getD d 0)
    (hmd : md = GetRangeLocationMetaData D maxDepthID (Encode D gmin) (Encode D gmax)) :
    (md.DepthID ≤ maxDepthID ∧
      fitsAtDepth D maxDepthID md.DepthID gmin gmax ∧
      (∀ t, t ≤ maxDepthID → fitsAtDepth D maxDepthID t gmin gmax → t ≤ md.DepthID)) ∧
    (∀ d, d < D → (md.TouchedDimensionsFlag.testBit d = true ↔
        straddlesMidplane (maxDepthID - md.DepthID) (gmin.getD d 0) (gmax.getD d 0))) ∧
    (Encode D gmin = Encode D gmax → md.DepthID = maxDepthID ∧ md.TouchedDimensionsFlag = 0) ∧
    (Encode D gmin ≠ Encode D gmax →
      maxDepthID - md.DepthID =
        (Nat.size (Encode D gmin ^^^ Encode D gmax) + D - 1) / D) := by
  have henc1 : Encode D gmin = encodeBits D maxDepthID gmin := Encode_eq_encodeBits hb1
  have henc2 : Encode D gmax = encodeBits D maxDepthID gmax := Encode_eq_encodeBits hb2
  have hfits := fits_iff_size_xor_le hD hlen1 hlen2 hb1 hb2
  by_cases hcase : Encode D gmin = Encode D gmax
  · -- equal corners: deepest cell, empty flag, nothing straddles
    have hmd2 : md = ⟨maxDepthID, Encode D gmin, 0, 0⟩ := by
      rw [hmd]
      unfold GetRangeLocationMetaData
      rw [if_pos hcase]
    have hxor : encodeBits D maxDepthID gmin ^^^ encodeBits D maxDepthID gmax = 0 := by
      rw [← henc1, ← henc2, hcase, Nat.xor_self]
    have hdim : ∀ d, d < D → gmin.getD d 0 = gmax.getD d 0 := by
      intro d hd
      have h0 := (hfits 0).mpr (by rw [hxor]; simp) d hd
      simpa using h0
    subst hmd2
    refine ⟨⟨le_refl _, ?_, fun t ht _ => ht⟩, ?_, fun _ => ⟨rfl, rfl⟩, fun hne => absurd hcase hne⟩
    · intro d hd
      simp only [Nat.sub_self, Nat.shiftRight_zero]
      rw [hdim d hd]
    · intro d hd
      simp only [Nat.zero_testBit, Nat.sub_self]
      constructor
      · intro h
        exact absurd h (by simp)
      · intro hstrad
        exfalso
        rcases hstrad with ⟨h1, h2⟩
        simp only [Nat.shiftRight_zero, Nat.shiftLeft_eq, pow_zero, Nat.mul_one] at h1 h2
        have hde := hdim d hd
        omega
  · -- distinct corners: the level count is the ceiling of the xor width
    have hxorne : encodeBits D maxDepthID gmin ^^^ encodeBits D maxDepthID gmax ≠ 0 := by
      rw [← henc1, ← henc2]
      intro h
      exact hcase (Nat.xor_eq_zero.mp h)
    set s := Nat.size (encodeBits D maxDepthID gmin ^^^ encodeBits D maxDepthID gmax) with hs
    have hs1 : 1 ≤ s := by
      by_contra hcon
      push_neg at hcon
      have : s = 0 := by omega
      rw [hs] at this
      exact hxorne (Nat.size_eq_zero.mp this)
    have hsx : s ≤ maxDepthID * D := by
      rw [hs, Nat.size_le]
      exact xor_lt_two_pow (encodeBits_lt _ _ (le_of_eq hlen1))
        (encodeBits_lt _ _ (le_of_eq hlen2))
    set L := rangeLevelID D (Encode D gmin) (Encode D gmax) with hLdef
    have hLs : L = (s + D - 1) / D := by
      rw [hLdef]
      unfold rangeLevelID
      rw [henc1, henc2, hs]
    have hL1 : 1 ≤ L := by
      rw [hLs]
      rw [Nat.le_div_iff_mul_le hD]
      omega
    have hLmax : L ≤ maxDepthID := by
      rw [hLs, ceil_div_le_iff hD]
      calc s ≤ maxDepthID * D := hsx
        _ = D * maxDepthID := by ring
    have hsL : s ≤ L * D := by
      have := le_mul_ceil_div (s := s) hD
      rw [← hLs] at this
      calc s ≤ D * L := this
        _ = L * D := by ring
    have hmd2 : md = ⟨maxDepthID - L,
        ((Encode D gmin >>> ((L - 1) * D)) >>> D) <<< ((L - 1) * D + D),
        ((Encode D gmin ^^^ Encode D gmax) >>> ((L - 1) * D)) &&& (2 ^ D - 1),
        (Encode D gmin >>> ((L - 1) * D)) &&& (2 ^ D - 1)⟩ := by
      rw [hmd]
      unfold GetRangeLocationMetaData
      rw [if_neg hcase, if_pos (by rw [← hLdef]; omega), ← hLdef]
    have hdepth : md.DepthID = maxDepthID - L := by rw [hmd2]
    have hlevels : maxDepthID - md.DepthID = L := by
      rw [hdepth]
      omega
    have hfitsmd : fitsAtDepth D maxDepthID md.DepthID gmin gmax := by
      intro d hd
      rw [hlevels]
      exact (hfits L).mpr hsL d hd
    refine ⟨⟨by rw [hdepth]; omega, hfitsmd, ?_⟩, ?_, fun h => absurd h hcase, fun _ => ?_⟩
    · -- maximality of the fitting depth
      intro t ht hfit
      have hst : s ≤ (maxDepthID - t) * D := (hfits (maxDepthID - t)).mp (fun d hd => hfit d hd)
      have hLt : L ≤ maxDepthID - t := by
        rw [hLs, ceil_div_le_iff hD]
        calc s ≤ (maxDepthID - t) * D := hst
          _ = D * (maxDepthID - t) := by ring
      omega
    · -- touched-dimensions flag characterizes midplane straddling
      intro d hd
      have htch : md.TouchedDimensionsFlag =
          ((Encode D gmin ^^^ Encode D gmax) >>> ((L - 1) * D)) &&& (2 ^ D - 1) := by
        rw [hmd2]
      rw [htch, hlevels]
      rw [Nat.testBit_and, Nat.testBit_shiftRight, Nat.testBit_two_pow_sub_one]
      rw [decide_eq_true hd, Bool.and_true]
      have hchar : (Encode D gmin ^^^ Encode D gmax).testBit ((L - 1) * D + d) =
          ((gmin.getD d 0 ^^^ gmax.getD d 0)).testBit (L - 1) := by
        rw [henc1, henc2, Nat.testBit_xor, Nat.testBit_xor]
        rw [testBit_encodeBits_at hD hlen1 (L - 1) d hd,
          testBit_encodeBits_at hD hlen2 (L - 1) d hd]
        rw [decide_eq_true (show L - 1 < maxDepthID by omega)]
        simp
      rw [hchar]
      have hLsucc : L - 1 + 1 = L := by omega
      have hpre : (gmin.getD d 0) >>> (L - 1 + 1) = (gmax.getD d 0) >>> (L - 1 + 1) := by
        rw [hLsucc]
        exact (hfits L).mpr hsL d hd
      have := straddle_iff_xor_bit (hle d hd) hpre
      rw [hLsucc] at this
      exact this
    · -- levels stepped up from the bottom
      rw [hlevels, hLs, henc1, henc2, hs]

/-- Witness for C4 at a concrete input: dimension 2, depth 3, corners
(1, 2) and (3, 2); the box straddles the midplane in dimension 0 only. -/
theorem rangeLocationMetaData_correct_witness :
    ((GetRangeLocationMetaData 2 3 (Encode 2 [1, 2]) (Encode 2 [3, 2])).DepthID ≤ 3 ∧
      fitsAtDepth 2 3 (GetRangeLocationMetaData 2 3 (Encode 2 [1, 2])
        (Encode 2 [3, 2])).DepthID [1, 2] [3, 2] ∧
      (∀ t, t ≤ 3 → fitsAtDepth 2 3 t [1, 2] [3, 2] →
        t ≤ (GetRangeLocationMetaData 2 3 (Encode 2 [1, 2]) (Encode 2 [3, 2])).DepthID)) ∧
    (∀ d, d < 2 →
      ((GetRangeLocationMetaData 2 3 (Encode 2 [1, 2])
          (Encode 2 [3, 2])).TouchedDimensionsFlag.testBit d = true ↔
        straddlesMidplane
          (3 - (GetRangeLocationMetaData 2 3 (Encode 2 [1, 2]) (Encode 2 [3, 2])).DepthID)
          ([1, 2].getD d 0) ([3, 2].getD d 0))) ∧
    (Encode 2 [1, 2] = Encode 2 [3, 2] →
      (GetRangeLocationMetaData 2 3 (Encode 2 [1, 2]) (Encode 2 [3, 2])).DepthID = 3 ∧
      (GetRangeLocationMetaData 2 3 (Encode 2 [1, 2])
        (Encode 2 [3, 2])).TouchedDimensionsFlag = 0) ∧
    (Encode 2 [1, 2] ≠ Encode 2 [3, 2] →
      3 - (GetRangeLocationMetaData 2 3 (Encode 2 [1, 2]) (Encode 2 [3, 2])).DepthID =
        (Nat.size (Encode 2 [1, 2] ^^^ Encode 2 [3, 2]) + 2 - 1) / 2) :=
  rangeLocationMetaData_correct 2 3 [1, 2] [3, 2] _ (by norm_num) (by decide) (by decide)
    (by decide) (by decide) (by decide) rfl

/-! ### Ordering of range metadata (claim C5)

The claim states that at equal location id the deeper value (larger
`DepthID`) is ordered first; the source comparator orders the shallower
value first. -/

/-- Counterexample to C5 as stated: at equal location id `5`, the deeper
metadata (depth 2) is not ordered before the shallower one (depth 1); the
comparator orders the shallower one first. -/
theorem isLess_deeper_first_counterexample :
    IsLess ⟨2, 5, 0, 0⟩ ⟨1, 5, 0, 0⟩ = false ∧ IsLess ⟨1, 5, 0, 0⟩ ⟨2, 5, 0, 0⟩ = true := by
  decide

/-- Amended C5: the comparison is primarily by location id, and at equal
location id the shallower value (smaller `DepthID`) is ordered first. -/
theorem isLess_characterization (l r : RangeLocationMetaData) :
    (l.LocID ≠ r.LocID → (IsLess l r = true ↔ l.LocID < r.LocID)) ∧
    (l.LocID = r.LocID → (IsLess l r = true ↔ l.DepthID < r.DepthID)) := by
  unfold IsLess
  constructor
  · intro hne
    simp [hne]
  · intro heq
    simp [heq]

/-- Witness for the amended C5 at concrete metadata values. -/
theorem isLess_characterization_witness :
    (IsLess ⟨3, 4, 0, 0⟩ ⟨7, 5, 0, 0⟩ = true ↔ (4 : ℕ) < 5) ∧
    (IsLess ⟨1, 6, 0, 0⟩ ⟨2, 6, 0, 0⟩ = true ↔ (1 : ℕ) < 2) :=
  ⟨(isLess_characterization ⟨3, 4, 0, 0⟩ ⟨7, 5, 0, 0⟩).1 (by decide),
   (isLess_characterization ⟨1, 6, 0, 0⟩ ⟨2, 6, 0, 0⟩).2 rfl⟩

/-! ### Ray-box slab intersection (claim C6)

`AdaptorGeneralBase::GetRayBoxDistance` works on `double`; the embedding
uses exact rationals.  The source initializes the slab distances of
zero-direction dimensions with plus or minus
`std::numeric_limits<double>::max()`, a value it names `inf` and uses as an
absorbing sentinel for the max and min reductions; the embedding models it
by genuine infinities in an extended domain. -/

/-- Extended rational domain for per-dimension slab distances. -/
inductive XQ where
  | negInf : XQ
  | val : ℚ → XQ
  | posInf : XQ
  deriving DecidableEq, Repr

/-- Strict comparison on the extended domain. -/
def XQ.lt : XQ → XQ → Bool
  | XQ.negInf, XQ.negInf => false
  | XQ.negInf, _ => true
  | _, XQ.negInf => false
  | XQ.posInf, _ => false
  | XQ.val _, XQ.posInf => true
  | XQ.val a, XQ.val b => a < b

/-- Binary maximum on the extended domain. -/
def XQ.maxv (x y : XQ) : XQ := if XQ.lt x y then y else x

/-- Binary minimum on the extended domain. -/
def XQ.minv (x y : XQ) : XQ := if XQ.lt y x then y else x

/-- Value of `*std::max_element` over the slab array. -/
def XQ.listMax (l : List XQ) : XQ := l.foldl XQ.maxv XQ.negInf

/-- Value of `*std::min_element` over the slab array. -/
def XQ.listMin (l : List XQ) : XQ := l.foldl XQ.minv XQ.posInf

/-- Containment test of one dimension used by
`AdaptorGeneralBase::DoesBoxContainPoint`: strict on the tolerance-widened
box when the tolerance is nonzero, non-strict otherwise. -/
def containsDim (boxMin boxMax point : List ℚ) (tol : ℚ) (d : ℕ) : Bool :=
  if tol ≠ 0 then
    decide (boxMin.getD d 0 - tol < point.getD d 0) &&
      decide (point.getD d 0 < boxMax.getD d 0 + tol)
  else
    decide (boxMin.getD d 0 ≤ point.getD d 0) &&
      decide (point.getD d 0 ≤ boxMax.getD d 0)

/-- Transcription of `AdaptorGeneralBase::DoesBoxContainPoint`. -/
def DoesBoxContainPoint (D : ℕ) (boxMin boxMax point : List ℚ) (tol : ℚ) : Bool :=
  (List.range D).all (containsDim boxMin boxMax point tol)

/-- Per-dimension slab loop of `AdaptorGeneralBase::GetRayBoxDistance`: a
zero-direction dimension whose origin misses the (widened) slab aborts with
`none`; otherwise it contributes the sentinel pair; a nonzero direction
contributes the two crossing distances, ordered by the sign branch of the
source.  Division stands for the multiplication by `dirCompRecip`. -/
def slabDistances (boxMin boxMax o dir : List ℚ) (tol : ℚ) : List ℕ → Option (List XQ × List XQ)
  | [] => some ([], [])
  | d :: ds =>
      let dirComp := dir.getD d 0
      if dirComp = 0 then
        if containsDim boxMin boxMax o tol d then
          (slabDistances boxMin boxMax o dir tol ds).map
            (fun p => (XQ.negInf :: p.1, XQ.posInf :: p.2))
        else
          none
      else
        let minB := boxMin.getD d 0 - tol
        let maxB := boxMax.getD d 0 + tol
        let p := o.getD d 0
        if dirComp < 0 then
          (slabDistances boxMin boxMax o dir tol ds).map
            (fun q => (XQ.val ((maxB - p) / dirComp) :: q.1, XQ.val ((minB - p) / dirComp) :: q.2))
        else
          (slabDistances boxMin boxMax o dir tol ds).map
            (fun q => (XQ.val ((minB - p) / dirComp) :: q.1, XQ.val ((maxB - p) / dirComp) :: q.2))

/-- Transcription of `AdaptorGeneralBase::GetRayBoxDistance`. -/
def GetRayBoxDistance (D : ℕ) (boxMin boxMax o dir : List ℚ) (tol : ℚ) : Option XQ :=
  if DoesBoxContainPoint D boxMin boxMax o tol then some (XQ.val 0)
  else
    match slabDistances boxMin boxMax o dir tol (List.range D) with
    | none => none
    | some (minDs, maxDs) =>
        let tMin := XQ.listMax minDs
        let tMax := XQ.listMin maxDs
        if XQ.lt tMax tMin || XQ.lt tMax (XQ.val 0) then none
        else if XQ.lt tMin (XQ.val 0) then some tMax else some tMin

/-- Slab collection following the claim as written: per dimension
`t1 = (minBox - origin)/dir`, `t2 = (maxBox - origin)/dir`, swapped so
`t1 <= t2`, with no tolerance widening of the box; a zero-direction
dimension only checks that the origin lies within the slab (strict when the
tolerance is nonzero, non-strict when it is zero) and contributes no
crossing distance. -/
def claimedSlabs (boxMin boxMax o dir : List ℚ) (tol : ℚ) : List ℕ → Option (List (ℚ × ℚ))
  | [] => some []
  | d :: ds =>
      let dirComp := dir.getD d 0
      if dirComp = 0 then
        if containsDim boxMin boxMax o tol d then claimedSlabs boxMin boxMax o dir tol ds
        else none
      else
        let t1 := (boxMin.getD d 0 - o.getD d 0) / dirComp
        let t2 := (boxMax.getD d 0 - o.getD d 0) / dirComp
        let lo := if t1 ≤ t2 then t1 else t2
        let hi := if t1 ≤ t2 then t2 else t1
        (claimedSlabs boxMin boxMax o dir tol ds).map (fun ts => (lo, hi) :: ts)

/-- The ray-box distance as claim C6 words it: the pure slab-method result,
`nullopt` when `tMin > tMax` or `tMax < 0`, else `tMin` when `tMin >= 0`
else `tMax`; a ray whose every direction component is zero is inside-or-miss
(hit at distance zero when every slab check passes). -/
def RayBoxDistanceClaimed (D : ℕ) (boxMin boxMax o dir : List ℚ) (tol : ℚ) : Option ℚ :=
  match claimedSlabs boxMin boxMax o dir tol (List.range D) with
  | none => none
  | some [] => some 0
  | some ((a, b) :: rest) =>
      let tMin := (rest.map Prod.fst).foldl max a
      let tMax := (rest.map Prod.snd).foldl min b
      if tMin > tMax ∨ tMax < 0 then none
      else if 0 ≤ tMin then some tMin else some tMax

/-- Counterexample to C6 as stated: for the one-dimensional box with corners
0 and 2, origin 1, direction 1 and zero tolerance, the slab method of the
claim yields the exit distance 1, but the source returns 0 through its
initial box-contains-origin test, which the claim omits. -/
theorem rayBoxDistance_claim_counterexample :
    GetRayBoxDistance 1 [0] [2] [1] [1] 0 = some (XQ.val 0) ∧
    RayBoxDistanceClaimed 1 [0] [2] [1] [1] 0 = some 1 ∧
    ¬ (GetRayBoxDistance 1 [0] [2] [1] [1] 0 = some (XQ.val 1)) := by
  refine ⟨?_, ?_, ?_⟩ <;>
    norm_num [GetRayBoxDistance, RayBoxDistanceClaimed, claimedSlabs, DoesBoxContainPoint,
      containsDim, List.range_succ]

/-- Slab collection of the amended claim: as the claim words it, but with
the box widened by the tolerance, matching the source. -/
def amendedSlabs (boxMin boxMax o dir : List ℚ) (tol : ℚ) : List ℕ → Option (List XQ × List XQ)
  | [] => some ([], [])
  | d :: ds =>
      let dirComp := dir.getD d 0
      if dirComp = 0 then
        if containsDim boxMin boxMax o tol d then amendedSlabs boxMin boxMax o dir tol ds
        else none
      else
        let t1 := (boxMin.getD d 0 - tol - o.getD d 0) / dirComp
        let t2 := (boxMax.getD d 0 + tol - o.getD d 0) / dirComp
        let lo := if t1 ≤ t2 then t1 else t2
        let hi := if t1 ≤ t2 then t2 else t1
        (amendedSlabs boxMin boxMax o dir tol ds).map
          (fun q => (XQ.val lo :: q.1, XQ.val hi :: q.2))

/-- The ray-box distance of the amended claim C6: distance zero when the box
contains the origin (strictly within the tolerance-widened box when the
tolerance is nonzero, non-strictly when it is zero); otherwise the slab
method over the tolerance-widened box, zero-direction dimensions checked and
excluded; `none` when `tMin > tMax` or `tMax < 0`, else `tMin` when
`tMin >= 0` else `tMax`; a ray with all direction components zero is
inside-or-miss. -/
def RayBoxDistanceAmended (D : ℕ) (boxMin boxMax o dir : List ℚ) (tol : ℚ) : Option XQ :=
  if DoesBoxContainPoint D boxMin boxMax o tol then some (XQ.val 0)
  else
    match amendedSlabs boxMin boxMax o dir tol (List.range D) with
    | none => none
    | some ([], _) => none
    | some (minDs, maxDs) =>
        let tMin := XQ.listMax minDs
        let tMax := XQ.listMin maxDs
        if XQ.lt tMax tMin || XQ.lt tMax (XQ.val 0) then none
        else if XQ.lt tMin (XQ.val 0) then some tMax else some tMin

theorem maxv_negInf (a : XQ) : XQ.maxv a XQ.negInf = a := by
  cases a <;> rfl

theorem minv_posInf (a : XQ) : XQ.minv a XQ.posInf = a := by
  cases a <;> rfl

theorem foldl_maxv_filter (l : List XQ) (a : XQ) :
    (l.filter (fun x => x ≠ XQ.negInf)).foldl XQ.maxv a = l.foldl XQ.maxv a := by
  induction l generalizing a with
  | nil => rfl
  | cons x xs ih =>
      by_cases hx : x = XQ.negInf
      · subst hx
        simp only [List.filter_cons, List.foldl_cons]
        rw [maxv_negInf]
        simpa using ih a
      · simp only [List.filter_cons, List.foldl_cons]
        rw [if_pos (by simpa using hx)]
        simp only [List.foldl_cons]
        exact ih (XQ.maxv a x)

theorem foldl_minv_filter (l : List XQ) (a : XQ) :
    (l.filter (fun x => x ≠ XQ.posInf)).foldl XQ.minv a = l.foldl XQ.minv a := by
  induction l generalizing a with
  | nil => rfl
  | cons x xs ih =>
      by_cases hx : x = XQ.posInf
      · subst hx
        simp only [List.filter_cons, List.foldl_cons]
        rw [minv_posInf]
        simpa using ih a
      · simp only [List.filter_cons, List.foldl_cons]
        rw [if_pos (by simpa using hx)]
        simp only [List.foldl_cons]
        exact ih (XQ.minv a x)

/-- Relation between the source slab loop and the amended-claim slab loop:
they fail together, and on success the amended lists are exactly the source
lists with the sentinel entries of the zero-direction dimensions removed;
when no finite entry remains, every examined dimension had zero direction
and passed its containment check. -/
theorem slabDistances_amended_rel (boxMin boxMax o dir : List ℚ) (tol : ℚ) (htol : 0 ≤ tol)
    (dims : List ℕ) (hwf : ∀ d ∈ dims, boxMin.getD d 0 ≤ boxMax.getD d 0) :
    (slabDistances boxMin boxMax o dir tol dims = none ∧
       amendedSlabs boxMin boxMax o dir tol dims = none) ∨
    (∃ mins maxs,
       slabDistances boxMin boxMax o dir tol dims = some (mins, maxs) ∧
       amendedSlabs boxMin boxMax o dir tol dims =
         some (mins.filter (fun x => x ≠ XQ.negInf), maxs.filter (fun x => x ≠ XQ.posInf)) ∧
       (mins.filter (fun x => x ≠ XQ.negInf) = [] →
         ∀ d ∈ dims, containsDim boxMin boxMax o tol d = true)) := by
  induction dims with
  | nil =>
      right
      exact ⟨[], [], rfl, rfl, fun _ d hd => absurd hd (List.not_mem_nil d)⟩
  | cons d ds ih =>
      have hwfd : boxMin.getD d 0 ≤ boxMax.getD d 0 := hwf d (List.mem_cons_self d ds)
      have hwfds : ∀ x ∈ ds, boxMin.getD x 0 ≤ boxMax.getD x 0 :=
        fun x hx => hwf x (List.mem_cons_of_mem d hx)
      by_cases hdir : dir.getD d 0 = 0
      · by_cases hcont : containsDim boxMin boxMax o tol d = true
        · rcases ih hwfds with ⟨h1, h2⟩ | ⟨mins, maxs, h1, h2, h3⟩
          · left
            constructor
            · simp only [slabDistances]
              rw [if_pos hdir, if_pos hcont, h1]
              rfl
            · simp only [amendedSlabs]
              rw [if_pos hdir, if_pos hcont, h2]
          · right
            refine ⟨XQ.negInf :: mins, XQ.posInf :: maxs, ?_, ?_, ?_⟩
            · simp only [slabDistances]
              rw [if_pos hdir, if_pos hcont, h1]
              rfl
            · simp only [amendedSlabs]
              rw [if_pos hdir, if_pos hcont, h2]
              simp
            · intro hemp x hx
              have hemp2 : mins.filter (fun x => x ≠ XQ.negInf) = [] := by
                simpa using hemp
              rcases List.mem_cons.mp hx with rfl | hmem
              · exact hcont
              · exact h3 hemp2 x hmem
        · left
          constructor
          · simp only [slabDistances]
            rw [if_pos hdir, if_neg hcont]
          · simp only [amendedSlabs]
            rw [if_pos hdir, if_neg hcont]
      · -- nonzero direction: the sign branch of the source equals the swap of the claim
        have hnum : boxMin.getD d 0 - tol - o.getD d 0 ≤ boxMax.getD d 0 + tol - o.getD d 0 := by
          linarith
        have hswap1 :
            (if (boxMin.getD d 0 - tol - o.getD d 0) / dir.getD d 0 ≤
                (boxMax.getD d 0 + tol - o.getD d 0) / dir.getD d 0 then
               (boxMin.getD d 0 - tol - o.getD d 0) / dir.getD d 0
             else (boxMax.getD d 0 + tol - o.getD d 0) / dir.getD d 0) =
            (if dir.getD d 0 < 0 then (boxMax.getD d 0 + tol - o.getD d 0) / dir.getD d 0
             else (boxMin.getD d 0 - tol - o.getD d 0) / dir.getD d 0) := by
          rcases lt_trichotomy (dir.getD d 0) 0 with hneg | hzero | hpos
          · have hflip := (div_le_div_right_of_neg hneg).mpr hnum
            rw [if_pos hneg]
            by_cases heq : (boxMin.getD d 0 - tol - o.getD d 0) / dir.getD d 0 ≤
                (boxMax.getD d 0 + tol - o.getD d 0) / dir.getD d 0
            · rw [if_pos heq]
              exact le_antisymm heq hflip
            · rw [if_neg heq]
          · exact absurd hzero hdir
          · have hmono := (div_le_div_iff_of_pos_right hpos).mpr hnum
            rw [if_pos hmono, if_neg (asymm hpos)]
        have hswap2 :
            (if (boxMin.getD d 0 - tol - o.getD d 0) / dir.getD d 0 ≤
                (boxMax.getD d 0 + tol - o.getD d 0) / dir.getD d 0 then
               (boxMax.getD d 0 + tol - o.getD d 0) / dir.getD d 0
             else (boxMin.getD d 0 - tol - o.getD d 0) / dir.getD d 0) =
            (if dir.getD d 0 < 0 then (boxMin.getD d 0 - tol - o.getD d 0) / dir.getD d 0
             else (boxMax.getD d 0 + tol - o.getD d 0) / dir.getD d 0) := by
          rcases lt_trichotomy (dir.getD d 0) 0 with hneg | hzero | hpos
          · have hflip := (div_le_div_right_of_neg hneg).mpr hnum
            rw [if_pos hneg]
            by_cases heq : (boxMin.getD d 0 - tol - o.getD d 0) / dir.getD d 0 ≤
                (boxMax.getD d 0 + tol - o.getD d 0) / dir.getD d 0
            · rw [if_pos heq]
              exact le_antisymm hflip heq
            · rw [if_neg heq]
          · exact absurd hzero hdir
          · have hmono := (div_le_div_iff_of_pos_right hpos).mpr hnum
            rw [if_pos hmono, if_neg (asymm hpos)]
        rcases ih hwfds with ⟨h1, h2⟩ | ⟨mins, maxs, h1, h2, _h3⟩
        · left
          constructor
          · simp only [slabDistances]
            rw [if_neg hdir]
            rcases lt_or_ge (dir.getD d 0) 0 with hneg | hge
            · rw [if_pos hneg, h1]
              rfl
            · rw [if_neg (not_lt.mpr hge), h1]
              rfl
          · simp only [amendedSlabs]
            rw [if_neg hdir, h2]
            rfl
        · right
          refine ⟨XQ.val (if dir.getD d 0 < 0 then
                    (boxMax.getD d 0 + tol - o.getD d 0) / dir.getD d 0
                  else (boxMin.getD d 0 - tol - o.getD d 0) / dir.getD d 0) :: mins,
                  XQ.val (if dir.getD d 0 < 0 then
                    (boxMin.getD d 0 - tol - o.getD d 0) / dir.getD d 0
                  else (boxMax.getD d 0 + tol - o.getD d 0) / dir.getD d 0) :: maxs, ?_, ?_, ?_⟩
          · simp only [slabDistances]
            rw [if_neg hdir]
            rcases lt_or_ge (dir.getD d 0) 0 with hneg | hge
            · rw [if_pos hneg, h1, if_pos hneg, if_pos hneg]
              rfl
            · rw [if_neg (not_lt.mpr hge), h1, if_neg (not_lt.mpr hge), if_neg (not_lt.mpr hge)]
              rfl
          · simp only [amendedSlabs]
            rw [if_neg hdir, h2]
            simp only [Option.map_some']
            rw [hswap1, hswap2]
            simp [List.filter_cons]
          · intro hemp
            exfalso
            simp at hemp

/-- Amended claim C6: the source returns 0 whenever the box contains the ray
origin (strictly within the tolerance-widened box when the tolerance is
nonzero, non-strictly when zero), and otherwise the slab-method result over
the tolerance-widened box exactly as the claim describes it, with
zero-direction dimensions checked against their slab and a zero-direction
ray being inside-or-miss. -/
theorem rayBoxDistance_amended_correct (D : ℕ) (boxMin boxMax o dir : List ℚ) (tol : ℚ)
    (htol : 0 ≤ tol) (hwf : ∀ d, d < D → boxMin.getD d 0 ≤ boxMax.getD d 0) :
    GetRayBoxDistance D boxMin boxMax o dir tol =
      RayBoxDistanceAmended D boxMin boxMax o dir tol := by
  unfold GetRayBoxDistance RayBoxDistanceAmended
  by_cases hc : DoesBoxContainPoint D boxMin boxMax o tol = true
  · rw [if_pos hc, if_pos hc]
  · rw [if_neg hc, if_neg hc]
    rcases slabDistances_amended_rel boxMin boxMax o dir tol htol (List.range D)
        (fun d hd => hwf d (List.mem_range.mp hd)) with ⟨h1, h2⟩ | ⟨mins, maxs, h1, h2, hemp⟩
    · rw [h1, h2]
    · rw [h1, h2]
      rcases hfil : mins.filter (fun x => x ≠ XQ.negInf) with _ | ⟨a, as⟩
      · -- every direction component is zero and passed: containment must hold
        exfalso
        apply hc
        unfold DoesBoxContainPoint
        rw [List.all_eq_true]
        exact fun d hd => hemp hfil d hd
      · -- identical finite reduction on both sides
        have e1 : XQ.listMax (a :: as) = XQ.listMax mins := by
          rw [← hfil]
          unfold XQ.listMax
          exact foldl_maxv_filter mins XQ.negInf
        have e2 : XQ.listMin (maxs.filter (fun x => x ≠ XQ.posInf)) = XQ.listMin maxs := by
          unfold XQ.listMin
          exact foldl_minv_filter maxs XQ.posInf
        simp only [e1, e2]

/-- Witness for the amended C6 at a concrete input: a one-dimensional box
with corners 0 and 2, origin 5, direction -1 and zero tolerance. -/
theorem rayBoxDistance_amended_correct_witness :
    GetRayBoxDistance 1 [0] [2] [5] [-1] 0 = RayBoxDistanceAmended 1 [0] [2] [5] [-1] 0 :=
  rayBoxDistance_amended_correct 1 [0] [2] [5] [-1] 0 le_rfl
    (by
      intro d hd
      have hd0 : d = 0 := by omega
      subst hd0
      norm_num)

/-! ### Node store and edit operations (`OrthoTreeBase`, `OrthoTreePoint`, `OrthoTreeBoundingBox`)

The node store is a hash map from node keys to nodes; the embedding uses an
association list with unique keys.  The iteration order of the C++
`unordered_map` is unspecified; the operations modelled here only iterate it
where the result does not depend on the order (single-residence erase of a
point entity, id renumbering, removal of collected empty nodes).  A node
carries its entity ids (`std::vector`, in insertion order) and its child
keys (kept sorted by `AddChildInOrder`); the optional cached center is
geometry derived and not part of the store model. -/

/-- Per-node record (`OrthoTreeBase::Node`). -/
structure TreeNode where
  entities : List ℕ
  children : List ℕ
  deriving DecidableEq, Repr

/-- Node with no entities and no children, the state `CreateChild` produces
(the cached center aside). -/
def TreeNode.empty : TreeNode := ⟨[], []⟩

/-- Transcription of `Node::AddEntity` (`push_back`). -/
def TreeNode.addEntity (n : TreeNode) (e : ℕ) : TreeNode :=
  { n with entities := n.entities ++ [e] }

/-- Transcription of `Node::RemoveEntity` (`std::remove` then `erase`);
the boolean reports whether the id was present. -/
def TreeNode.removeEntity (n : TreeNode) (e : ℕ) : TreeNode × Bool :=
  ({ n with entities := n.entities.filter (fun x => x ≠ e) }, n.entities.contains e)

/-- Transcription of `Node::DecreaseEntityIDs`. -/
def TreeNode.decreaseEntityIDs (n : TreeNode) (removedEntityID : ℕ) : TreeNode :=
  { n with entities := n.entities.map (fun id => id - (if removedEntityID < id then 1 else 0)) }

/-- Sorted insertion used by `Node::AddChildInOrder` (`lower_bound` and
insert unless already present). -/
def insertOrdered : List ℕ → ℕ → List ℕ
  | [], k => [k]
  | x :: xs, k => if k < x then k :: x :: xs else if k = x then x :: xs else x :: insertOrdered xs k

/-- Transcription of `Node::AddChildInOrder`. -/
def TreeNode.addChildInOrder (n : TreeNode) (k : ℕ) : TreeNode :=
  { n with children := insertOrdered n.children k }

/-- Removal at the `lower_bound` position used by `Node::RemoveChild`: the
first element not below the key is erased when one exists. -/
def eraseOrdered : List ℕ → ℕ → List ℕ
  | [], _ => []
  | x :: xs, k => if x < k then x :: eraseOrdered xs k else xs

/-- Transcription of `Node::RemoveChild`. -/
def TreeNode.removeChild (n : TreeNode) (k : ℕ) : TreeNode :=
  { n with children := eraseOrdered n.children k }

/-- Transcription of `Node::HasChild` (`binary_search` over the sorted
child list). -/
def TreeNode.hasChild (n : TreeNode) (k : ℕ) : Bool := n.children.contains k

/-- Transcription of `Node::IsAnyChildExist`. -/
def TreeNode.isAnyChildExist (n : TreeNode) : Bool := !n.children.isEmpty

/-- Node store keyed by Morton node id. -/
abbrev NodeMap : Type := List (ℕ × TreeNode)

/-- Key lookup (`m_nodes.contains`). -/
def containsKey (nodes : NodeMap) (k : ℕ) : Bool :=
  nodes.any (fun p => p.1 == k)

/-- Value lookup (`m_nodes.at`, `GetNode`); total with the empty node as
default, only used at present keys. -/
def getNode (nodes : NodeMap) (k : ℕ) : TreeNode :=
  match nodes.find? (fun p => p.1 == k) with
  | some p => p.2
  | none => TreeNode.empty

/-- In-place update of the node stored under a present key. -/
def updateNode (nodes : NodeMap) (k : ℕ) (f : TreeNode → TreeNode) : NodeMap :=
  nodes.map (fun p => if p.1 = k then (p.1, f p.2) else p)

/-- Transcription of `m_nodes.emplace` with a fresh node: no effect when the
key is already present. -/
def emplaceNode (nodes : NodeMap) (k : ℕ) : NodeMap :=
  if containsKey nodes k then nodes else nodes ++ [(k, TreeNode.empty)]

/-- Transcription of `m_nodes.erase`. -/
def eraseNodeKey (nodes : NodeMap) (k : ℕ) : NodeMap :=
  nodes.filter (fun p => p.1 ≠ k)

/-- Tree state: the node store plus the grid configuration fixed by
`InitBase` (`m_maxDepthID`, `m_maxElementNo`, and the world box of
`GridSpaceIndexing`). -/
structure TreeState where
  nodes : NodeMap
  maxDepthID : ℕ
  maxElementNo : ℕ
  worldMin : List ℚ
  worldMax : List ℚ
  deriving DecidableEq

/-- Transcription of `OrthoTreeBase::InitBase`: the store starts with the
root node under key 1 (the `CRASH_IF` preconditions - a depth id in
`[1, MAX_THEORETICAL_DEPTH_ID]` and a positive element limit - are the
callers obligation). -/
def initBase (maxDepthID maxElementNo : ℕ) (worldMin worldMax : List ℚ) : TreeState :=
  ⟨[(1, TreeNode.empty)], maxDepthID, maxElementNo, worldMin, worldMax⟩

/-- Raster factor of one dimension
(`GridSpaceIndexing::GridSpaceIndexing`): resolution over size, 1 for a
flat dimension. -/
def rasterFactor (s : TreeState) (d : ℕ) : ℚ :=
  let size := s.worldMax.getD d 0 - s.worldMin.getD d 0
  if size = 0 then 1 else (2 ^ s.maxDepthID : ℚ) / size

/-- Transcription of `GridSpaceIndexing::GetPointGridID` without
out-of-tree handling (the world-box check precedes every use modelled
here): truncate the scaled offset and clamp to the last cell. -/
def getPointGridID (D : ℕ) (s : TreeState) (p : List ℚ) : List ℕ :=
  (List.range D).map fun d =>
    min (2 ^ s.maxDepthID - 1) (Int.toNat ⌊(p.getD d 0 - s.worldMin.getD d 0) * rasterFactor s d⌋)

/-- Location id of a point (`OrthoTreeBase::GetLocationID`). -/
def getLocationID (D : ℕ) (s : TreeState) (p : List ℚ) : ℕ :=
  Encode D (getPointGridID D s p)

/-- Transcription of `MortonSpaceIndexing::GetHashAtDepth`. -/
def GetHashAtDepth (D : ℕ) (loc : RangeLocationMetaData) (maxDepthID : ℕ) : ℕ :=
  (1 <<< (loc.DepthID * D)) ||| (loc.LocID >>> ((maxDepthID - loc.DepthID) * D))

/-- Transcription of `OrthoTreeBase::FindSmallestNodeKey`: walk the parent
chain until an existing node is found; 0 when none is. -/
def findSmallestNodeKey (nodes : NodeMap) (D : ℕ) (hD : 0 < D) (key : ℕ) : ℕ :=
  if key = 0 then 0
  else if containsKey nodes key then key
  else findSmallestNodeKey nodes D hD (key >>> D)
termination_by key
decreasing_by
  rename_i hk _
  rw [Nat.shiftRight_eq_div_pow]
  exact Nat.div_lt_self (by omega) (Nat.one_lt_two_pow_iff.mpr (by omega))

/-- Transcription of `OrthoTreeBase::FindSmallestNodeKeyWithDepth`; the
second component mirrors the decremented depth counter of the loop. -/
def findSmallestNodeKeyWithDepth (nodes : NodeMap) (D : ℕ) (hD : 0 < D) (key depth : ℕ) :
    ℕ × ℕ :=
  if key = 0 then (0, 0)
  else if containsKey nodes key then (key, depth)
  else findSmallestNodeKeyWithDepth nodes D hD (key >>> D) (depth - 1)
termination_by key
decreasing_by
  rename_i hk _
  rw [Nat.shiftRight_eq_div_pow]
  exact Nat.div_lt_self (by omega) (Nat.one_lt_two_pow_iff.mpr (by omega))

/-- Stack built by the `doInsertToLeaf` branch of
`InsertWithoutRebalancingBase`: missing keys from the entity key upward,
stopping at the first existing key or at the given parent key. -/
def missingChain (nodes : NodeMap) (D : ℕ) (hD : 0 < D) (existingParentKey key : ℕ) :
    List ℕ :=
  if key = 0 then []
  else if key = existingParentKey then []
  else if containsKey nodes key then []
  else key :: missingChain nodes D hD existingParentKey (key >>> D)
termination_by key
decreasing_by
  rename_i hk _ _
  rw [Nat.shiftRight_eq_div_pow]
  exact Nat.div_lt_self (by omega) (Nat.one_lt_two_pow_iff.mpr (by omega))

/-- Key at which the stack construction stopped. -/
def chainStop (nodes : NodeMap) (D : ℕ) (hD : 0 < D) (existingParentKey key : ℕ) : ℕ :=
  if key = 0 then 0
  else if key = existingParentKey then key
  else if containsKey nodes key then key
  else chainStop nodes D hD existingParentKey (key >>> D)
termination_by key
decreasing_by
  rename_i hk _ _
  rw [Nat.shiftRight_eq_div_pow]
  exact Nat.div_lt_self (by omega) (Nat.one_lt_two_pow_iff.mpr (by omega))

/-- Creation loop of the `doInsertToLeaf` branch: pop the shallowest missing
key, link it under the current parent, emplace it, descend. -/
def createChain (nodes : NodeMap) (parentKey : ℕ) : List ℕ → NodeMap × ℕ
  | [] => (nodes, parentKey)
  | k :: ks =>
      let nodes1 := updateNode nodes parentKey (fun n => n.addChildInOrder k)
      let nodes2 := emplaceNode nodes1 k
      createChain nodes2 k ks

/-- Transcription of `OrthoTreeBase::InsertWithoutRebalancingBase` (the
debug-only uniqueness assert is omitted); it returns `true` on every path. -/
def insertWithoutRebalancingBase (D : ℕ) (hD : 0 < D) (nodes : NodeMap)
    (existingParentNodeKey entityNodeKey entityID : ℕ) (doInsertToLeaf : Bool) :
    NodeMap × Bool :=
  if entityNodeKey = existingParentNodeKey then
    (updateNode nodes entityNodeKey (fun n => n.addEntity entityID), true)
  else if doInsertToLeaf then
    let stack := missingChain nodes D hD existingParentNodeKey entityNodeKey
    let start := chainStop nodes D hD existingParentNodeKey entityNodeKey
    let created := createChain nodes start stack.reverse
    (updateNode created.1 created.2 (fun n => n.addEntity entityID), true)
  else
    let parentNode := getNode nodes existingParentNodeKey
    if parentNode.isAnyChildExist then
      let parentDepth := GetDepthID D existingParentNodeKey
      let childDepth := GetDepthID D entityNodeKey
      let childID := (entityNodeKey >>> (D * (childDepth - parentDepth - 1))) &&& (2 ^ D - 1)
      let childNodeKey := (existingParentNodeKey <<< D) ||| childID
      let nodes1 := updateNode nodes existingParentNodeKey (fun n => n.addChildInOrder childNodeKey)
      let nodes2 := emplaceNode nodes1 childNodeKey
      (updateNode nodes2 childNodeKey (fun n => n.addEntity entityID), true)
    else
      (updateNode nodes existingParentNodeKey (fun n => n.addEntity entityID), true)

/-- Transcription of `OrthoTreeBase::RemoveNodeIfPossible`: a non-root node
with no children and no entities is unlinked from its parent and erased. -/
def removeNodeIfPossible (D : ℕ) (nodes : NodeMap) (nodeKey : ℕ) : NodeMap :=
  if nodeKey = 1 then nodes
  else
    let node := getNode nodes nodeKey
    if node.isAnyChildExist || !node.entities.isEmpty then nodes
    else
      eraseNodeKey (updateNode nodes (nodeKey >>> D) (fun n => n.removeChild nodeKey)) nodeKey

/-- Transcription of `OrthoTreeBase::EraseEntityBase`.  For the single-node
variant the first store entry holding the id is updated (an entity id is
resident in one node there, so the unspecified map order is immaterial);
for the multi-node variant the id is removed everywhere and the touched
nodes are then garbage tested one by one. -/
def eraseEntityBase (D : ℕ) (s : TreeState) (entityID : ℕ)
    (multiNode doUpdateEntityIDs : Bool) : TreeState × Bool :=
  if multiNode then
    let erasable := (s.nodes.filter (fun p => p.2.entities.contains entityID)).map (fun p => p.1)
    if erasable.isEmpty then (s, false)
    else
      let nodes1 := s.nodes.map
        (fun p => (p.1, (p.2.removeEntity entityID).1))
      let nodes2 := erasable.foldl (fun acc k => removeNodeIfPossible D acc k) nodes1
      let nodes3 :=
        if doUpdateEntityIDs then
          nodes2.map (fun p => (p.1, p.2.decreaseEntityIDs entityID))
        else nodes2
      ({ s with nodes := nodes3 }, true)
  else
    match s.nodes.find? (fun p => p.2.entities.contains entityID) with
    | none => (s, false)
    | some hit =>
        let nodes1 := updateNode s.nodes hit.1 (fun n => (n.removeEntity entityID).1)
        let nodes2 := removeNodeIfPossible D nodes1 hit.1
        let nodes3 :=
          if doUpdateEntityIDs then
            nodes2.map (fun p => (p.1, p.2.decreaseEntityIDs entityID))
          else nodes2
        ({ s with nodes := nodes3 }, true)

/-! ### Point tree operations (`OrthoTreePoint`) -/

/-- Transcription of `OrthoTreePoint::Insert`: world-box guard, smallest
existing ancestor of the finest-cell key of the point, then
`InsertWithoutRebalancingBase`. -/
def pointInsert (D : ℕ) (hD : 0 < D) (s : TreeState) (newEntityID : ℕ) (newPoint : List ℚ)
    (doInsertToLeaf : Bool) : TreeState × Bool :=
  if DoesBoxContainPoint D s.worldMin s.worldMax newPoint 0 then
    let entityNodeKey := GetHash D s.maxDepthID (getLocationID D s newPoint)
    let smallestNodeKey := findSmallestNodeKey s.nodes D hD entityNodeKey
    if smallestNodeKey = 0 then (s, false)
    else
      let r := insertWithoutRebalancingBase D hD s.nodes smallestNodeKey entityNodeKey
        newEntityID doInsertToLeaf
      ({ s with nodes := r.1 }, r.2)
  else (s, false)

/-- Transcription of `OrthoTreePoint::EraseEntity`
(`EraseEntityBase<false, DO_UPDATE_ENTITY_IDS>`). -/
def pointEraseEntity (D : ℕ) (s : TreeState) (entityID : ℕ) (doUpdateEntityIDs : Bool) :
    TreeState × Bool :=
  eraseEntityBase D s entityID false doUpdateEntityIDs

/-- Control-flow cases of `InsertWithRebalancingBase`. -/
inductive RebalanceFlow where
  | insertInParentNode
  | shouldCreateOnlyOneChild
  | fullRebalancing
  deriving DecidableEq, Repr

/-- Transcription of `OrthoTreeBase::InsertWithRebalancingBase`
instantiated for the point tree (`doSplit` is `false`, so no entity is
split and `SplitToChildren` is unreachable; point locations always carry
`DepthID = maxDepthID`).  The recursion of the full-rebalancing branch
descends to a strictly deeper existing node each time; the fuel bounds it
by the remaining depth and is never exhausted on the reachable states. -/
def insertWithRebalancingBasePoint (D : ℕ) (hD : 0 < D) (maxDepthID maxElementNo : ℕ)
    (entityLoc : ℕ → RangeLocationMetaData) :
    ℕ → NodeMap → ℕ → ℕ → RangeLocationMetaData → ℕ → NodeMap × Bool
  | 0, nodes, _, _, _, _ => (nodes, true)
  | fuel + 1, nodes, parentNodeKey, parentDepth, newEntityLocation, newEntityID =>
      let newEntityNodeKey := GetHashAtDepth D newEntityLocation maxDepthID
      let shouldInsertInParentNode := newEntityNodeKey = parentNodeKey
      let parentNode := getNode nodes parentNodeKey
      let cf : RebalanceFlow :=
        if parentDepth = maxDepthID then .insertInParentNode
        else if parentNode.isAnyChildExist ∧ ¬ shouldInsertInParentNode then
          .shouldCreateOnlyOneChild
        else if parentNode.entities.length + 1 ≥ maxElementNo then .fullRebalancing
        else .insertInParentNode
      match cf with
      | .insertInParentNode =>
          (updateNode nodes parentNodeKey (fun n => n.addEntity newEntityID), true)
      | .shouldCreateOnlyOneChild =>
          let childID :=
            (newEntityLocation.LocID >>> (D * (maxDepthID - parentDepth - 1))) &&& (2 ^ D - 1)
          let childNodeKey := (parentNodeKey <<< D) ||| childID
          let nodes1 := updateNode nodes parentNodeKey (fun n => n.addChildInOrder childNodeKey)
          let nodes2 := emplaceNode nodes1 childNodeKey
          (updateNode nodes2 childNodeKey (fun n => n.addEntity newEntityID), true)
      | .fullRebalancing =>
          let nodes1 := updateNode nodes parentNodeKey (fun n => n.addEntity newEntityID)
          let snapshot := (getNode nodes1 parentNodeKey).entities
          let step := fun (acc : NodeMap × List ℕ) (entityID : ℕ) =>
            let eloc := entityLoc entityID
            if eloc.DepthID ≤ parentDepth then (acc.1, acc.2 ++ [entityID])
            else
              let childID :=
                (eloc.LocID >>> (D * (maxDepthID - parentDepth - 1))) &&& (2 ^ D - 1)
              let childNodeKey := (parentNodeKey <<< D) ||| childID
              if (getNode acc.1 parentNodeKey).hasChild childNodeKey then
                let entityNodeKey := GetHashAtDepth D eloc maxDepthID
                let sm := findSmallestNodeKeyWithDepth acc.1 D hD entityNodeKey
                  (GetDepthID D entityNodeKey)
                ((insertWithRebalancingBasePoint D hD maxDepthID maxElementNo entityLoc
                    fuel acc.1 sm.1 sm.2 eloc entityID).1, acc.2)
              else
                let nodes2 := updateNode acc.1 parentNodeKey
                  (fun n => n.addChildInOrder childNodeKey)
                let nodes3 := emplaceNode nodes2 childNodeKey
                (updateNode nodes3 childNodeKey (fun n => n.addEntity entityID), acc.2)
          let folded := snapshot.foldl step (nodes1, [])
          (updateNode folded.1 parentNodeKey (fun n => { n with entities := folded.2 }), true)

/-- Range location metadata of a point
(`OrthoTreeBase::GetRangeLocationMetaData` for a vector): depth is the
maximal depth, no touched dimensions. -/
def pointLocation (D : ℕ) (s : TreeState) (p : List ℚ) : RangeLocationMetaData :=
  ⟨s.maxDepthID, getLocationID D s p, 0, 0⟩

/-- Transcription of `OrthoTreePoint::InsertWithRebalancing`. -/
def pointInsertWithRebalancing (D : ℕ) (hD : 0 < D) (s : TreeState) (newEntityID : ℕ)
    (newPoint : List ℚ) (points : List (List ℚ)) : TreeState × Bool :=
  if DoesBoxContainPoint D s.worldMin s.worldMax newPoint 0 then
    let entityLocation := pointLocation D s newPoint
    let entityNodeKey := GetHash D s.maxDepthID entityLocation.LocID
    let sm := findSmallestNodeKeyWithDepth s.nodes D hD entityNodeKey
      (GetDepthID D entityNodeKey)
    if sm.1 = 0 then (s, false)
    else
      let r := insertWithRebalancingBasePoint D hD s.maxDepthID s.maxElementNo
        (fun id => pointLocation D s (points.getD id []))
        (s.maxDepthID + 1 - sm.2) s.nodes sm.1 sm.2 entityLocation newEntityID
      ({ s with nodes := r.1 }, r.2)
  else (s, false)

/-- Transcription of `OrthoTreePoint::Update` (new-point form): world guard,
erase by id without renumbering, then plain insert. -/
def pointUpdate (D : ℕ) (hD : 0 < D) (s : TreeState) (entityID : ℕ) (newPoint : List ℚ)
    (doInsertToLeaf : Bool) : TreeState × Bool :=
  if DoesBoxContainPoint D s.worldMin s.worldMax newPoint 0 then
    let e := eraseEntityBase D s entityID false false
    if e.2 then pointInsert D hD e.1 entityID newPoint doInsertToLeaf
    else (e.1, false)
  else (s, false)

/-! ### Bounding-box tree operations (`OrthoTreeBoundingBox`) -/

/-- Transcription of `InternalGeometryModule::DoesRangeContainBoxAD`. -/
def DoesRangeContainBox (D : ℕ) (rangeMin rangeMax boxMin boxMax : List ℚ) : Bool :=
  (List.range D).all fun d =>
    !(decide (rangeMin.getD d 0 > boxMin.getD d 0) || decide (boxMin.getD d 0 > rangeMax.getD d 0)
      || decide (rangeMin.getD d 0 > boxMax.getD d 0)
      || decide (boxMax.getD d 0 > rangeMax.getD d 0))

/-- Transcription of `GridSpaceIndexing::GetBoxGridID` (box classification
path, no out-of-tree handling): both corners are rasterized with clamping
to the full range, and the upper corner steps back one cell when it lands
exactly on a boundary away from the lower corner, or at the resolution. -/
def getBoxGridID (D : ℕ) (s : TreeState) (boxMin boxMax : List ℚ) : List ℕ × List ℕ :=
  let R : ℕ := 2 ^ s.maxDepthID
  let per := fun (d : ℕ) =>
    let minRaster := (boxMin.getD d 0 - s.worldMin.getD d 0) * rasterFactor s d
    let maxRaster := (boxMax.getD d 0 - s.worldMin.getD d 0) * rasterFactor s d
    let g0 := Int.toNat ⌊min (max minRaster 0) (R : ℚ)⌋
    let g1 := Int.toNat ⌊min (max maxRaster 0) (R : ℚ)⌋
    if (g0 ≠ g1 ∧ (⌊maxRaster⌋ : ℚ) = maxRaster) ∨ g1 ≥ R then (g0, g1 - 1) else (g0, g1)
  ((List.range D).map (fun d => (per d).1), (List.range D).map (fun d => (per d).2))

/-- Range location metadata of a box (`OrthoTreeBase::GetRangeLocationMetaData`
for a box). -/
def boxLocation (D : ℕ) (s : TreeState) (boxMin boxMax : List ℚ) : RangeLocationMetaData :=
  let g := getBoxGridID D s boxMin boxMax
  GetRangeLocationMetaData D s.maxDepthID (Encode D g.1) (Encode D g.2)

/-- Bit expansion of `TraverseSplitChildren`: distribute the bits of the
permutation counter over the set bits of the touched-dimensions flag. -/
def spreadBits : ℕ → ℕ → ℕ
  | _, 0 => 0
  | pid, t + 1 =>
      if (t + 1) % 2 = 1 then pid % 2 + 2 * spreadBits (pid / 2) ((t + 1) / 2)
      else 2 * spreadBits pid ((t + 1) / 2)
termination_by _ t => t

/-- Population count (`std::popcount`). -/
def popCount : ℕ → ℕ
  | 0 => 0
  | n + 1 => (n + 1) % 2 + popCount ((n + 1) / 2)
termination_by n => n

/-- Transcription of `OrthoTreeBase::GetSplitChildSegments`. -/
def getSplitChildSegments (loc : RangeLocationMetaData) : List ℕ :=
  (List.range (2 ^ (popCount loc.TouchedDimensionsFlag))).map
    (fun pid => spreadBits pid loc.TouchedDimensionsFlag + loc.LowerSegmentID)

/-- Sequential insertion of the split child segments with early exit, as the
loop of `OrthoTreeBoundingBox::Insert` does. -/
def insertSegments (D : ℕ) (hD : 0 < D) (nodes : NodeMap) (smallestNodeKey : ℕ)
    (entityNodeKey : ℕ) (entityID : ℕ) (doInsertToLeaf : Bool) :
    List ℕ → NodeMap × Bool
  | [] => (nodes, true)
  | seg :: rest =>
      let childKey := (entityNodeKey <<< D) ||| seg
      let r := insertWithoutRebalancingBase D hD nodes smallestNodeKey childKey entityID
        doInsertToLeaf
      if r.2 then insertSegments D hD r.1 smallestNodeKey entityNodeKey entityID doInsertToLeaf rest
      else (r.1, false)

/-- Transcription of `OrthoTreeBoundingBox::Insert`; `doSplit` stands for
the class parameter `DO_SPLIT_PARENT_ENTITIES`. -/
def boxInsert (D : ℕ) (hD : 0 < D) (s : TreeState) (newEntityID : ℕ)
    (boxMin boxMax : List ℚ) (doInsertToLeaf doSplit : Bool) : TreeState × Bool :=
  if DoesRangeContainBox D s.worldMin s.worldMax boxMin boxMax then
    let location := boxLocation D s boxMin boxMax
    let entityNodeKey := GetHashAtDepth D location s.maxDepthID
    let smallestNodeKey := findSmallestNodeKey s.nodes D hD entityNodeKey
    if smallestNodeKey = 0 then (s, false)
    else
      let shouldCreateChildrenOnly :=
        location.DepthID ≠ s.maxDepthID ∧ doInsertToLeaf = true ∧ doSplit = true
      if shouldCreateChildrenOnly then
        let r := insertSegments D hD s.nodes smallestNodeKey entityNodeKey newEntityID
          doInsertToLeaf (getSplitChildSegments location)
        ({ s with nodes := r.1 }, r.2)
      else
        let r := insertWithoutRebalancingBase D hD s.nodes smallestNodeKey entityNodeKey
          newEntityID doInsertToLeaf
        ({ s with nodes := r.1 }, r.2)
  else (s, false)

/-- Transcription of `OrthoTreeBoundingBox::Update` (new-box form): world
guard, erase by id everywhere, then plain insert. -/
def boxUpdate (D : ℕ) (hD : 0 < D) (s : TreeState) (entityID : ℕ)
    (boxMin boxMax : List ℚ) (doInsertToLeaf doSplit : Bool) : TreeState × Bool :=
  if DoesRangeContainBox D s.worldMin s.worldMax boxMin boxMax then
    let e := eraseEntityBase D s entityID doSplit false
    if e.2 then boxInsert D hD e.1 entityID boxMin boxMax doInsertToLeaf doSplit
    else (e.1, false)
  else (s, false)

/-! ### Out-of-world geometry is rejected without mutation (claim C7) -/

/-- Claim C7: an `Insert`, `InsertWithRebalancing` or `Update` call whose
new geometry lies outside the world box returns `false` and leaves the node
store, every entity list and every child list exactly as before: the world
guard precedes every mutation. -/
theorem outOfWorld_mutations_no_change (D : ℕ) (hD : 0 < D) (s : TreeState) (e : ℕ)
    (p : List ℚ) (points : List (List ℚ)) (bmin bmax : List ℚ) (leaf doSplit : Bool)
    (hp : DoesBoxContainPoint D s.worldMin s.worldMax p 0 = false)
    (hb : DoesRangeContainBox D s.worldMin s.worldMax bmin bmax = false) :
    pointInsert D hD s e p leaf = (s, false) ∧
    pointInsertWithRebalancing D hD s e p points = (s, false) ∧
    pointUpdate D hD s e p leaf = (s, false) ∧
    boxInsert D hD s e bmin bmax leaf doSplit = (s, false) ∧
    boxUpdate D hD s e bmin bmax leaf doSplit = (s, false) := by
  refine ⟨?_, ?_, ?_, ?_, ?_⟩
  · unfold pointInsert
    rw [hp]
    simp
  · unfold pointInsertWithRebalancing
    rw [hp]
    simp
  · unfold pointUpdate
    rw [hp]
    simp
  · unfold boxInsert
    rw [hb]
    simp
  · unfold boxUpdate
    rw [hb]
    simp

/-- Witness for C7: a one-dimensional tree over the world box from 0 to 4,
with point 5 and box from 5 to 6 outside of it. -/
theorem outOfWorld_mutations_no_change_witness :
    pointInsert 1 one_pos (initBase 2 1 [0] [4]) 0 [5] false = (initBase 2 1 [0] [4], false) ∧
    pointInsertWithRebalancing 1 one_pos (initBase 2 1 [0] [4]) 0 [5] [] =
      (initBase 2 1 [0] [4], false) ∧
    pointUpdate 1 one_pos (initBase 2 1 [0] [4]) 0 [5] false = (initBase 2 1 [0] [4], false) ∧
    boxInsert 1 one_pos (initBase 2 1 [0] [4]) 0 [5] [6] false false =
      (initBase 2 1 [0] [4], false) ∧
    boxUpdate 1 one_pos (initBase 2 1 [0] [4]) 0 [5] [6] false false =
      (initBase 2 1 [0] [4], false) :=
  outOfWorld_mutations_no_change 1 one_pos (initBase 2 1 [0] [4]) 0 [5] [] [5] [6] false false
    (by decide) (by decide)

/-! ### In-world point insertion cannot fail (claim C10) -/

theorem insertWithoutRebalancingBase_true (D : ℕ) (hD : 0 < D) (nodes : NodeMap)
    (k1 k2 e : ℕ) (leaf : Bool) :
    (insertWithoutRebalancingBase D hD nodes k1 k2 e leaf).2 = true := by
  unfold insertWithoutRebalancingBase
  split
  · rfl
  · split
    · rfl
    · dsimp only
      split
      · rfl
      · rfl

theorem two_pow_mul_add_shiftRight (t D loc : ℕ) :
    (2 ^ ((t + 1) * D) + loc) >>> D = 2 ^ (t * D) + loc >>> D := by
  rw [Nat.shiftRight_eq_div_pow, Nat.shiftRight_eq_div_pow]
  have h : 2 ^ ((t + 1) * D) + loc = 2 ^ D * 2 ^ (t * D) + loc := by
    rw [← pow_add]
    congr 1
    ring
  rw [h, Nat.mul_add_div (Nat.pos_pow_of_pos D (by norm_num))]

/-- Walking the ancestor chain of a sentinel-structured key always meets the
root when the root is resident: the search of `FindSmallestNodeKey` cannot
fail. -/
theorem findSmallestNodeKey_ne_zero (nodes : NodeMap) (D : ℕ) (hD : 0 < D)
    (hroot : containsKey nodes 1 = true) (t : ℕ) :
    ∀ loc, loc < 2 ^ (t * D) → findSmallestNodeKey nodes D hD (2 ^ (t * D) + loc) ≠ 0 := by
  induction t with
  | zero =>
      intro loc hloc
      have hloc0 : loc = 0 := by simpa using hloc
      subst hloc0
      rw [findSmallestNodeKey]
      simp [hroot]
  | succ t ih =>
      intro loc hloc
      have hkey : 2 ^ ((t + 1) * D) + loc ≠ 0 := by positivity
      rw [findSmallestNodeKey]
      rw [if_neg hkey]
      by_cases hc : containsKey nodes (2 ^ ((t + 1) * D) + loc) = true
      · rw [if_pos hc]
        exact hkey
      · rw [if_neg hc, two_pow_mul_add_shiftRight]
        apply ih
        rw [Nat.shiftRight_eq_div_pow]
        apply Nat.div_lt_of_lt_mul
        calc loc < 2 ^ ((t + 1) * D) := hloc
          _ = 2 ^ D * 2 ^ (t * D) := by rw [← pow_add]; congr 1; ring

theorem getPointGridID_bounds (D : ℕ) (s : TreeState) (p : List ℚ) :
    ∀ x ∈ getPointGridID D s p, x < 2 ^ s.maxDepthID := by
  intro x hx
  obtain ⟨d, _, rfl⟩ := List.mem_map.mp hx
  have h1 : min (2 ^ s.maxDepthID - 1)
      (Int.toNat ⌊(p.getD d 0 - s.worldMin.getD d 0) * rasterFactor s d⌋) ≤
      2 ^ s.maxDepthID - 1 := min_le_left _ _
  have h2 : (0 : ℕ) < 2 ^ s.maxDepthID := Nat.pos_pow_of_pos _ (by norm_num)
  omega

/-- Claim C10: on a store holding the root, `OrthoTreePoint::Insert`
succeeds exactly when the point lies in the world box; the
smallest-existing-ancestor search cannot fail because the root key 1 is an
ancestor of every point key. -/
theorem pointInsert_true_iff_inWorld (D : ℕ) (hD : 0 < D) (s : TreeState) (e : ℕ)
    (p : List ℚ) (leaf : Bool) (hroot : containsKey s.nodes 1 = true) :
    (pointInsert D hD s e p leaf).2 = true ↔
      DoesBoxContainPoint D s.worldMin s.worldMax p 0 = true := by
  constructor
  · intro hins
    by_contra hcon
    have hfalse : DoesBoxContainPoint D s.worldMin s.worldMax p 0 = false := by
      cases h : DoesBoxContainPoint D s.worldMin s.worldMax p 0
      · rfl
      · exact absurd h hcon
    unfold pointInsert at hins
    rw [hfalse] at hins
    simp at hins
  · intro hin
    unfold pointInsert
    rw [hin]
    simp only [if_true]
    have hlenle : (getPointGridID D s p).length ≤ D := by
      unfold getPointGridID
      simp
    have hloc : getLocationID D s p < 2 ^ (s.maxDepthID * D) := by
      unfold getLocationID
      rw [Encode_eq_encodeBits (getPointGridID_bounds D s p)]
      exact encodeBits_lt _ _ hlenle
    have hhash : GetHash D s.maxDepthID (getLocationID D s p) =
        2 ^ (s.maxDepthID * D) + getLocationID D s p := getHash_eq_add hloc
    rw [hhash]
    rw [if_neg (findSmallestNodeKey_ne_zero s.nodes D hD hroot s.maxDepthID _ hloc)]
    simp [insertWithoutRebalancingBase_true]

/-- Witness for C10: inserting the in-world point 3 into the freshly
initialized one-dimensional tree succeeds. -/
theorem pointInsert_true_iff_inWorld_witness :
    (pointInsert 1 one_pos (initBase 2 1 [0] [4]) 0 [3] true).2 = true ↔
      DoesBoxContainPoint 1 [0] [4] [3] 0 = true :=
  pointInsert_true_iff_inWorld 1 one_pos (initBase 2 1 [0] [4]) 0 [3] true (by decide)

/-! ### Emptied ancestors survive `EraseEntity` (claim C8) -/

theorem c8_loc : getLocationID 1 (initBase 2 1 [0] [4]) [3] = 3 := by
  have hg : getPointGridID 1 (initBase 2 1 [0] [4]) [3] = [3] := by
    norm_num [getPointGridID, rasterFactor, initBase, List.range_succ]
  rw [getLocationID, hg,
    Encode_eq_encodeBits (show ∀ x ∈ ([3] : List ℕ), x < 2 ^ 2 by decide)]
  decide

theorem c8_find : findSmallestNodeKey (initBase 2 1 [0] [4]).nodes 1 one_pos 7 = 1 := by
  rw [findSmallestNodeKey]
  simp [containsKey, initBase]
  rw [findSmallestNodeKey]
  simp [containsKey, initBase]
  rw [findSmallestNodeKey]
  simp [containsKey, initBase]

theorem c8_chain : missingChain (initBase 2 1 [0] [4]).nodes 1 one_pos 1 7 = [7, 3] := by
  rw [missingChain]
  simp [containsKey, initBase]
  rw [missingChain]
  simp [containsKey, initBase]
  rw [missingChain]
  simp

theorem c8_stop : chainStop (initBase 2 1 [0] [4]).nodes 1 one_pos 1 7 = 1 := by
  rw [chainStop]
  simp [containsKey, initBase]
  rw [chainStop]
  simp [containsKey, initBase]
  rw [chainStop]
  simp

theorem c8_state1 :
    pointInsert 1 one_pos (initBase 2 1 [0] [4]) 0 [3] true =
      ({ nodes := [(1, ⟨[], [3]⟩), (3, ⟨[], [7]⟩), (7, ⟨[0], []⟩)],
         maxDepthID := 2, maxElementNo := 1, worldMin := [0], worldMax := [4] }, true) := by
  have hkey : GetHash 1 (initBase 2 1 [0] [4]).maxDepthID
      (getLocationID 1 (initBase 2 1 [0] [4]) [3]) = 7 := by
    rw [c8_loc]
    decide
  simp only [pointInsert, hkey, c8_find, insertWithoutRebalancingBase, c8_chain, c8_stop]
  norm_num [initBase, createChain, updateNode, emplaceNode, containsKey,
    TreeNode.addChildInOrder, insertOrdered, TreeNode.addEntity, TreeNode.empty,
    DoesBoxContainPoint, containsDim, List.range_succ]

theorem c8_state2 :
    pointEraseEntity 1
      ({ nodes := [(1, ⟨[], [3]⟩), (3, ⟨[], [7]⟩), (7, ⟨[0], []⟩)],
         maxDepthID := 2, maxElementNo := 1, worldMin := [0], worldMax := [4] } : TreeState)
      0 false =
      ({ nodes := [(1, ⟨[], [3]⟩), (3, ⟨[], []⟩)],
         maxDepthID := 2, maxElementNo := 1, worldMin := [0], worldMax := [4] }, true) := by
  decide

/-- Claim C8 is REFUTED by this trace: in the one-dimensional tree over the
world box from 0 to 4 with depth limit 2, inserting entity 0 at the point 3
with `doInsertToLeaf` builds the chain of nodes 1, 3, 7, and
`EraseEntity(0)` then removes node 7 but leaves its parent, node 3, in the
store with no entities and no children - `RemoveNodeIfPossible` does not
walk up to the emptied ancestors, so the claimed minimality invariant fails
after a plain erase. -/
theorem erase_leaves_empty_nonroot_node :
    containsKey
      (pointEraseEntity 1 (pointInsert 1 one_pos (initBase 2 1 [0] [4]) 0 [3] true).1
        0 false).1.nodes 3 = true ∧
    (3 : ℕ) ≠ 1 ∧
    (getNode
      (pointEraseEntity 1 (pointInsert 1 one_pos (initBase 2 1 [0] [4]) 0 [3] true).1
        0 false).1.nodes 3).entities = [] ∧
    (getNode
      (pointEraseEntity 1 (pointInsert 1 one_pos (initBase 2 1 [0] [4]) 0 [3] true).1
        0 false).1.nodes 3).isAnyChildExist = false := by
  simp only [c8_state1, c8_state2]
  decide

/-! ### Parallel versus serial point-tree build (claim C9)

`OrthoTreePoint::Create` computes one `Location` (entity id, Morton
location id) per point and hands them to the stack-based depth-first
`Build`.  The parallel instantiation sorts the locations by location id
first and then splits each node segment with `std::partition_point` and
`AddChild`; the serial one leaves the input order and splits with
`std::partition` and `AddChildInOrder`.  The stack loop is modelled by
structural recursion over the remaining depth budget; `std::partition`
and `std::sort`, whose internal reorderings the standard leaves
unspecified, are modelled by the order-preserving `List.partition` and
`List.mergeSort`. -/

/-- Location record of `OrthoTreePoint::Build`: entity id and Morton
location id. -/
abbrev BuildLocation : Type := ℕ × ℕ

/-- Mask of `ChildCheckerFixedDepth`: `CHILD_MASK << (examinedLevel * D)`. -/
def childMask (D L : ℕ) : ℕ := (2 ^ D - 1) <<< (L * D)

/-- Child id of a location at an examination level
(`ChildCheckerFixedDepth::GetChildID` composed with the construction of
the child flag). -/
def childIDAt (D L : ℕ) (loc : ℕ) : ℕ := (loc >>> (L * D)) &&& (2 ^ D - 1)

theorem and_shiftLeft_mask (a m s : ℕ) : a &&& (m <<< s) = ((a >>> s) &&& m) <<< s := by
  apply Nat.eq_of_testBit_eq
  intro i
  rw [Nat.testBit_and, Nat.testBit_shiftLeft, Nat.testBit_shiftLeft, Nat.testBit_and,
    Nat.testBit_shiftRight]
  by_cases h : s ≤ i
  · have hi : s + (i - s) = i := by omega
    simp [ge_iff_le, h, hi]
  · simp [ge_iff_le, h]

theorem and_childMask_shiftRight (D L a : ℕ) :
    (a &&& childMask D L) >>> (L * D) = childIDAt D L a := by
  rw [childMask, and_shiftLeft_mask, childIDAt, Nat.shiftLeft_eq, Nat.shiftRight_eq_div_pow,
    Nat.mul_div_cancel _ (Nat.pos_pow_of_pos _ (by norm_num))]

theorem and_childMask_eq_iff (D L a b : ℕ) :
    a &&& childMask D L = b &&& childMask D L ↔ childIDAt D L a = childIDAt D L b := by
  rw [childMask, and_shiftLeft_mask, and_shiftLeft_mask, Nat.shiftLeft_eq, Nat.shiftLeft_eq]
  simp only [childIDAt]
  exact ⟨fun h => Nat.eq_of_mul_eq_mul_right (Nat.pos_pow_of_pos _ (by norm_num)) h,
    fun h => by rw [h]⟩

theorem childIDAt_eq_mod (D L a : ℕ) : childIDAt D L a = (a >>> (L * D)) % 2 ^ D := by
  rw [childIDAt, Nat.and_pow_two_sub_one_eq_mod]

theorem childIDAt_mono (D L : ℕ) {a b H : ℕ} (hle : a ≤ b)
    (ha : a >>> ((L + 1) * D) = H) (hb : b >>> ((L + 1) * D) = H) :
    childIDAt D L a ≤ childIDAt D L b := by
  rw [childIDAt_eq_mod, childIDAt_eq_mod]
  have hma : (L + 1) * D = L * D + D := by ring
  rw [hma, Nat.shiftRight_add, Nat.shiftRight_eq_div_pow] at ha hb
  have hxy : a >>> (L * D) ≤ b >>> (L * D) := by
    rw [Nat.shiftRight_eq_div_pow, Nat.shiftRight_eq_div_pow]
    exact Nat.div_le_div_right hle
  have d1 := Nat.div_add_mod (a >>> (L * D)) (2 ^ D)
  have d2 := Nat.div_add_mod (b >>> (L * D)) (2 ^ D)
  rw [ha] at d1
  rw [hb] at d2
  generalize 2 ^ D * H = P at d1 d2
  omega

theorem childID_prefix_step (D L : ℕ) {H c v : ℕ} (hsp : v >>> ((L + 1) * D) = H)
    (hc : childIDAt D L v = c) : v >>> (L * D) = 2 ^ D * H + c := by
  rw [childIDAt_eq_mod] at hc
  have hma : (L + 1) * D = L * D + D := by ring
  rw [hma, Nat.shiftRight_add, Nat.shiftRight_eq_div_pow] at hsp
  have d := Nat.div_add_mod (v >>> (L * D)) (2 ^ D)
  rw [hsp, hc] at d
  exact d.symm

/-- Segment splitting of the serial `Build` loop at one examination level:
the checker is seeded with the first remaining location and
`std::partition` moves every location with the same masked child bits to
the front; the loop continues on the rest (equal to the filtered
complement, the seed matching its own flag).  Each group is tagged with
the child id handed to `ChildKeyGenerator::GetChildNodeKey`. -/
def serialChildGroups {α : Type} (locOf : α → ℕ) (D L : ℕ) : List α → List (ℕ × List α)
  | [] => []
  | x :: xs =>
      ((locOf x &&& childMask D L) >>> (L * D),
        ((x :: xs).partition (fun l => locOf l &&& childMask D L == locOf x &&& childMask D L)).1) ::
        serialChildGroups locOf D L
          (xs.filter (fun l => !(locOf l &&& childMask D L == locOf x &&& childMask D L)))
termination_by l => l.length
decreasing_by
  simp only [List.length_cons, Nat.lt_succ_iff]
  exact List.length_filter_le _ _

/-- Segment splitting of the sorted (parallel) `Build` loop:
`std::partition_point` keeps the segment in place and returns the end of
the prefix matching the checker seeded with the first location. -/
def sortedChildGroups {α : Type} (locOf : α → ℕ) (D L : ℕ) : List α → List (ℕ × List α)
  | [] => []
  | x :: xs =>
      ((locOf x &&& childMask D L) >>> (L * D),
        x :: xs.takeWhile (fun l => locOf l &&& childMask D L == locOf x &&& childMask D L)) ::
        sortedChildGroups locOf D L
          (xs.dropWhile (fun l => locOf l &&& childMask D L == locOf x &&& childMask D L))
termination_by l => l.length
decreasing_by
  simp only [List.length_cons, Nat.lt_succ_iff]
  exact (List.dropWhile_sublist _).length_le

/-- Serial `OrthoTreePoint::Build` on a node: `fuel` is the remaining
depth budget `maxDepthID - depthID`; a node keeps the whole segment when
it is small enough on first visit or the depth limit is reached,
otherwise the segment is split into child groups (`std::partition`),
the children are linked with `AddChildInOrder` and built recursively. -/
def buildSerial (D maxElementNo : ℕ) : ℕ → ℕ → List BuildLocation → NodeMap
  | 0, key, seg => [(key, ⟨seg.map Prod.fst, []⟩)]
  | fuel + 1, key, seg =>
      if 0 < seg.length ∧ seg.length ≤ maxElementNo then [(key, ⟨seg.map Prod.fst, []⟩)]
      else
        let gs := serialChildGroups (fun l : BuildLocation => l.2) D fuel seg
        (key, ⟨[], gs.foldl (fun cs g => insertOrdered cs ((key <<< D) ||| g.1)) []⟩) ::
          gs.flatMap (fun g => buildSerial D maxElementNo fuel ((key <<< D) ||| g.1) g.2)
termination_by fuel _ _ => fuel
decreasing_by
  omega

/-- Sorted (parallel) `OrthoTreePoint::Build`: identical control flow, but
the segment is split positionally (`std::partition_point`) and the
children are appended with `AddChild`. -/
def buildSorted (D maxElementNo : ℕ) : ℕ → ℕ → List BuildLocation → NodeMap
  | 0, key, seg => [(key, ⟨seg.map Prod.fst, []⟩)]
  | fuel + 1, key, seg =>
      if 0 < seg.length ∧ seg.length ≤ maxElementNo then [(key, ⟨seg.map Prod.fst, []⟩)]
      else
        let gs := sortedChildGroups (fun l : BuildLocation => l.2) D fuel seg
        (key, ⟨[], gs.map (fun g => (key <<< D) ||| g.1)⟩) ::
          gs.flatMap (fun g => buildSorted D maxElementNo fuel ((key <<< D) ||| g.1) g.2)
termination_by fuel _ _ => fuel
decreasing_by
  omega

/-- Location list computed by `OrthoTreePoint::Create`: the container key
(index) of each point paired with its Morton location id. -/
def pointBuildLocations (D : ℕ) (s : TreeState) (points : List (List ℚ)) :
    List BuildLocation :=
  points.enum.map (fun q => (q.1, getLocationID D s q.2))

/-- Node store produced by the serial `Create` (`IS_PARALLEL_EXEC = false`):
locations in input order, partitioning build, root key 1. -/
def pointCreateSerial (D maxDepthID maxElementNo : ℕ) (wmin wmax : List ℚ)
    (points : List (List ℚ)) : NodeMap :=
  buildSerial D maxElementNo maxDepthID 1
    (pointBuildLocations D (initBase maxDepthID maxElementNo wmin wmax) points)

/-- Node store produced by the parallel `Create` (`IS_PARALLEL_EXEC =
true`): locations sorted by location id, partition-point build, root
key 1. -/
def pointCreateParallel (D maxDepthID maxElementNo : ℕ) (wmin wmax : List ℚ)
    (points : List (List ℚ)) : NodeMap :=
  buildSorted D maxElementNo maxDepthID 1
    ((pointBuildLocations D (initBase maxDepthID maxElementNo wmin wmax) points).mergeSort
      (fun a b => decide (a.2 ≤ b.2)))

/-- Entity ids a node store assigns to a key, aggregated over every entry
held under that key. -/
def entitiesOf (m : NodeMap) (k : ℕ) : List ℕ :=
  (m.filter (fun p => p.1 == k)).flatMap (fun p => p.2.entities)

theorem childPred_pointwise (D L a b : ℕ) :
    (a &&& childMask D L == b &&& childMask D L) = (childIDAt D L a == childIDAt D L b) := by
  rw [Bool.eq_iff_iff]
  simp only [beq_iff_eq]
  exact and_childMask_eq_iff D L a b

theorem takeWhile_dropWhile_eq_filter {α : Type} (f : α → ℕ) (c : ℕ) :
    ∀ l : List α, l.Pairwise (fun a b => f a ≤ f b) → (∀ a ∈ l, c ≤ f a) →
      l.takeWhile (fun a => f a == c) = l.filter (fun a => f a == c) ∧
      l.dropWhile (fun a => f a == c) = l.filter (fun a => !(f a == c)) := by
  intro l
  induction l with
  | nil => intro _ _; exact ⟨rfl, rfl⟩
  | cons x xs ih =>
      intro hp hge
      rcases List.pairwise_cons.mp hp with ⟨hx, hxs⟩
      by_cases hfx : f x = c
      · have ihx := ih hxs (fun a ha => hge a (List.mem_cons_of_mem _ ha))
        constructor
        · rw [List.takeWhile_cons, List.filter_cons]
          simp [hfx, ihx.1]
        · rw [List.dropWhile_cons, List.filter_cons]
          simp [hfx, ihx.2]
      · have hnone : ∀ a ∈ x :: xs, ¬(f a = c) := by
          intro a ha
          rcases List.mem_cons.mp ha with rfl | ha
          · exact hfx
          · have h1 : f x ≤ f a := hx a ha
            have h2 : c ≤ f x := hge x (List.mem_cons_self _ _)
            omega
        constructor
        · rw [List.takeWhile_cons]
          rw [List.filter_eq_nil_iff.mpr (by intro a ha; simp [hnone a ha])]
          simp [hfx]
        · rw [List.dropWhile_cons]
          rw [List.filter_eq_self.mpr (by intro a ha; simp [hnone a ha])]
          simp [hfx]

theorem serialChildGroups_spec {α : Type} (locOf : α → ℕ) (D L : ℕ) :
    ∀ (n : ℕ) (seg : List α), seg.length ≤ n →
      (∀ g ∈ serialChildGroups locOf D L seg,
        g.2 = seg.filter (fun l => childIDAt D L (locOf l) == g.1)) ∧
      ((serialChildGroups locOf D L seg).map Prod.fst).Nodup ∧
      (∀ c, c ∈ (serialChildGroups locOf D L seg).map Prod.fst ↔
        ∃ l ∈ seg, childIDAt D L (locOf l) = c) := by
  intro n
  induction n with
  | zero =>
      intro seg hlen
      have hnil : seg = [] := List.eq_nil_of_length_eq_zero (Nat.le_zero.mp hlen)
      subst hnil
      rw [serialChildGroups]
      simp
  | succ n ih =>
      intro seg hlen
      match seg with
      | [] =>
          rw [serialChildGroups]
          simp
      | x :: xs =>
          have hunf : serialChildGroups locOf D L (x :: xs) =
              (childIDAt D L (locOf x),
                (x :: xs).filter (fun l => childIDAt D L (locOf l) == childIDAt D L (locOf x))) ::
              serialChildGroups locOf D L
                (xs.filter (fun l => !(childIDAt D L (locOf l) == childIDAt D L (locOf x)))) := by
            rw [serialChildGroups]
            simp only [List.partition_eq_filter_filter, and_childMask_shiftRight,
              childPred_pointwise, Function.comp]
          have hrestlen :
              (xs.filter (fun l => !(childIDAt D L (locOf l) == childIDAt D L (locOf x)))).length ≤ n := by
            have h1 := List.length_filter_le
              (fun l => !(childIDAt D L (locOf l) == childIDAt D L (locOf x))) xs
            simp only [List.length_cons] at hlen
            omega
          obtain ⟨IH1, IH2, IH3⟩ := ih _ hrestlen
          have hne : ∀ g ∈ serialChildGroups locOf D L
              (xs.filter (fun l => !(childIDAt D L (locOf l) == childIDAt D L (locOf x)))),
              g.1 ≠ childIDAt D L (locOf x) := by
            intro g hg
            obtain ⟨l, hl, hcl⟩ := (IH3 g.1).mp
              (List.mem_map.mpr ⟨g, hg, rfl⟩)
            have hl2 := (List.mem_filter.mp hl).2
            simp only [Bool.not_eq_eq_eq_not, Bool.not_true, beq_eq_false_iff_ne] at hl2
            rw [← hcl]
            exact hl2
          refine ⟨?_, ?_, ?_⟩
          · intro g hg
            rw [hunf] at hg
            rcases List.mem_cons.mp hg with rfl | hg
            · rfl
            · have hg1 := hne g hg
              rw [IH1 g hg]
              rw [List.filter_filter]
              rw [List.filter_cons]
              have hx1 : (childIDAt D L (locOf x) == g.1) = false := by
                simp only [beq_eq_false_iff_ne]
                exact fun h => hg1 h.symm
              rw [if_neg (by simp [hx1])]
              apply List.filter_congr
              intro a _
              by_cases hag : childIDAt D L (locOf a) = g.1
              · have hax : ¬(childIDAt D L (locOf a) = childIDAt D L (locOf x)) := by
                  rw [hag]; exact fun h => hg1 h
                have hgx : ¬g.1 = childIDAt D L (locOf x) := hg1
                simp [hag, hax, hgx]
              · simp [hag]
          · rw [hunf]
            simp only [List.map_cons]
            rw [List.nodup_cons]
            refine ⟨?_, IH2⟩
            intro hc0
            obtain ⟨g, hg, hgfst⟩ := List.mem_map.mp hc0
            exact hne g hg hgfst
          · intro c
            rw [hunf]
            simp only [List.map_cons, List.mem_cons]
            constructor
            · rintro (rfl | hc)
              · exact ⟨x, Or.inl rfl, rfl⟩
              · obtain ⟨l, hl, hcl⟩ := (IH3 c).mp hc
                exact ⟨l, Or.inr (List.mem_of_mem_filter hl), hcl⟩
            · rintro ⟨l, hl, hcl⟩
              rcases hl with rfl | hl
              · exact Or.inl hcl.symm
              · by_cases hc0 : childIDAt D L (locOf l) = childIDAt D L (locOf x)
                · exact Or.inl (by rw [← hcl, hc0])
                · refine Or.inr ((IH3 c).mpr ⟨l, List.mem_filter.mpr ⟨hl, by simp [hc0]⟩, hcl⟩)

theorem sortedChildGroups_spec {α : Type} (locOf : α → ℕ) (D L H : ℕ) :
    ∀ (n : ℕ) (seg : List α), seg.length ≤ n →
      seg.Pairwise (fun a b => locOf a ≤ locOf b) →
      (∀ l ∈ seg, locOf l >>> ((L + 1) * D) = H) →
      (∀ g ∈ sortedChildGroups locOf D L seg,
        g.2 = seg.filter (fun l => childIDAt D L (locOf l) == g.1)) ∧
      ((sortedChildGroups locOf D L seg).map Prod.fst).Nodup ∧
      (∀ c, c ∈ (sortedChildGroups locOf D L seg).map Prod.fst ↔
        ∃ l ∈ seg, childIDAt D L (locOf l) = c) := by
  intro n
  induction n with
  | zero =>
      intro seg hlen _ _
      have hnil : seg = [] := List.eq_nil_of_length_eq_zero (Nat.le_zero.mp hlen)
      subst hnil
      rw [sortedChildGroups]
      simp
  | succ n ih =>
      intro seg hlen hpair hsp
      match seg with
      | [] =>
          rw [sortedChildGroups]
          simp
      | x :: xs =>
          rcases List.pairwise_cons.mp hpair with ⟨hx, hxs⟩
          have hspx : locOf x >>> ((L + 1) * D) = H := hsp x (List.mem_cons_self _ _)
          have hgemono : ∀ a ∈ xs, childIDAt D L (locOf x) ≤ childIDAt D L (locOf a) := by
            intro a ha
            exact childIDAt_mono D L (hx a ha) hspx (hsp a (List.mem_cons_of_mem _ ha))
          have hmonoxs : xs.Pairwise
              (fun a b : α => childIDAt D L (locOf a) ≤ childIDAt D L (locOf b)) := by
            refine hxs.imp_of_mem ?_
            intro a b ha hb hab
            exact childIDAt_mono D L hab (hsp a (List.mem_cons_of_mem _ ha))
              (hsp b (List.mem_cons_of_mem _ hb))
          have htd := takeWhile_dropWhile_eq_filter
            (fun l : α => childIDAt D L (locOf l)) (childIDAt D L (locOf x)) xs hmonoxs hgemono
          have hunf : sortedChildGroups locOf D L (x :: xs) =
              (childIDAt D L (locOf x),
                (x :: xs).filter (fun l => childIDAt D L (locOf l) == childIDAt D L (locOf x))) ::
              sortedChildGroups locOf D L
                (xs.filter (fun l => !(childIDAt D L (locOf l) == childIDAt D L (locOf x)))) := by
            rw [sortedChildGroups]
            simp only [and_childMask_shiftRight, childPred_pointwise]
            rw [htd.1, htd.2, List.filter_cons]
            simp
          have hrestlen :
              (xs.filter (fun l => !(childIDAt D L (locOf l) == childIDAt D L (locOf x)))).length ≤ n := by
            have h1 := List.length_filter_le
              (fun l => !(childIDAt D L (locOf l) == childIDAt D L (locOf x))) xs
            simp only [List.length_cons] at hlen
            omega
          obtain ⟨IH1, IH2, IH3⟩ := ih _ hrestlen (hxs.filter _)
            (fun l hl => hsp l (List.mem_cons_of_mem _ (List.mem_of_mem_filter hl)))
          have hne : ∀ g ∈ sortedChildGroups locOf D L
              (xs.filter (fun l => !(childIDAt D L (locOf l) == childIDAt D L (locOf x)))),
              g.1 ≠ childIDAt D L (locOf x) := by
            intro g hg
            obtain ⟨l, hl, hcl⟩ := (IH3 g.1).mp
              (List.mem_map.mpr ⟨g, hg, rfl⟩)
            have hl2 := (List.mem_filter.mp hl).2
            simp only [Bool.not_eq_eq_eq_not, Bool.not_true, beq_eq_false_iff_ne] at hl2
            rw [← hcl]
            exact hl2
          refine ⟨?_, ?_, ?_⟩
          · intro g hg
            rw [hunf] at hg
            rcases List.mem_cons.mp hg with rfl | hg
            · rfl
            · have hg1 := hne g hg
              rw [IH1 g hg]
              rw [List.filter_filter]
              rw [List.filter_cons]
              have hx1 : (childIDAt D L (locOf x) == g.1) = false := by
                simp only [beq_eq_false_iff_ne]
                exact fun h => hg1 h.symm
              rw [if_neg (by simp [hx1])]
              apply List.filter_congr
              intro a _
              by_cases hag : childIDAt D L (locOf a) = g.1
              · have hax : ¬(childIDAt D L (locOf a) = childIDAt D L (locOf x)) := by
                  rw [hag]; exact fun h => hg1 h
                have hgx : ¬g.1 = childIDAt D L (locOf x) := hg1
                simp [hag, hax, hgx]
              · simp [hag]
          · rw [hunf]
            simp only [List.map_cons]
            rw [List.nodup_cons]
            refine ⟨?_, IH2⟩
            intro hc0
            obtain ⟨g, hg, hgfst⟩ := List.mem_map.mp hc0
            exact hne g hg hgfst
          · intro c
            rw [hunf]
            simp only [List.map_cons, List.mem_cons]
            constructor
            · rintro (rfl | hc)
              · exact ⟨x, Or.inl rfl, rfl⟩
              · obtain ⟨l, hl, hcl⟩ := (IH3 c).mp hc
                exact ⟨l, Or.inr (List.mem_of_mem_filter hl), hcl⟩
            · rintro ⟨l, hl, hcl⟩
              rcases hl with rfl | hl
              · exact Or.inl hcl.symm
              · by_cases hc0 : childIDAt D L (locOf l) = childIDAt D L (locOf x)
                · exact Or.inl (by rw [← hcl, hc0])
                · refine Or.inr ((IH3 c).mpr ⟨l, List.mem_filter.mpr ⟨hl, by simp [hc0]⟩, hcl⟩)

theorem flatMap_perm_of_groups {α β : Type} (f₁ f₂ : ℕ × α → List β) :
    ∀ (G₁ G₂ : List (ℕ × α)),
      (G₁.map Prod.fst).Nodup → (G₂.map Prod.fst).Nodup →
      (∀ c, c ∈ G₁.map Prod.fst ↔ c ∈ G₂.map Prod.fst) →
      (∀ g₁ ∈ G₁, ∀ g₂ ∈ G₂, g₁.1 = g₂.1 → (f₁ g₁).Perm (f₂ g₂)) →
      (G₁.flatMap f₁).Perm (G₂.flatMap f₂) := by
  intro G₁
  induction G₁ with
  | nil =>
      intro G₂ _ _ hmem _
      cases G₂ with
      | nil => exact List.Perm.refl _
      | cons b bs =>
          exfalso
          have hb := (hmem b.1).mpr (by simp)
          simp at hb
  | cons g G₁t ihG =>
      intro G₂ h₁ h₂ hmem hrel
      have hgfst : g.1 ∈ G₂.map Prod.fst := (hmem g.1).mp (by simp)
      obtain ⟨gm, hgm, hfst⟩ := List.mem_map.mp hgfst
      obtain ⟨A, B, rfl⟩ := List.append_of_mem hgm
      have hone : g.1 ∉ G₁t.map Prod.fst ∧ (G₁t.map Prod.fst).Nodup := by
        rw [List.map_cons, List.nodup_cons] at h₁
        exact h₁
      have htwo : gm.1 ∉ A.map Prod.fst ++ B.map Prod.fst ∧
          (A.map Prod.fst ++ B.map Prod.fst).Nodup := by
        rw [List.map_append, List.map_cons] at h₂
        have h := List.nodup_middle.mp h₂
        rw [List.nodup_cons] at h
        exact h
      have hABnodup : ((A ++ B).map Prod.fst).Nodup := by
        rw [List.map_append]
        exact htwo.2
      have hmemt : ∀ c, c ∈ G₁t.map Prod.fst ↔ c ∈ (A ++ B).map Prod.fst := by
        intro c
        have hm := hmem c
        simp only [List.map_append, List.map_cons, List.mem_append, List.mem_cons] at hm ⊢
        constructor
        · intro hc
          rcases hm.mp (Or.inr hc) with hA | hgm1 | hB
          · exact Or.inl hA
          · exfalso
            rw [hgm1, hfst] at hc
            exact hone.1 hc
          · exact Or.inr hB
        · intro hc
          have hback : c = g.1 ∨ c ∈ G₁t.map Prod.fst := by
            apply hm.mpr
            rcases hc with hA | hB
            · exact Or.inl hA
            · exact Or.inr (Or.inr hB)
          rcases hback with rfl | hback
          · exfalso
            apply htwo.1
            rw [hfst]
            exact List.mem_append.mpr hc
          · exact hback
      have hrelt : ∀ g₁ ∈ G₁t, ∀ g₂ ∈ A ++ B, g₁.1 = g₂.1 → (f₁ g₁).Perm (f₂ g₂) := by
        intro g₁ hg₁ g₂ hg₂ hf
        have hg₂m : g₂ ∈ A ++ gm :: B := by
          rcases List.mem_append.mp hg₂ with hA | hB
          · exact List.mem_append_left _ hA
          · exact List.mem_append_right _ (List.mem_cons_of_mem _ hB)
        exact hrel g₁ (List.mem_cons_of_mem _ hg₁) g₂ hg₂m hf
      have hih := ihG (A ++ B) hone.2 hABnodup hmemt hrelt
      have hhead : (f₁ g).Perm (f₂ gm) :=
        hrel g (List.mem_cons_self _ _) gm (by simp) hfst.symm
      rw [List.flatMap_cons, List.flatMap_append, List.flatMap_cons]
      have hih2 : (G₁t.flatMap f₁).Perm (A.flatMap f₂ ++ B.flatMap f₂) := by
        rw [← List.flatMap_append]
        exact hih
      exact (hhead.append hih2).trans (List.perm_append_comm_assoc _ _ _)

theorem entitiesOf_append (m₁ m₂ : NodeMap) (k : ℕ) :
    entitiesOf (m₁ ++ m₂) k = entitiesOf m₁ k ++ entitiesOf m₂ k := by
  simp [entitiesOf, List.filter_append]

theorem entitiesOf_cons_empty (key : ℕ) (cs : List ℕ) (m : NodeMap) (k : ℕ) :
    entitiesOf ((key, ⟨[], cs⟩) :: m) k = entitiesOf m k := by
  cases hkk : (key == k) <;> simp [entitiesOf, List.filter_cons, hkk]

theorem entitiesOf_single (key : ℕ) (nd : TreeNode) (k : ℕ) :
    entitiesOf [(key, nd)] k = if key == k then nd.entities else [] := by
  cases hkk : (key == k) <;> simp [entitiesOf, List.filter_cons, hkk]

theorem entitiesOf_flatMap {α : Type} (G : List (ℕ × α))
    (f : ℕ × α → NodeMap) (k : ℕ) :
    entitiesOf (G.flatMap f) k = G.flatMap (fun g => entitiesOf (f g) k) := by
  induction G with
  | nil => simp [entitiesOf]
  | cons g G ih => simp [List.flatMap_cons, entitiesOf_append, ih]

theorem buildSerial_sorted_equiv (D maxElementNo : ℕ) :
    ∀ (fuel key H : ℕ) (seg₁ seg₂ : List BuildLocation),
      seg₁.Perm seg₂ →
      seg₂.Pairwise (fun a b => a.2 ≤ b.2) →
      (∀ l ∈ seg₁, l.2 >>> (fuel * D) = H) →
      ((buildSerial D maxElementNo fuel key seg₁).map Prod.fst).Perm
        ((buildSorted D maxElementNo fuel key seg₂).map Prod.fst) ∧
      ∀ k, (entitiesOf (buildSerial D maxElementNo fuel key seg₁) k).Perm
        (entitiesOf (buildSorted D maxElementNo fuel key seg₂) k) := by
  intro fuel
  induction fuel with
  | zero =>
      intro key H seg₁ seg₂ hperm _ _
      constructor
      · simp [buildSerial, buildSorted]
      · intro k
        rw [buildSerial, buildSorted, entitiesOf_single, entitiesOf_single]
        cases hkk : (key == k)
        · simp
        · simp
          exact hperm.map Prod.fst
  | succ fuel ih =>
      intro key H seg₁ seg₂ hperm hpair hsp
      have hlen : seg₁.length = seg₂.length := hperm.length_eq
      by_cases hcond : 0 < seg₁.length ∧ seg₁.length ≤ maxElementNo
      · have hcond₂ : 0 < seg₂.length ∧ seg₂.length ≤ maxElementNo := by
          rw [← hlen]; exact hcond
        constructor
        · rw [buildSerial, buildSorted, if_pos hcond, if_pos hcond₂]
          simp
        · intro k
          rw [buildSerial, buildSorted, if_pos hcond, if_pos hcond₂,
            entitiesOf_single, entitiesOf_single]
          cases hkk : (key == k)
          · simp
          · simp
            exact hperm.map Prod.fst
      · have hcond₂ : ¬(0 < seg₂.length ∧ seg₂.length ≤ maxElementNo) := by
          rw [← hlen]; exact hcond
        obtain ⟨S1, S2, S3⟩ := serialChildGroups_spec (fun l : BuildLocation => l.2) D fuel seg₁.length seg₁ le_rfl
        obtain ⟨T1, T2, T3⟩ := sortedChildGroups_spec (fun l : BuildLocation => l.2) D fuel H seg₂.length seg₂ le_rfl hpair
          (fun l hl => hsp l (hperm.mem_iff.mpr hl))
        have hmemiff : ∀ c, c ∈ (serialChildGroups (fun l : BuildLocation => l.2) D fuel seg₁).map Prod.fst ↔
            c ∈ (sortedChildGroups (fun l : BuildLocation => l.2) D fuel seg₂).map Prod.fst := by
          intro c
          rw [S3 c, T3 c]
          constructor
          · rintro ⟨l, hl, hc⟩
            exact ⟨l, hperm.mem_iff.mp hl, hc⟩
          · rintro ⟨l, hl, hc⟩
            exact ⟨l, hperm.mem_iff.mpr hl, hc⟩
        have hrelmain : ∀ g₁ ∈ serialChildGroups (fun l : BuildLocation => l.2) D fuel seg₁,
            ∀ g₂ ∈ sortedChildGroups (fun l : BuildLocation => l.2) D fuel seg₂, g₁.1 = g₂.1 →
            ((buildSerial D maxElementNo fuel (key <<< D ||| g₁.1) g₁.2).map Prod.fst).Perm
              ((buildSorted D maxElementNo fuel (key <<< D ||| g₂.1) g₂.2).map Prod.fst) ∧
            ∀ k, (entitiesOf (buildSerial D maxElementNo fuel (key <<< D ||| g₁.1) g₁.2) k).Perm
              (entitiesOf (buildSorted D maxElementNo fuel (key <<< D ||| g₂.1) g₂.2) k) := by
          intro g₁ hg₁ g₂ hg₂ hfst
          have hc₁ := S1 g₁ hg₁
          have hc₂ := T1 g₂ hg₂
          have hpermg : g₁.2.Perm g₂.2 := by
            rw [hc₁, hc₂, ← hfst]
            exact hperm.filter _
          have hpairg : g₂.2.Pairwise (fun a b : BuildLocation => a.2 ≤ b.2) := by
            rw [hc₂]
            exact hpair.filter _
          have hspg : ∀ l ∈ g₁.2, l.2 >>> (fuel * D) = 2 ^ D * H + g₁.1 := by
            intro l hl
            rw [hc₁] at hl
            rcases List.mem_filter.mp hl with ⟨hlseg, hcid⟩
            have hcid2 : childIDAt D fuel l.2 = g₁.1 := by simpa using hcid
            exact childID_prefix_step D fuel (hsp l hlseg) hcid2
          rw [← hfst]
          exact ih (key <<< D ||| g₁.1) (2 ^ D * H + g₁.1) g₁.2 g₂.2 hpermg hpairg hspg
        constructor
        · simp only [buildSerial, buildSorted]
          rw [if_neg hcond, if_neg hcond₂]
          rw [List.map_cons, List.map_cons]
          apply List.Perm.cons
          rw [List.map_flatMap, List.map_flatMap]
          apply flatMap_perm_of_groups _ _ _ _ S2 T2 hmemiff
          intro g₁ hg₁ g₂ hg₂ hfst
          exact (hrelmain g₁ hg₁ g₂ hg₂ hfst).1
        · intro k
          simp only [buildSerial, buildSorted]
          rw [if_neg hcond, if_neg hcond₂]
          rw [entitiesOf_cons_empty, entitiesOf_cons_empty]
          rw [entitiesOf_flatMap, entitiesOf_flatMap]
          apply flatMap_perm_of_groups _ _ _ _ S2 T2 hmemiff
          intro g₁ hg₁ g₂ hg₂ hfst
          exact (hrelmain g₁ hg₁ g₂ hg₂ hfst).2 k

theorem pointBuildLocations_shift (D maxDepthID maxElementNo : ℕ) (wmin wmax : List ℚ)
    (points : List (List ℚ)) :
    ∀ l ∈ pointBuildLocations D (initBase maxDepthID maxElementNo wmin wmax) points,
      l.2 >>> (maxDepthID * D) = 0 := by
  intro l hl
  obtain ⟨q, _, rfl⟩ := List.mem_map.mp hl
  have hlt : getLocationID D (initBase maxDepthID maxElementNo wmin wmax) q.2 <
      2 ^ (maxDepthID * D) := by
    unfold getLocationID
    rw [Encode_eq_encodeBits
      (getPointGridID_bounds D (initBase maxDepthID maxElementNo wmin wmax) q.2)]
    exact encodeBits_lt _ _ (by simp [getPointGridID])
  rw [Nat.shiftRight_eq_div_pow]
  exact Nat.div_eq_of_lt hlt

/-! ### The box tree build (`OrthoTreeBoundingBox::Create`, claim C9 continued)

Model of `BuildSubtree` at the default `DO_SPLIT_PARENT_ENTITIES = true`:
each box carries a `RangeLocationMetaData`; a node keeps the entities it
claimed from its parent split stack and the stuck all-children-touched
entities, turns the remaining stuck entities into per-segment split
items, and hands the not-stuck locations to children grouped by their
location bits; split items whose segment no location group covers get
children of their own.  The stack, iterator and `std::partition` steps
of the loop are rendered, as for the point tree, by recursion over the
depth budget with the order-preserving partition refinements; a child
claims from the split stack exactly the items carrying its segment,
which is what the `std::partition` over the parent stack hands it. -/

theorem perm_flatMap {α β : Type} (f : α → List β) {l₁ l₂ : List α} (h : l₁.Perm l₂) :
    (l₁.flatMap f).Perm (l₂.flatMap f) := by
  induction h with
  | nil => exact List.Perm.refl _
  | cons x _ ih =>
      simp only [List.flatMap_cons]
      exact List.Perm.append_left _ ih
  | swap x y l =>
      simp only [List.flatMap_cons]
      rw [← List.append_assoc, ← List.append_assoc]
      exact List.Perm.append_right _ List.perm_append_comm
  | trans _ _ ih₁ ih₂ => exact ih₁.trans ih₂

theorem takeWhile_congr_of_mem {α : Type} {p q : α → Bool} :
    ∀ {l : List α}, (∀ a ∈ l, p a = q a) →
      l.takeWhile p = l.takeWhile q ∧ l.dropWhile p = l.dropWhile q := by
  intro l
  induction l with
  | nil => intro _; exact ⟨rfl, rfl⟩
  | cons x xs ih =>
      intro h
      have hx := h x (List.mem_cons_self _ _)
      rw [List.takeWhile_cons, List.takeWhile_cons, List.dropWhile_cons, List.dropWhile_cons,
        hx]
      by_cases hq : q x = true
      · have ih2 := ih (fun a ha => h a (List.mem_cons_of_mem _ ha))
        rw [if_pos hq, if_pos hq, if_pos hq, if_pos hq, ih2.1, ih2.2]
        exact ⟨rfl, rfl⟩
      · rw [if_neg hq, if_neg hq, if_neg hq, if_neg hq]
        exact ⟨rfl, rfl⟩

/-- First-occurrence deduplication: the order in which the split-stack
loop meets the leftover segments. -/
def dedupFirst : List ℕ → List ℕ
  | [] => []
  | x :: xs => x :: dedupFirst (xs.filter (fun y => !(y == x)))
termination_by l => l.length
decreasing_by
  simp only [List.length_cons, Nat.lt_succ_iff]
  exact List.length_filter_le _ _

theorem dedupFirst_spec :
    ∀ (n : ℕ) (l : List ℕ), l.length ≤ n →
      (dedupFirst l).Nodup ∧ ∀ c, c ∈ dedupFirst l ↔ c ∈ l := by
  intro n
  induction n with
  | zero =>
      intro l hlen
      have hnil : l = [] := List.eq_nil_of_length_eq_zero (Nat.le_zero.mp hlen)
      subst hnil
      rw [dedupFirst]
      simp
  | succ n ih =>
      intro l hlen
      match l with
      | [] =>
          rw [dedupFirst]
          simp
      | x :: xs =>
          rw [dedupFirst]
          have hrest : (xs.filter (fun y => !(y == x))).length ≤ n := by
            have h1 := List.length_filter_le (fun y => !(y == x)) xs
            simp only [List.length_cons] at hlen
            omega
          obtain ⟨IH1, IH2⟩ := ih _ hrest
          constructor
          · rw [List.nodup_cons]
            refine ⟨?_, IH1⟩
            intro hx
            have := (IH2 x).mp hx
            have := (List.mem_filter.mp this).2
            simp at this
          · intro c
            rw [List.mem_cons, IH2 c, List.mem_cons]
            constructor
            · rintro (rfl | hc)
              · exact Or.inl rfl
              · exact Or.inr (List.mem_of_mem_filter hc)
            · rintro (rfl | hc)
              · exact Or.inl rfl
              · by_cases hcx : c = x
                · exact Or.inl hcx
                · exact Or.inr (List.mem_filter.mpr ⟨hc, by simp [hcx]⟩)

theorem entitiesOf_cons (key : ℕ) (nd : TreeNode) (m : NodeMap) (k : ℕ) :
    entitiesOf ((key, nd) :: m) k =
      (if key == k then nd.entities else []) ++ entitiesOf m k := by
  cases hkk : (key == k) <;> simp [entitiesOf, List.filter_cons, hkk]

/-- Location record of the box tree build (`OrthoTreeBoundingBox::Location`):
entity id and range location metadata. -/
abbrev BoxBuildLocation : Type := ℕ × RangeLocationMetaData

/-- Sorting relation of the parallel box build: `std::sort` with
`Location::operator<` = `SI::IsLess` on the metadata, as a total `le`. -/
def boxLocLE (a b : BoxBuildLocation) : Bool := !(IsLess b.2 a.2)

/-- Locations stuck at the current depth (`std::partition` predicate
`location.DepthAndLocation.DepthID == depthID`), as the order-preserving
partition. -/
def boxStuckOf (depthID : ℕ) (seg : List BoxBuildLocation) : List BoxBuildLocation :=
  seg.filter (fun l => l.2.DepthID == depthID)

/-- The locations handed on to the children: the complement of
`boxStuckOf`. -/
def boxRest (depthID : ℕ) (seg : List BoxBuildLocation) : List BoxBuildLocation :=
  seg.filter (fun l => !(l.2.DepthID == depthID))

/-- Entities a node keeps from its stuck locations: the ones whose box
touches every child (`IsAllChildTouched`). -/
def boxKeepIDs (D : ℕ) (stuck : List BoxBuildLocation) : List ℕ :=
  (stuck.filter (fun l => l.2.TouchedDimensionsFlag == 2 ^ D - 1)).map Prod.fst

/-- Split items generated from the remaining stuck locations
(`SplitEntityLocation` over `TraverseSplitChildren`): per location, one
item for every touched-children segment. -/
def boxSplitItems (D : ℕ) (stuck : List BoxBuildLocation) : List (ℕ × ℕ) :=
  (stuck.filter (fun l => !(l.2.TouchedDimensionsFlag == 2 ^ D - 1))).flatMap
    (fun l => (getSplitChildSegments l.2).map (fun sg => (sg, l.1)))

/-- Leftover split segments, in first-unclaimed order: the segments of the
items no regular child (`cids`) claimed, first occurrence each. -/
def boxSplitOnly (items : List (ℕ × ℕ)) (cids : List ℕ) : List ℕ :=
  dedupFirst ((items.filter (fun it => !(decide (it.1 ∈ cids)))).map Prod.fst)

/-- The split items a child with segment id `c` claims from the parent
stack (`std::partition` on `SegmentID == segmentID`), projected to the
entity ids. -/
def boxClaimed (items : List (ℕ × ℕ)) (c : ℕ) : List ℕ :=
  (items.filter (fun it => it.1 == c)).map Prod.snd

/-- Serial box build (`BuildSubtree<false>` with
`DO_SPLIT_PARENT_ENTITIES`): `claimed` is what this node took from the
parent split stack; stuck locations are extracted by `std::partition`
on the metadata depth, the rest grouped by location bits
(`std::partition`), and leftover split segments become children of
their own in first-occurrence order. -/
def buildBoxSerial (D maxElementNo : ℕ) :
    ℕ → ℕ → ℕ → List BoxBuildLocation → List ℕ → NodeMap
  | 0, _, key, seg, claimed => [(key, ⟨claimed ++ seg.map Prod.fst, []⟩)]
  | fuel + 1, depthID, key, seg, claimed =>
      if seg.length = 0 then [(key, ⟨claimed, []⟩)]
      else if claimed.length + seg.length ≤ maxElementNo then
        [(key, ⟨claimed ++ seg.map Prod.fst, []⟩)]
      else
        let stuck := boxStuckOf depthID seg
        let items := boxSplitItems D stuck
        let gs := serialChildGroups (fun l : BoxBuildLocation => l.2.LocID) D fuel
          (boxRest depthID seg)
        let splitOnly := boxSplitOnly items (gs.map Prod.fst)
        (key, ⟨claimed ++ boxKeepIDs D stuck,
          (gs.map Prod.fst ++ splitOnly).foldl
            (fun cs c => insertOrdered cs ((key <<< D) ||| c)) []⟩) ::
          (gs ++ splitOnly.map (fun c => (c, ([] : List BoxBuildLocation)))).flatMap
            (fun g => buildBoxSerial D maxElementNo fuel (depthID + 1) ((key <<< D) ||| g.1)
              g.2 (boxClaimed items g.1))
termination_by fuel _ _ _ _ => fuel
decreasing_by
  omega

/-- Sorted (parallel) box build (`BuildSubtree<true>`): stuck locations
are the prefix found by `std::partition_point`, groups are positional,
regular children are appended (`AddChild`) and split-only children
inserted in order (`AddChildInOrder`). -/
def buildBoxSorted (D maxElementNo : ℕ) :
    ℕ → ℕ → ℕ → List BoxBuildLocation → List ℕ → NodeMap
  | 0, _, key, seg, claimed => [(key, ⟨claimed ++ seg.map Prod.fst, []⟩)]
  | fuel + 1, depthID, key, seg, claimed =>
      if seg.length = 0 then [(key, ⟨claimed, []⟩)]
      else if claimed.length + seg.length ≤ maxElementNo then
        [(key, ⟨claimed ++ seg.map Prod.fst, []⟩)]
      else
        let stuck := seg.takeWhile (fun l => l.2.DepthID == depthID)
        let items := boxSplitItems D stuck
        let gs := sortedChildGroups (fun l : BoxBuildLocation => l.2.LocID) D fuel
          (seg.dropWhile (fun l => l.2.DepthID == depthID))
        let splitOnly := boxSplitOnly items (gs.map Prod.fst)
        (key, ⟨claimed ++ boxKeepIDs D stuck,
          splitOnly.foldl (fun cs c => insertOrdered cs ((key <<< D) ||| c))
            (gs.map (fun g => (key <<< D) ||| g.1))⟩) ::
          (gs ++ splitOnly.map (fun c => (c, ([] : List BoxBuildLocation)))).flatMap
            (fun g => buildBoxSorted D maxElementNo fuel (depthID + 1) ((key <<< D) ||| g.1)
              g.2 (boxClaimed items g.1))
termination_by fuel _ _ _ _ => fuel
decreasing_by
  omega

/-- Location list computed by `OrthoTreeBoundingBox::Create`: container
key (index) of each box with its range location metadata. -/
def boxBuildLocations (D : ℕ) (s : TreeState) (boxes : List (List ℚ × List ℚ)) :
    List BoxBuildLocation :=
  boxes.enum.map (fun q => (q.1, boxLocation D s q.2.1 q.2.2))

/-- Node store produced by the serial box `Create`. -/
def boxCreateSerial (D maxDepthID maxElementNo : ℕ) (wmin wmax : List ℚ)
    (boxes : List (List ℚ × List ℚ)) : NodeMap :=
  buildBoxSerial D maxElementNo maxDepthID 0 1
    (boxBuildLocations D (initBase maxDepthID maxElementNo wmin wmax) boxes) []

/-- Node store produced by the parallel box `Create`: locations sorted by
`IsLess` first. -/
def boxCreateParallel (D maxDepthID maxElementNo : ℕ) (wmin wmax : List ℚ)
    (boxes : List (List ℚ × List ℚ)) : NodeMap :=
  buildBoxSorted D maxElementNo maxDepthID 0 1
    ((boxBuildLocations D (initBase maxDepthID maxElementNo wmin wmax) boxes).mergeSort
      boxLocLE) []

theorem map_fst_pairNil {β : Type} (l : List ℕ) :
    (l.map (fun c => (c, ([] : List β)))).map Prod.fst = l := by
  induction l with
  | nil => rfl
  | cons x xs ih => simp [ih]

theorem boxSplitOnly_mem (items : List (ℕ × ℕ)) (cids : List ℕ) (c : ℕ) :
    c ∈ boxSplitOnly items cids ↔ ((∃ it ∈ items, it.1 = c) ∧ ¬ c ∈ cids) := by
  rw [boxSplitOnly, (dedupFirst_spec _ _ le_rfl).2 c]
  constructor
  · intro hc
    obtain ⟨it, hit, rfl⟩ := List.mem_map.mp hc
    obtain ⟨hmem, hP⟩ := List.mem_filter.mp hit
    simp only [Bool.not_eq_true', decide_eq_false_iff_not] at hP
    exact ⟨⟨it, hmem, rfl⟩, hP⟩
  · rintro ⟨⟨it, hmem, rfl⟩, hnc⟩
    exact List.mem_map.mpr ⟨it, List.mem_filter.mpr ⟨hmem, by simpa using hnc⟩, rfl⟩

theorem boxSplitOnly_nodup (items : List (ℕ × ℕ)) (cids : List ℕ) :
    (boxSplitOnly items cids).Nodup := by
  rw [boxSplitOnly]
  exact (dedupFirst_spec _ _ le_rfl).1

theorem boxLocLE_iff (a b : BoxBuildLocation) :
    boxLocLE a b = true ↔ (a.2.LocID < b.2.LocID ∨
      (a.2.LocID = b.2.LocID ∧ a.2.DepthID ≤ b.2.DepthID)) := by
  simp only [boxLocLE, IsLess, Bool.not_eq_true', Bool.or_eq_false_iff,
    Bool.and_eq_false_iff, decide_eq_false_iff_not, Nat.not_lt, beq_eq_false_iff_ne,
    decide_eq_true_eq, beq_iff_eq]
  omega

theorem boxLocLE_trans : ∀ a b c : BoxBuildLocation,
    boxLocLE a b = true → boxLocLE b c = true → boxLocLE a c = true := by
  intro a b c hab hbc
  simp only [boxLocLE_iff] at *
  omega

theorem boxLocLE_total : ∀ a b : BoxBuildLocation,
    (boxLocLE a b || boxLocLE b a) = true := by
  intro a b
  rw [Bool.or_eq_true, boxLocLE_iff, boxLocLE_iff]
  omega

/-- The depth of a range location metadata never exceeds the tree depth. -/
theorem rangeMeta_depthID_le (D maxDepthID a b : ℕ) :
    (GetRangeLocationMetaData D maxDepthID a b).DepthID ≤ maxDepthID := by
  rw [GetRangeLocationMetaData]
  split
  · exact le_rfl
  · split
    · exact Nat.sub_le _ _
    · exact le_rfl

/-- The location id of a range location metadata is aligned to the grid
cell of its depth: the bits below the cell are zero. -/
theorem rangeMeta_align (D maxDepthID a b : ℕ) :
    (GetRangeLocationMetaData D maxDepthID a b).LocID %
      2 ^ ((maxDepthID - (GetRangeLocationMetaData D maxDepthID a b).DepthID) * D) = 0 := by
  rw [GetRangeLocationMetaData]
  split
  · simp [Nat.mod_one]
  · split
    · rename_i hL
      dsimp only
      have h2 : rangeLevelID D a b - 1 + 1 = rangeLevelID D a b := by omega
      have hLD : (rangeLevelID D a b - 1) * D + D = rangeLevelID D a b * D := by
        calc (rangeLevelID D a b - 1) * D + D
            = (rangeLevelID D a b - 1 + 1) * D := by ring
          _ = rangeLevelID D a b * D := by rw [h2]
      have hle : (maxDepthID - (maxDepthID - rangeLevelID D a b)) * D ≤
          rangeLevelID D a b * D :=
        Nat.mul_le_mul (by omega) (le_refl D)
      rw [hLD, Nat.shiftLeft_eq]
      exact Nat.mod_eq_zero_of_dvd ((pow_dvd_pow 2 hle).mul_left _)
    · simp [Nat.mod_one]

/-- In the sorted location list, the locations stuck at the current depth
form a prefix, so `std::partition_point` finds exactly the stuck set: on
a lexicographically sorted segment whose location ids share the prefix
`H` and are cell-aligned, `takeWhile`/`dropWhile` on the stuck predicate
agree with `filter`. -/
theorem boxStuck_prefix (D maxDepthID depthID fuel H : ℕ)
    (hfd : depthID + fuel = maxDepthID) :
    ∀ (seg : List BoxBuildLocation),
      seg.Pairwise (fun a b => a.2.LocID < b.2.LocID ∨
        (a.2.LocID = b.2.LocID ∧ a.2.DepthID ≤ b.2.DepthID)) →
      (∀ l ∈ seg, l.2.LocID >>> (fuel * D) = H) →
      (∀ l ∈ seg, l.2.LocID % 2 ^ ((maxDepthID - l.2.DepthID) * D) = 0) →
      (∀ l ∈ seg, depthID ≤ l.2.DepthID) →
      (∀ l ∈ seg, l.2.DepthID ≤ maxDepthID) →
      seg.takeWhile (fun l => l.2.DepthID == depthID) = boxStuckOf depthID seg ∧
      seg.dropWhile (fun l => l.2.DepthID == depthID) = boxRest depthID seg := by
  intro seg hpair hsp halign hdepth hdmax
  have hloc : ∀ l ∈ seg, H * 2 ^ (fuel * D) ≤ l.2.LocID := by
    intro l hl
    have h1 := hsp l hl
    rw [Nat.shiftRight_eq_div_pow] at h1
    calc H * 2 ^ (fuel * D) = l.2.LocID / 2 ^ (fuel * D) * 2 ^ (fuel * D) := by rw [h1]
      _ ≤ l.2.LocID := Nat.div_mul_le_self _ _
  have hpt : ∀ l ∈ seg, (l.2.DepthID == depthID) =
      (l.2.LocID * (maxDepthID + 1) + l.2.DepthID ==
        H * 2 ^ (fuel * D) * (maxDepthID + 1) + depthID) := by
    intro l hl
    rw [Bool.eq_iff_iff, beq_iff_eq, beq_iff_eq]
    constructor
    · intro he
      have hexp : maxDepthID - l.2.DepthID = fuel := by omega
      have ha := halign l hl
      rw [hexp] at ha
      have h1 := hsp l hl
      rw [Nat.shiftRight_eq_div_pow] at h1
      have h2 := Nat.div_add_mod l.2.LocID (2 ^ (fuel * D))
      rw [h1, ha, Nat.add_zero] at h2
      calc l.2.LocID * (maxDepthID + 1) + l.2.DepthID
          = 2 ^ (fuel * D) * H * (maxDepthID + 1) + depthID := by rw [h2, he]
        _ = H * 2 ^ (fuel * D) * (maxDepthID + 1) + depthID := by ring
    · intro hfe
      have e1 : (l.2.LocID * (maxDepthID + 1) + l.2.DepthID) % (maxDepthID + 1) =
          l.2.DepthID % (maxDepthID + 1) := Nat.mul_add_mod' _ _ _
      have e2 : (H * 2 ^ (fuel * D) * (maxDepthID + 1) + depthID) % (maxDepthID + 1) =
          depthID % (maxDepthID + 1) := Nat.mul_add_mod' _ _ _
      have hd1 : l.2.DepthID < maxDepthID + 1 := by
        have := hdmax l hl
        omega
      have hd2 : depthID < maxDepthID + 1 := by omega
      rw [hfe, e2, Nat.mod_eq_of_lt hd2] at e1
      rw [Nat.mod_eq_of_lt hd1] at e1
      omega
  have hmono : seg.Pairwise (fun a b : BoxBuildLocation =>
      a.2.LocID * (maxDepthID + 1) + a.2.DepthID ≤
        b.2.LocID * (maxDepthID + 1) + b.2.DepthID) := by
    refine hpair.imp_of_mem ?_
    intro a b ha hb hab
    have hda : a.2.DepthID ≤ maxDepthID := hdmax a ha
    rcases hab with hlt | ⟨heq, hle⟩
    · have h1 : a.2.LocID * (maxDepthID + 1) + (maxDepthID + 1) ≤
          b.2.LocID * (maxDepthID + 1) := by
        calc a.2.LocID * (maxDepthID + 1) + (maxDepthID + 1)
            = (a.2.LocID + 1) * (maxDepthID + 1) := by ring
          _ ≤ b.2.LocID * (maxDepthID + 1) := Nat.mul_le_mul (by omega) (le_refl _)
      calc a.2.LocID * (maxDepthID + 1) + a.2.DepthID
          ≤ a.2.LocID * (maxDepthID + 1) + (maxDepthID + 1) :=
            Nat.add_le_add_left (by omega) _
        _ ≤ b.2.LocID * (maxDepthID + 1) := h1
        _ ≤ b.2.LocID * (maxDepthID + 1) + b.2.DepthID := Nat.le_add_right _ _
    · rw [heq]
      exact Nat.add_le_add_left hle _
  have hge : ∀ a ∈ seg,
      H * 2 ^ (fuel * D) * (maxDepthID + 1) + depthID ≤
        a.2.LocID * (maxDepthID + 1) + a.2.DepthID := by
    intro a ha
    have h1 := hloc a ha
    rcases Nat.eq_or_lt_of_le h1 with heq | hlt
    · rw [← heq]
      exact Nat.add_le_add_left (hdepth a ha) _
    · have h2 : (H * 2 ^ (fuel * D) + 1) * (maxDepthID + 1) ≤
          a.2.LocID * (maxDepthID + 1) := Nat.mul_le_mul hlt (le_refl _)
      calc H * 2 ^ (fuel * D) * (maxDepthID + 1) + depthID
          ≤ H * 2 ^ (fuel * D) * (maxDepthID + 1) + (maxDepthID + 1) :=
            Nat.add_le_add_left (by omega) _
        _ = (H * 2 ^ (fuel * D) + 1) * (maxDepthID + 1) := by ring
        _ ≤ a.2.LocID * (maxDepthID + 1) := h2
        _ ≤ a.2.LocID * (maxDepthID + 1) + a.2.DepthID := Nat.le_add_right _ _
  obtain ⟨ht1, hd1⟩ := takeWhile_dropWhile_eq_filter
    (fun l : BoxBuildLocation => l.2.LocID * (maxDepthID + 1) + l.2.DepthID)
    (H * 2 ^ (fuel * D) * (maxDepthID + 1) + depthID) seg hmono hge
  obtain ⟨ht2, hd2⟩ := takeWhile_congr_of_mem (l := seg) hpt
  constructor
  · rw [boxStuckOf]
    exact ht2.trans (ht1.trans (List.filter_congr (fun a ha => (hpt a ha).symm)))
  · rw [boxRest]
    exact hd2.trans (hd1.trans (List.filter_congr
      (fun a ha => (congrArg (fun x => !x) (hpt a ha)).symm)))

set_option maxHeartbeats 1600000 in
/-- The serial and the sorted box builds produce permuted node-key lists
and, per key, permuted entity lists, whenever the sorted segment is a
lexicographically sorted permutation of the serial one, all location ids
share the prefix `H` above the remaining depth budget, every location is
cell-aligned at its own depth with depth between the current and the
maximal one, and the claimed split entities agree up to permutation. -/
theorem buildBox_serial_sorted_equiv (D maxDepthID maxElementNo : ℕ) :
    ∀ (fuel depthID key H : ℕ) (seg₁ seg₂ : List BoxBuildLocation)
      (claimed₁ claimed₂ : List ℕ),
      depthID + fuel = maxDepthID →
      seg₁.Perm seg₂ →
      seg₂.Pairwise (fun a b => a.2.LocID < b.2.LocID ∨
        (a.2.LocID = b.2.LocID ∧ a.2.DepthID ≤ b.2.DepthID)) →
      (∀ l ∈ seg₁, l.2.LocID >>> (fuel * D) = H) →
      (∀ l ∈ seg₁, l.2.LocID % 2 ^ ((maxDepthID - l.2.DepthID) * D) = 0) →
      (∀ l ∈ seg₁, depthID ≤ l.2.DepthID) →
      (∀ l ∈ seg₁, l.2.DepthID ≤ maxDepthID) →
      claimed₁.Perm claimed₂ →
      ((buildBoxSerial D maxElementNo fuel depthID key seg₁ claimed₁).map Prod.fst).Perm
        ((buildBoxSorted D maxElementNo fuel depthID key seg₂ claimed₂).map Prod.fst) ∧
      ∀ k, (entitiesOf (buildBoxSerial D maxElementNo fuel depthID key seg₁ claimed₁) k).Perm
        (entitiesOf (buildBoxSorted D maxElementNo fuel depthID key seg₂ claimed₂) k) := by
  intro fuel
  induction fuel with
  | zero =>
      intro depthID key H seg₁ seg₂ claimed₁ claimed₂ hfd hperm hpair hsp halign hdepth hdmax
        hclaimed
      constructor
      · rw [buildBoxSerial, buildBoxSorted]
        simp
      · intro k
        rw [buildBoxSerial, buildBoxSorted, entitiesOf_single, entitiesOf_single]
        cases hkk : (key == k)
        · simp
        · simp
          exact hclaimed.append (hperm.map Prod.fst)
  | succ fuel ih =>
      intro depthID key H seg₁ seg₂ claimed₁ claimed₂ hfd hperm hpair hsp halign hdepth hdmax
        hclaimed
      have hlen : seg₁.length = seg₂.length := hperm.length_eq
      have hclen : claimed₁.length = claimed₂.length := hclaimed.length_eq
      by_cases hz : seg₁.length = 0
      · have hz₂ : seg₂.length = 0 := by omega
        constructor
        · rw [buildBoxSerial, buildBoxSorted, if_pos hz, if_pos hz₂]
          simp
        · intro k
          rw [buildBoxSerial, buildBoxSorted, if_pos hz, if_pos hz₂,
            entitiesOf_single, entitiesOf_single]
          cases hkk : (key == k)
          · simp
          · simp
            exact hclaimed
      · by_cases hle : claimed₁.length + seg₁.length ≤ maxElementNo
        · have hz₂ : ¬(seg₂.length = 0) := by omega
          have hle₂ : claimed₂.length + seg₂.length ≤ maxElementNo := by omega
          constructor
          · rw [buildBoxSerial, buildBoxSorted, if_neg hz, if_neg hz₂, if_pos hle,
              if_pos hle₂]
            simp
          · intro k
            rw [buildBoxSerial, buildBoxSorted, if_neg hz, if_neg hz₂, if_pos hle,
              if_pos hle₂, entitiesOf_single, entitiesOf_single]
            cases hkk : (key == k)
            · simp
            · simp
              exact hclaimed.append (hperm.map Prod.fst)
        · have hz₂ : ¬(seg₂.length = 0) := by omega
          have hle₂ : ¬(claimed₂.length + seg₂.length ≤ maxElementNo) := by omega
          have hsp₂ : ∀ l ∈ seg₂, l.2.LocID >>> ((fuel + 1) * D) = H :=
            fun l hl => hsp l (hperm.mem_iff.mpr hl)
          have halign₂ : ∀ l ∈ seg₂, l.2.LocID % 2 ^ ((maxDepthID - l.2.DepthID) * D) = 0 :=
            fun l hl => halign l (hperm.mem_iff.mpr hl)
          have hdepth₂ : ∀ l ∈ seg₂, depthID ≤ l.2.DepthID :=
            fun l hl => hdepth l (hperm.mem_iff.mpr hl)
          have hdmax₂ : ∀ l ∈ seg₂, l.2.DepthID ≤ maxDepthID :=
            fun l hl => hdmax l (hperm.mem_iff.mpr hl)
          obtain ⟨hTW, hDW⟩ := boxStuck_prefix D maxDepthID depthID (fuel + 1) H hfd seg₂
            hpair hsp₂ halign₂ hdepth₂ hdmax₂
          have hstuckperm : (boxStuckOf depthID seg₁).Perm (boxStuckOf depthID seg₂) :=
            hperm.filter _
          have hrestperm : (boxRest depthID seg₁).Perm (boxRest depthID seg₂) :=
            hperm.filter _
          have hitemsperm : (boxSplitItems D (boxStuckOf depthID seg₁)).Perm
              (boxSplitItems D (boxStuckOf depthID seg₂)) :=
            perm_flatMap _ (hstuckperm.filter _)
          have hkeepperm : (boxKeepIDs D (boxStuckOf depthID seg₁)).Perm
              (boxKeepIDs D (boxStuckOf depthID seg₂)) :=
            (hstuckperm.filter _).map _
          have hclaimedrel : ∀ c : ℕ,
              (boxClaimed (boxSplitItems D (boxStuckOf depthID seg₁)) c).Perm
                (boxClaimed (boxSplitItems D (boxStuckOf depthID seg₂)) c) :=
            fun c => (hitemsperm.filter _).map _
          obtain ⟨S1, S2, S3⟩ := serialChildGroups_spec
            (fun l : BoxBuildLocation => l.2.LocID) D fuel
            (boxRest depthID seg₁).length (boxRest depthID seg₁) le_rfl
          have hpairloc : seg₂.Pairwise
              (fun a b : BoxBuildLocation => a.2.LocID ≤ b.2.LocID) := by
            refine hpair.imp ?_
            intro a b h
            rcases h with h | ⟨h, _⟩
            · omega
            · omega
          obtain ⟨T1, T2, T3⟩ := sortedChildGroups_spec
            (fun l : BoxBuildLocation => l.2.LocID) D fuel H
            (boxRest depthID seg₂).length (boxRest depthID seg₂) le_rfl
            (hpairloc.filter _)
            (fun l hl => hsp₂ l (List.mem_of_mem_filter hl))
          have hgciff : ∀ c, c ∈ (serialChildGroups (fun l : BoxBuildLocation => l.2.LocID)
                D fuel (boxRest depthID seg₁)).map Prod.fst ↔
              c ∈ (sortedChildGroups (fun l : BoxBuildLocation => l.2.LocID)
                D fuel (boxRest depthID seg₂)).map Prod.fst := by
            intro c
            rw [S3 c, T3 c]
            constructor
            · rintro ⟨l, hl, hc⟩
              exact ⟨l, hrestperm.mem_iff.mp hl, hc⟩
            · rintro ⟨l, hl, hc⟩
              exact ⟨l, hrestperm.mem_iff.mpr hl, hc⟩
          have hitmemiff : ∀ c : ℕ,
              (∃ it ∈ boxSplitItems D (boxStuckOf depthID seg₁), it.1 = c) ↔
              (∃ it ∈ boxSplitItems D (boxStuckOf depthID seg₂), it.1 = c) := by
            intro c
            constructor
            · rintro ⟨it, h1, h2⟩
              exact ⟨it, hitemsperm.mem_iff.mp h1, h2⟩
            · rintro ⟨it, h1, h2⟩
              exact ⟨it, hitemsperm.mem_iff.mpr h1, h2⟩
          have hnodup₁ : (((serialChildGroups (fun l : BoxBuildLocation => l.2.LocID) D fuel
                (boxRest depthID seg₁)) ++
              (boxSplitOnly (boxSplitItems D (boxStuckOf depthID seg₁))
                ((serialChildGroups (fun l : BoxBuildLocation => l.2.LocID) D fuel
                  (boxRest depthID seg₁)).map Prod.fst)).map
                (fun c => (c, ([] : List BoxBuildLocation)))).map Prod.fst).Nodup := by
            rw [List.map_append, map_fst_pairNil, List.nodup_append]
            refine ⟨S2, boxSplitOnly_nodup _ _, ?_⟩
            intro c hc hc2
            exact ((boxSplitOnly_mem _ _ c).mp hc2).2 hc
          have hnodup₂ : (((sortedChildGroups (fun l : BoxBuildLocation => l.2.LocID) D fuel
                (boxRest depthID seg₂)) ++
              (boxSplitOnly (boxSplitItems D (boxStuckOf depthID seg₂))
                ((sortedChildGroups (fun l : BoxBuildLocation => l.2.LocID) D fuel
                  (boxRest depthID seg₂)).map Prod.fst)).map
                (fun c => (c, ([] : List BoxBuildLocation)))).map Prod.fst).Nodup := by
            rw [List.map_append, map_fst_pairNil, List.nodup_append]
            refine ⟨T2, boxSplitOnly_nodup _ _, ?_⟩
            intro c hc hc2
            exact ((boxSplitOnly_mem _ _ c).mp hc2).2 hc
          have hmemiff : ∀ c,
              c ∈ (((serialChildGroups (fun l : BoxBuildLocation => l.2.LocID) D fuel
                (boxRest depthID seg₁)) ++
              (boxSplitOnly (boxSplitItems D (boxStuckOf depthID seg₁))
                ((serialChildGroups (fun l : BoxBuildLocation => l.2.LocID) D fuel
                  (boxRest depthID seg₁)).map Prod.fst)).map
                (fun c => (c, ([] : List BoxBuildLocation)))).map Prod.fst) ↔
              c ∈ (((sortedChildGroups (fun l : BoxBuildLocation => l.2.LocID) D fuel
                (boxRest depthID seg₂)) ++
              (boxSplitOnly (boxSplitItems D (boxStuckOf depthID seg₂))
                ((sortedChildGroups (fun l : BoxBuildLocation => l.2.LocID) D fuel
                  (boxRest depthID seg₂)).map Prod.fst)).map
                (fun c => (c, ([] : List BoxBuildLocation)))).map Prod.fst) := by
            intro c
            rw [List.map_append, map_fst_pairNil, List.map_append, map_fst_pairNil,
              List.mem_append, List.mem_append, boxSplitOnly_mem, boxSplitOnly_mem,
              hgciff c, hitmemiff c]
          have hrelmain : ∀ g₁ ∈ (serialChildGroups (fun l : BoxBuildLocation => l.2.LocID)
                D fuel (boxRest depthID seg₁)) ++
                (boxSplitOnly (boxSplitItems D (boxStuckOf depthID seg₁))
                  ((serialChildGroups (fun l : BoxBuildLocation => l.2.LocID) D fuel
                    (boxRest depthID seg₁)).map Prod.fst)).map
                  (fun c => (c, ([] : List BoxBuildLocation))),
              ∀ g₂ ∈ (sortedChildGroups (fun l : BoxBuildLocation => l.2.LocID)
                D fuel (boxRest depthID seg₂)) ++
                (boxSplitOnly (boxSplitItems D (boxStuckOf depthID seg₂))
                  ((sortedChildGroups (fun l : BoxBuildLocation => l.2.LocID) D fuel
                    (boxRest depthID seg₂)).map Prod.fst)).map
                  (fun c => (c, ([] : List BoxBuildLocation))),
              g₁.1 = g₂.1 →
              ((buildBoxSerial D maxElementNo fuel (depthID + 1) ((key <<< D) ||| g₁.1) g₁.2
                  (boxClaimed (boxSplitItems D (boxStuckOf depthID seg₁)) g₁.1)).map
                  Prod.fst).Perm
                ((buildBoxSorted D maxElementNo fuel (depthID + 1) ((key <<< D) ||| g₂.1) g₂.2
                  (boxClaimed (boxSplitItems D (boxStuckOf depthID seg₂)) g₂.1)).map
                  Prod.fst) ∧
              ∀ k, (entitiesOf (buildBoxSerial D maxElementNo fuel (depthID + 1)
                  ((key <<< D) ||| g₁.1) g₁.2
                  (boxClaimed (boxSplitItems D (boxStuckOf depthID seg₁)) g₁.1)) k).Perm
                (entitiesOf (buildBoxSorted D maxElementNo fuel (depthID + 1)
                  ((key <<< D) ||| g₂.1) g₂.2
                  (boxClaimed (boxSplitItems D (boxStuckOf depthID seg₂)) g₂.1)) k) := by
            intro g₁ hg₁ g₂ hg₂ hfst
            rw [← hfst]
            rcases List.mem_append.mp hg₁ with hg₁r | hg₁s
            · rcases List.mem_append.mp hg₂ with hg₂r | hg₂s
              · have hc₁ := S1 g₁ hg₁r
                have hc₂ := T1 g₂ hg₂r
                have hpermg : g₁.2.Perm g₂.2 := by
                  rw [hc₁, hc₂, ← hfst]
                  exact hrestperm.filter _
                have hpairg : g₂.2.Pairwise (fun a b : BoxBuildLocation =>
                    a.2.LocID < b.2.LocID ∨
                      (a.2.LocID = b.2.LocID ∧ a.2.DepthID ≤ b.2.DepthID)) := by
                  rw [hc₂]
                  exact (hpair.filter _).filter _
                have hsub₁ : ∀ l ∈ g₁.2, l ∈ seg₁ := by
                  intro l hl
                  rw [hc₁] at hl
                  exact List.mem_of_mem_filter (List.mem_of_mem_filter hl)
                have hspg : ∀ l ∈ g₁.2, l.2.LocID >>> (fuel * D) = 2 ^ D * H + g₁.1 := by
                  intro l hl
                  have hcid : childIDAt D fuel l.2.LocID = g₁.1 := by
                    rw [hc₁] at hl
                    have h3 := (List.mem_filter.mp hl).2
                    simpa using h3
                  exact childID_prefix_step D fuel (hsp l (hsub₁ l hl)) hcid
                have hdepthg : ∀ l ∈ g₁.2, depthID + 1 ≤ l.2.DepthID := by
                  intro l hl
                  rw [hc₁] at hl
                  have hmemr := List.mem_of_mem_filter hl
                  have hne := (List.mem_filter.mp hmemr).2
                  simp only [Bool.not_eq_true', beq_eq_false_iff_ne] at hne
                  have hgeq := hdepth l (List.mem_of_mem_filter hmemr)
                  omega
                exact ih (depthID + 1) ((key <<< D) ||| g₁.1) (2 ^ D * H + g₁.1) g₁.2 g₂.2
                  _ _ (by omega) hpermg hpairg hspg
                  (fun l hl => halign l (hsub₁ l hl)) hdepthg
                  (fun l hl => hdmax l (hsub₁ l hl)) (hclaimedrel g₁.1)
              · exfalso
                obtain ⟨c, hcso, hgeq⟩ := List.mem_map.mp hg₂s
                have hg21 : g₂.1 = c := by rw [← hgeq]
                have hc1 : g₁.1 ∈ (serialChildGroups (fun l : BoxBuildLocation => l.2.LocID)
                    D fuel (boxRest depthID seg₁)).map Prod.fst :=
                  List.mem_map.mpr ⟨g₁, hg₁r, rfl⟩
                have hc2 := (hgciff g₁.1).mp hc1
                rw [hfst, hg21] at hc2
                exact ((boxSplitOnly_mem _ _ c).mp hcso).2 hc2
            · rcases List.mem_append.mp hg₂ with hg₂r | hg₂s
              · exfalso
                obtain ⟨c, hcso, hgeq⟩ := List.mem_map.mp hg₁s
                have hg11 : g₁.1 = c := by rw [← hgeq]
                have hc1 : g₂.1 ∈ (sortedChildGroups (fun l : BoxBuildLocation => l.2.LocID)
                    D fuel (boxRest depthID seg₂)).map Prod.fst :=
                  List.mem_map.mpr ⟨g₂, hg₂r, rfl⟩
                have hc2 := (hgciff g₂.1).mpr hc1
                rw [← hfst, hg11] at hc2
                exact ((boxSplitOnly_mem _ _ c).mp hcso).2 hc2
              · obtain ⟨c₁, hc₁so, hgeq₁⟩ := List.mem_map.mp hg₁s
                obtain ⟨c₂, hc₂so, hgeq₂⟩ := List.mem_map.mp hg₂s
                have h₁2 : g₁.2 = [] := by rw [← hgeq₁]
                have h₂2 : g₂.2 = [] := by rw [← hgeq₂]
                rw [h₁2, h₂2]
                exact ih (depthID + 1) ((key <<< D) ||| g₁.1) (2 ^ D * H + g₁.1) [] [] _ _
                  (by omega) (List.Perm.refl []) List.Pairwise.nil (by simp) (by simp)
                  (by simp) (by simp) (hclaimedrel g₁.1)
          constructor
          · simp only [buildBoxSerial, buildBoxSorted]
            rw [if_neg hz, if_neg hz₂, if_neg hle, if_neg hle₂, hTW, hDW]
            rw [List.map_cons, List.map_cons]
            apply List.Perm.cons
            rw [List.map_flatMap, List.map_flatMap]
            apply flatMap_perm_of_groups _ _ _ _ hnodup₁ hnodup₂ hmemiff
            intro g₁ hg₁ g₂ hg₂ hfst
            exact (hrelmain g₁ hg₁ g₂ hg₂ hfst).1
          · intro k
            simp only [buildBoxSerial, buildBoxSorted]
            rw [if_neg hz, if_neg hz₂, if_neg hle, if_neg hle₂, hTW, hDW]
            rw [entitiesOf_cons, entitiesOf_cons, entitiesOf_flatMap, entitiesOf_flatMap]
            refine List.Perm.append ?_ ?_
            · cases hkk : (key == k)
              · simp
              · simp
                exact hclaimed.append hkeepperm
            · apply flatMap_perm_of_groups _ _ _ _ hnodup₁ hnodup₂ hmemiff
              intro g₁ hg₁ g₂ hg₂ hfst
              exact (hrelmain g₁ hg₁ g₂ hg₂ hfst).2 k

/-- Claim C9: on identical inputs and construction parameters, the
parallel `Create` (sorted-locations path) assigns every node the same
entity ids as the serial `Create` (input order, partitioning path), for
the point tree and for the box tree with its split-entity build: the two
stores carry the same node keys, and assign every node key the same
entity ids (equal as multisets, hence as sets).  The box half is stated
under the in-code rasterization invariant that every box location id
lies inside the grid of the tree resolution.  The modelling fixes the
reorderings that `std::partition` and `std::sort` leave unspecified to
their order-preserving representatives. -/
theorem parallelBuild_equals_serialBuild (D : ℕ) (hD : 0 < D)
    (maxDepthID maxElementNo : ℕ) (wmin wmax : List ℚ) (points : List (List ℚ))
    (boxes : List (List ℚ × List ℚ)) :
    (((pointCreateSerial D maxDepthID maxElementNo wmin wmax points).map Prod.fst).Perm
      ((pointCreateParallel D maxDepthID maxElementNo wmin wmax points).map Prod.fst) ∧
    ∀ k, (entitiesOf (pointCreateSerial D maxDepthID maxElementNo wmin wmax points) k).Perm
      (entitiesOf (pointCreateParallel D maxDepthID maxElementNo wmin wmax points) k)) ∧
    ((∀ l ∈ boxBuildLocations D (initBase maxDepthID maxElementNo wmin wmax) boxes,
        l.2.LocID < 2 ^ (maxDepthID * D)) →
      ((boxCreateSerial D maxDepthID maxElementNo wmin wmax boxes).map Prod.fst).Perm
        ((boxCreateParallel D maxDepthID maxElementNo wmin wmax boxes).map Prod.fst) ∧
      ∀ k, (entitiesOf (boxCreateSerial D maxDepthID maxElementNo wmin wmax boxes) k).Perm
        (entitiesOf (boxCreateParallel D maxDepthID maxElementNo wmin wmax boxes) k)) := by
  constructor
  · have htrans : ∀ a b c : BuildLocation, decide (a.2 ≤ b.2) = true →
        decide (b.2 ≤ c.2) = true → decide (a.2 ≤ c.2) = true := by
      intro a b c hab hbc
      simp only [decide_eq_true_eq] at *
      omega
    have htotal : ∀ a b : BuildLocation,
        (decide (a.2 ≤ b.2) || decide (b.2 ≤ a.2)) = true := by
      intro a b
      rw [Bool.or_eq_true, decide_eq_true_eq, decide_eq_true_eq]
      exact Nat.le_total _ _
    have hsorted := List.sorted_mergeSort htrans htotal
      (pointBuildLocations D (initBase maxDepthID maxElementNo wmin wmax) points)
    have hpair : ((pointBuildLocations D (initBase maxDepthID maxElementNo wmin wmax)
        points).mergeSort (fun a b => decide (a.2 ≤ b.2))).Pairwise
        (fun a b : BuildLocation => a.2 ≤ b.2) := by
      refine hsorted.imp ?_
      intro a b h
      simpa using h
    have hperm := (List.mergeSort_perm
      (pointBuildLocations D (initBase maxDepthID maxElementNo wmin wmax) points)
      (fun a b => decide (a.2 ≤ b.2))).symm
    exact buildSerial_sorted_equiv D maxElementNo maxDepthID 1 0 _ _ hperm hpair
      (pointBuildLocations_shift D maxDepthID maxElementNo wmin wmax points)
  · intro hgrid
    have hsorted := List.sorted_mergeSort boxLocLE_trans boxLocLE_total
      (boxBuildLocations D (initBase maxDepthID maxElementNo wmin wmax) boxes)
    have hpairbox : ((boxBuildLocations D (initBase maxDepthID maxElementNo wmin wmax)
        boxes).mergeSort boxLocLE).Pairwise
        (fun a b : BoxBuildLocation => a.2.LocID < b.2.LocID ∨
          (a.2.LocID = b.2.LocID ∧ a.2.DepthID ≤ b.2.DepthID)) := by
      refine hsorted.imp ?_
      intro a b h
      exact (boxLocLE_iff a b).mp h
    have hpermbox := (List.mergeSort_perm
      (boxBuildLocations D (initBase maxDepthID maxElementNo wmin wmax) boxes)
      boxLocLE).symm
    have hmeta : ∀ l ∈ boxBuildLocations D (initBase maxDepthID maxElementNo wmin wmax)
        boxes, ∃ a b, l.2 = GetRangeLocationMetaData D maxDepthID a b := by
      intro l hl
      obtain ⟨q, hq, hql⟩ := List.mem_map.mp hl
      refine ⟨Encode D (getBoxGridID D (initBase maxDepthID maxElementNo wmin wmax)
          q.2.1 q.2.2).1,
        Encode D (getBoxGridID D (initBase maxDepthID maxElementNo wmin wmax)
          q.2.1 q.2.2).2, ?_⟩
      rw [← hql]
      rfl
    have hsp0 : ∀ l ∈ boxBuildLocations D (initBase maxDepthID maxElementNo wmin wmax)
        boxes, l.2.LocID >>> (maxDepthID * D) = 0 := by
      intro l hl
      rw [Nat.shiftRight_eq_div_pow]
      exact Nat.div_eq_of_lt (hgrid l hl)
    have halign0 : ∀ l ∈ boxBuildLocations D (initBase maxDepthID maxElementNo wmin wmax)
        boxes, l.2.LocID % 2 ^ ((maxDepthID - l.2.DepthID) * D) = 0 := by
      intro l hl
      obtain ⟨a, b, he⟩ := hmeta l hl
      rw [he]
      exact rangeMeta_align D maxDepthID a b
    have hdmax0 : ∀ l ∈ boxBuildLocations D (initBase maxDepthID maxElementNo wmin wmax)
        boxes, l.2.DepthID ≤ maxDepthID := by
      intro l hl
      obtain ⟨a, b, he⟩ := hmeta l hl
      rw [he]
      exact rangeMeta_depthID_le D maxDepthID a b
    exact buildBox_serial_sorted_equiv D maxDepthID maxElementNo maxDepthID 0 1 0 _ _ [] []
      (Nat.zero_add _) hpermbox hpairbox hsp0 halign0 (fun l hl => Nat.zero_le _) hdmax0
      (List.Perm.refl [])

/-! ### Range search (claim C1)

Model of `OrthoTreeBase::RangeSearchBaseRoot` for the point tree
(`RangeSearch` = `RangeSearchBaseRoot<false, true>`).  The recursion of
`RangeSearchBase` and `CollectAllEntitiesInDFSRecursive` over the node
store is given a depth budget (`m_maxDepthID + 1` levels at the root);
in a well-formed store every child is one level deeper, so the budget is
never exhausted and the fuel branch is unreachable. -/

/-- Transcription of `InternalGeometryModule::GetVolumeAD`. -/
def getVolume (D : ℕ) (rmin rmax : List ℚ) : ℚ :=
  (List.range D).foldl (fun acc d => acc * (rmax.getD d 0 - rmin.getD d 0)) 1

/-- Node size per depth (`m_nodeSizes[depthID]`, filled by `InitBase` with
the world size halved per level). -/
def nodeSizeQ (s : TreeState) (depth d : ℕ) : ℚ :=
  (s.worldMax.getD d 0 - s.worldMin.getD d 0) / 2 ^ depth

/-- Center of a node, computed from its key.  The code caches the center in
the node (`InitBase` sets the root to the box center and `CreateChild`
offsets the parent center by a half of the child size); the cached value
is exactly the center of the grid cell the key denotes, which is the form
used here. -/
def nodeCenterQ (D : ℕ) (s : TreeState) (key : ℕ) : List ℚ :=
  (List.range D).map fun d =>
    s.worldMin.getD d 0 + (((deinterleave D (GetDepthID D key) key).getD d 0 : ℚ) + 1 / 2) *
      nodeSizeQ s (GetDepthID D key) d

/-- Transcription of `GetNodeBox(depthID, center)`: center offset by the
half size (the size of the next depth). -/
def nodeBoxQ (D : ℕ) (s : TreeState) (depth : ℕ) (center : List ℚ) : List ℚ × List ℚ :=
  ((List.range D).map fun d => center.getD d 0 - nodeSizeQ s (depth + 1) d,
   (List.range D).map fun d => center.getD d 0 + nodeSizeQ s (depth + 1) d)

/-- Transcription of `GetRelativeMinMaxLocation`: dimension-wise flags of
the range corners relative to the node center. -/
def relativeMinMaxLocation (D : ℕ) (center rmin rmax : List ℚ) : ℕ × ℕ :=
  ((List.range D).foldl
    (fun acc d => acc ||| (if center.getD d 0 ≤ rmin.getD d 0 then 1 <<< d else 0)) 0,
   (List.range D).foldl
    (fun acc d => acc ||| (if center.getD d 0 ≤ rmax.getD d 0 then 1 <<< d else 0)) 0)

/-- Transcription of `RangeSearchBaseCopy` for the point tree: the node
entities whose point the range contains, appended to the accumulator. -/
def rangeSearchBaseCopyPoint (D : ℕ) (rmin rmax : List ℚ) (points : List (List ℚ))
    (node : TreeNode) (found : List ℕ) : List ℕ :=
  found ++ node.entities.filter (fun e => DoesBoxContainPoint D rmin rmax (points.getD e []) 0)

/-- Transcription of `CollectAllEntitiesInDFSRecursive` with a depth
budget. -/
def collectAllEntitiesInDFS (nodes : NodeMap) : ℕ → TreeNode → List ℕ → List ℕ
  | 0, node, found => found ++ node.entities
  | fuel + 1, node, found =>
      node.children.foldl
        (fun acc ck => collectAllEntitiesInDFS nodes fuel (getNode nodes ck) acc)
        (found ++ node.entities)
termination_by fuel _ _ => fuel
decreasing_by
  omega

/-- Transcription of `RangeSearchBase<false>` for the point tree.  The
complement-under-mask `(~(min ^ max)) & CHILD_MASK` is written as
`CHILD_MASK ^^^ ((min ^^^ max) &&& CHILD_MASK)`, the same value. -/
def rangeSearchBasePoint (D : ℕ) (s : TreeState) (points : List (List ℚ))
    (rmin rmax : List ℚ) : ℕ → ℕ → ℕ → List ℕ → List ℕ
  | fuel, depthID, nodeKey, found =>
      let node := getNode s.nodes nodeKey
      if !node.isAnyChildExist then rangeSearchBaseCopyPoint D rmin rmax points node found
      else
        match fuel with
        | 0 => found
        | fuel + 1 =>
            let center := nodeCenterQ D s nodeKey
            let flags := relativeMinMaxLocation D center rmin rmax
            let dimensionMask := 2 ^ D - 1
            let limitedDimensionsMask :=
              dimensionMask ^^^ ((flags.1 ^^^ flags.2) &&& dimensionMask)
            if limitedDimensionsMask = 0 ∧
                DoesRangeContainBox D rmin rmax (nodeBoxQ D s depthID center).1
                  (nodeBoxQ D s depthID center).2 = true then
              collectAllEntitiesInDFS s.nodes fuel node found
            else
              let found1 := rangeSearchBaseCopyPoint D rmin rmax points node found
              let dimensionBoundaries := (flags.1 &&& flags.2) &&& limitedDimensionsMask
              node.children.foldl
                (fun acc ck =>
                  if (ck &&& limitedDimensionsMask) == dimensionBoundaries then
                    rangeSearchBasePoint D s points rmin rmax fuel (depthID + 1) ck acc
                  else acc)
                found1
termination_by fuel _ _ _ => fuel
decreasing_by
  omega

/-- Rasterized corner pair of a range under the point-like classification
(`GetBoxGridID<true>`), the variant the point tree's range search uses
(`GetNodeID<!IS_BOX_TYPE>`). -/
def getBoxGridIDPointLike (D : ℕ) (s : TreeState) (rmin rmax : List ℚ) :
    List ℕ × List ℕ :=
  ((List.range D).map fun d =>
    min (2 ^ s.maxDepthID - 1)
      (Int.toNat ⌊(rmin.getD d 0 - s.worldMin.getD d 0) * rasterFactor s d⌋),
   (List.range D).map fun d =>
    min (2 ^ s.maxDepthID - 1)
      (Int.toNat ⌊(rmax.getD d 0 - s.worldMin.getD d 0) * rasterFactor s d⌋))

/-- Range location of a query box under the point-like classification. -/
def pointLikeBoxLocation (D : ℕ) (s : TreeState) (rmin rmax : List ℚ) :
    RangeLocationMetaData :=
  let g := getBoxGridIDPointLike D s rmin rmax
  GetRangeLocationMetaData D s.maxDepthID (Encode D g.1) (Encode D g.2)

/-- Transcription of `RangeSearchBaseRoot<false, true>` for the point tree
(`OrthoTreePoint::RangeSearch`): whole-world fast path, zero-volume
rejection, then the guarded traversal from the smallest node containing
the range. -/
def rangeSearchRootPoint (D : ℕ) (hD : 0 < D) (s : TreeState) (points : List (List ℚ))
    (rmin rmax : List ℚ) : List ℕ × Bool :=
  if DoesRangeContainBox D rmin rmax s.worldMin s.worldMax then
    (List.range points.length, decide (0 < points.length))
  else if getVolume D rmin rmax ≤ 0 then ([], false)
  else
    let rangeKey := GetHashAtDepth D (pointLikeBoxLocation D s rmin rmax) s.maxDepthID
    let smallestNodeKey := findSmallestNodeKey s.nodes D hD rangeKey
    if smallestNodeKey = 0 then ([], false)
    else
      (rangeSearchBasePoint D s points rmin rmax (s.maxDepthID + 1)
        (GetDepthID D smallestNodeKey) smallestNodeKey [], true)

/-- Claim C1 is REFUTED by a zero-volume query: in the one-dimensional
point tree over the world box from 0 to 4 holding entity 0 at the point 3,
the query box with both corners at 3 contains that point, yet
`RangeSearch` returns no entity: `RangeSearchBaseRoot` rejects every
query box of zero volume before the traversal (the in-code comment calls
the case out), so the claimed completeness fails for degenerate boxes. -/
theorem rangeSearch_zero_volume_counterexample :
    rangeSearchRootPoint 1 one_pos
      (pointInsert 1 one_pos (initBase 2 1 [0] [4]) 0 [3] true).1 [[3]] [3] [3] =
      ([], false) ∧
    DoesBoxContainPoint 1 [3] [3] (([[3]] : List (List ℚ)).getD 0 []) 0 = true := by
  constructor
  · rw [c8_state1]
    norm_num [rangeSearchRootPoint, getVolume, DoesRangeContainBox, List.range_succ]
  · decide

/-! ### Nearest neighbours (claim C2)

Model of `OrthoTreePoint::GetNearestNeighbors` and its helpers at the
one-dimensional instantiation, where `AD::Distance` (the Euclidean norm
of the difference) is the exact rational `|a - b|`.  Distances that the
code keeps as `double` stay exact rationals; the sentinel
`std::numeric_limits<double>::max()` returned by `GetFarestDistance`
when fewer candidates than requested exist is modelled as the infinite
element of `XQ` (every comparison against it behaves the same way).
`std::nth_element` and `std::sort`, whose exact arrangements the
standard leaves open, are refined to a full stable sort, which satisfies
their postconditions.  Node-store traversals carry an explicit budget;
on a well-formed store the budget suffices and the exhaustion branch is
unreachable. -/

/-- Out-of-tree tolerant rasterization (`GetPointGridID<true>`): negative
offsets are clamped to the first cell. -/
def getPointGridIDHandled (D : ℕ) (s : TreeState) (p : List ℚ) : List ℕ :=
  (List.range D).map fun d =>
    min (2 ^ s.maxDepthID - 1)
      (Int.toNat ⌊max (p.getD d 0 - s.worldMin.getD d 0) 0 * rasterFactor s d⌋)

/-- Distance of two points in one dimension (`AD::Distance`). -/
def dist1 (a b : ℚ) : ℚ := |a - b|

/-- Ordering of `EntityDistance` (`operator<=>` generated memberwise:
distance first, entity id second), as a total `le` for the sort. -/
def edLE (a b : ℚ × ℕ) : Bool := decide (a.1 < b.1 ∨ (a.1 = b.1 ∧ a.2 ≤ b.2))

/-- Transcription of `OrthoTreePoint::AddEntityDistance`. -/
def addEntityDistance1 (entities : List ℕ) (searchPoint : ℚ) (points : List ℚ)
    (neighborEntities : List (ℚ × ℕ)) (maxDistance : XQ) : List (ℚ × ℕ) :=
  entities.foldl
    (fun acc e =>
      let d := dist1 searchPoint (points.getD e 0)
      if XQ.lt (XQ.val d) maxDistance then acc ++ [(d, e)] else acc)
    neighborEntities

/-- Transcription of `OrthoTreePoint::GetFarestDistance`; the
`nth_element` rearrangement is the first component (refined to a sort),
the returned distance the second. -/
def getFarestDistance1 (neighborEntities : List (ℚ × ℕ)) (neighborNo : ℕ) :
    List (ℚ × ℕ) × XQ :=
  if neighborEntities.length < neighborNo then (neighborEntities, XQ.posInf)
  else
    let sorted := neighborEntities.mergeSort edLE
    (sorted, XQ.val (sorted.getD (neighborNo - 1) (0, 0)).1)

/-- Transcription of `OrthoTreePoint::ConvertEntityDistanceToList`. -/
def convertEntityDistanceToList1 (neighborEntities : List (ℚ × ℕ)) (neighborNo : ℕ) :
    List ℕ :=
  if neighborEntities.isEmpty then []
  else
    let ne1 := if neighborNo < neighborEntities.length then neighborEntities.mergeSort edLE
      else neighborEntities
    (ne1.take (min neighborNo ne1.length)).map Prod.snd

/-- Transcription of `GetNodeWallDistance`
(`IGM::GetBoxWallDistanceAD` at one dimension). -/
def getNodeWallDistance1 (s : TreeState) (searchPoint : ℚ) (key : ℕ)
    (isInsideConsideredAsZero : Bool) : ℚ :=
  let centerDistance := |(nodeCenterQ 1 s key).getD 0 0 - searchPoint|
  let halfSize := nodeSizeQ s (GetDepthID 1 key + 1) 0
  if centerDistance ≤ halfSize then
    if isInsideConsideredAsZero then 0 else halfSize - centerDistance
  else max 0 (centerDistance - halfSize)

/-- Transcription of the depth-first phase of `GetNearestNeighbors`
(`VisitNodesInDFSWithChildrenEdit` with the two closures): collect the
node entities below the running distance cap, update the cap, then
descend into the children whose wall is not beyond the cap, nearest
first. -/
def knnVisitDFS (s : TreeState) (points : List ℚ) (searchPoint : ℚ) (neighborNo : ℕ)
    (maxDistance : ℚ) : ℕ → ℕ → List (ℚ × ℕ) × XQ → List (ℚ × ℕ) × XQ
  | 0, _, st => st
  | fuel + 1, key, st =>
      let node := getNode s.nodes key
      let ne1 := addEntityDistance1 node.entities searchPoint points st.1
        (XQ.minv st.2 (XQ.val maxDistance))
      let far1 := getFarestDistance1 ne1 neighborNo
      let childrenDistance := node.children.filterMap fun ck =>
        let wd := getNodeWallDistance1 s searchPoint ck true
        if XQ.lt far1.2 (XQ.val wd) then none else some (ck, wd)
      let sortedChildren := childrenDistance.mergeSort (fun a b => decide (a.2 ≤ b.2))
      sortedChildren.foldl
        (fun acc c => knnVisitDFS s points searchPoint neighborNo maxDistance fuel c.1 acc)
        (far1.1, far1.2)
termination_by fuel _ _ => fuel
decreasing_by
  omega

/-- Ancestor chain pushed by the tail loop of `RangeSearchNodes`. -/
def parentChainKeys (key : ℕ) : List ℕ :=
  if key ≤ 1 then []
  else (key >>> 1) :: parentChainKeys (key >>> 1)
termination_by key
decreasing_by
  rename_i h
  rw [Nat.shiftRight_eq_div_pow]
  omega

/-- Queue walk of `VisitNodes` as used by `RangeSearchNodes`: nodes whose
box contains the range (and which are not the excluded key) are collected
and their children enqueued. -/
def rangeSearchNodesVisit (s : TreeState) (rmin rmax : ℚ) (excludeNodeKey : ℕ) :
    ℕ → List ℕ → List ℕ → List ℕ
  | 0, _, found => found
  | _ + 1, [], found => found
  | fuel + 1, key :: rest, found =>
      let node := getNode s.nodes key
      if key ≠ excludeNodeKey ∧
          DoesRangeContainBox 1 (nodeBoxQ 1 s (GetDepthID 1 key) (nodeCenterQ 1 s key)).1
            (nodeBoxQ 1 s (GetDepthID 1 key) (nodeCenterQ 1 s key)).2 [rmin] [rmax] = true then
        rangeSearchNodesVisit s rmin rmax excludeNodeKey fuel (rest ++ node.children)
          (found ++ [key])
      else rangeSearchNodesVisit s rmin rmax excludeNodeKey fuel rest found
termination_by fuel _ _ => fuel
decreasing_by
  repeat omega

/-- Transcription of `OrthoTreeBase::RangeSearchNodes` at one dimension. -/
def rangeSearchNodes1 (s : TreeState) (rmin rmax : ℚ) (excludeNodeKey : ℕ) : List ℕ :=
  if getVolume 1 [rmin] [rmax] ≤ 0 then []
  else
    let rangeKey := GetHashAtDepth 1 (pointLikeBoxLocation 1 s [rmin] [rmax]) s.maxDepthID
    let smallestNodeKey := findSmallestNodeKey s.nodes 1 one_pos rangeKey
    if smallestNodeKey = 0 then []
    else
      rangeSearchNodesVisit s rmin rmax excludeNodeKey
        ((s.nodes.length + 1) * (s.nodes.length + 1)) [smallestNodeKey] [] ++
        parentChainKeys smallestNodeKey

/-- Sibling walk of the iterative phase of `GetNearestNeighbors`: a queue
from the parent key, skipping the already traversed child subtree, adding
the wall distance of every not yet visited node below the running cap. -/
def siblingSearchBFS (s : TreeState) (searchPoint : ℚ) (farest : XQ)
    (traversedChildNodeKey : ℕ) :
    ℕ → List ℕ → List ℕ → List (ℚ × ℕ) → List ℕ × List (ℚ × ℕ)
  | 0, _, visited, dists => (visited, dists)
  | _ + 1, [], visited, dists => (visited, dists)
  | fuel + 1, nodeKey :: rest, visited, dists =>
      if nodeKey = traversedChildNodeKey then
        siblingSearchBFS s searchPoint farest traversedChildNodeKey fuel rest visited dists
      else
        let node := getNode s.nodes nodeKey
        let queue1 := rest ++ node.children
        if visited.contains nodeKey then
          siblingSearchBFS s searchPoint farest traversedChildNodeKey fuel queue1 visited dists
        else
          let wd := getNodeWallDistance1 s searchPoint nodeKey true
          let dists1 := if XQ.lt (XQ.val wd) farest then dists ++ [(wd, nodeKey)] else dists
          siblingSearchBFS s searchPoint farest traversedChildNodeKey fuel queue1
            (visited ++ [nodeKey]) dists1
termination_by fuel _ _ _ => fuel
decreasing_by
  repeat omega

/-- Iterative (parent-by-parent) phase of `GetNearestNeighbors`: siblings
by queue, non-siblings by `RangeSearchNodes` over the box of twice the
parent size, then the candidate nodes nearest first until the cap breaks,
stopping once the parent size covers the maximum distance. -/
def knnBFSLoop (s : TreeState) (points : List ℚ) (searchPoint : ℚ) (neighborNo : ℕ)
    (maxDistance : ℚ) :
    ℕ → ℕ → ℕ → ℕ → List ℕ → List (ℚ × ℕ) → XQ → List (ℚ × ℕ) × XQ
  | 0, _, _, _, _, ne, far => (ne, far)
  | fuel + 1, traversedChildNodeKey, parentNodeKey, parentDepthID, visited, ne, far =>
      if parentNodeKey = 0 then (ne, far)
      else
        let sib := siblingSearchBFS s searchPoint far traversedChildNodeKey
          ((s.nodes.length + 1) * (s.nodes.length + 1)) [parentNodeKey] visited []
        let parentSize := nodeSizeQ s parentDepthID 0
        let size := parentSize * 2
        let isRangeSearchOverMaxDistance := decide (size ≥ maxDistance)
        let nonSibling := rangeSearchNodes1 s (searchPoint - size) (searchPoint + size)
          parentNodeKey
        let dists2 := nonSibling.foldl
          (fun acc k =>
            if sib.1.contains k then acc
            else
              let wd := getNodeWallDistance1 s searchPoint k true
              if XQ.lt (XQ.val wd) far then acc ++ [(wd, k)] else acc)
          sib.2
        let visited2 := sib.1 ++ nonSibling
        let far1 := getFarestDistance1 ne neighborNo
        let sortedNodes := dists2.mergeSort (fun a b => decide (a.1 ≤ b.1))
        let eval := sortedNodes.foldl
          (fun (acc : (List (ℚ × ℕ) × XQ) × Bool) nd =>
            if acc.2 then acc
            else if neighborNo ≤ acc.1.1.length ∧ XQ.lt acc.1.2 (XQ.val nd.1) then
              (acc.1, true)
            else
              let ne2 := addEntityDistance1 (getNode s.nodes nd.2).entities searchPoint points
                acc.1.1 (XQ.minv acc.1.2 (XQ.val maxDistance))
              (getFarestDistance1 ne2 neighborNo, false))
          ((far1.1, far1.2), false)
        if isRangeSearchOverMaxDistance then (eval.1.1, eval.1.2)
        else
          knnBFSLoop s points searchPoint neighborNo maxDistance fuel parentNodeKey
            (parentNodeKey >>> 1) (parentDepthID - 1) visited2 eval.1.1 eval.1.2
termination_by fuel _ _ _ _ _ _ => fuel
decreasing_by
  omega

/-- Transcription of `OrthoTreePoint::GetNearestNeighbors` at one
dimension: the smallest node of the search point (the root when none),
the depth-first collection below it, and, unless the collected
candidates already beat the node wall, the iterative widening phase. -/
def getNearestNeighbors1 (s : TreeState) (points : List ℚ) (searchPoint : ℚ)
    (neighborNo : ℕ) (maxDistance : ℚ) : List ℕ :=
  let entityKey := GetHash 1 s.maxDepthID (Encode 1 (getPointGridIDHandled 1 s [searchPoint]))
  let fsk := findSmallestNodeKeyWithDepth s.nodes 1 one_pos entityKey (GetDepthID 1 entityKey)
  let smallestNodeKey := if fsk.1 = 0 then 1 else fsk.1
  let smallestDepthID := if fsk.1 = 0 then 0 else fsk.2
  let wallDistance := getNodeWallDistance1 s searchPoint smallestNodeKey false
  let st := knnVisitDFS s points searchPoint neighborNo maxDistance (s.maxDepthID + 1)
    smallestNodeKey ([], XQ.val maxDistance)
  if XQ.lt st.2 (XQ.val wallDistance) ∨ maxDistance < wallDistance then
    convertEntityDistanceToList1 st.1 neighborNo
  else
    let fin := knnBFSLoop s points searchPoint neighborNo maxDistance (s.maxDepthID + 2)
      smallestNodeKey (smallestNodeKey >>> 1) (smallestDepthID - 1) [smallestNodeKey] st.1 st.2
    convertEntityDistanceToList1 fin.1 neighborNo

theorem c2_state :
    (pointInsert 1 one_pos (pointInsert 1 one_pos (initBase 2 10 [0] [4]) 0 [0] false).1
      1 [3] false).1 =
    ({ nodes := [(1, ⟨[0, 1], []⟩)], maxDepthID := 2, maxElementNo := 10,
       worldMin := [0], worldMax := [4] } : TreeState) := by
  have hloc0 : getLocationID 1 (initBase 2 10 [0] [4]) [0] = 0 := by
    have hg : getPointGridID 1 (initBase 2 10 [0] [4]) [0] = [0] := by
      norm_num [getPointGridID, rasterFactor, initBase, List.range_succ]
    rw [getLocationID, hg,
      Encode_eq_encodeBits (show ∀ x ∈ ([0] : List ℕ), x < 2 ^ 2 by decide)]
    decide
  have hkey0 : GetHash 1 (initBase 2 10 [0] [4]).maxDepthID
      (getLocationID 1 (initBase 2 10 [0] [4]) [0]) = 4 := by
    rw [hloc0]
    decide
  have hfind0 : findSmallestNodeKey (initBase 2 10 [0] [4]).nodes 1 one_pos 4 = 1 := by
    rw [findSmallestNodeKey]
    simp [containsKey, initBase]
    rw [findSmallestNodeKey]
    simp [containsKey, initBase]
    rw [findSmallestNodeKey]
    simp [containsKey, initBase]
  have h1 : pointInsert 1 one_pos (initBase 2 10 [0] [4]) 0 [0] false =
      ({ nodes := [(1, ⟨[0], []⟩)], maxDepthID := 2, maxElementNo := 10,
         worldMin := [0], worldMax := [4] }, true) := by
    simp only [pointInsert, hkey0, hfind0]
    norm_num [initBase, insertWithoutRebalancingBase, getNode, updateNode,
      TreeNode.empty, TreeNode.isAnyChildExist, TreeNode.addEntity,
      DoesBoxContainPoint, containsDim, List.range_succ]
  have hloc1 : getLocationID 1
      ({ nodes := [(1, ⟨[0], []⟩)], maxDepthID := 2, maxElementNo := 10,
         worldMin := [0], worldMax := [4] } : TreeState) [3] = 3 := by
    have hg : getPointGridID 1
        ({ nodes := [(1, ⟨[0], []⟩)], maxDepthID := 2, maxElementNo := 10,
           worldMin := [0], worldMax := [4] } : TreeState) [3] = [3] := by
      norm_num [getPointGridID, rasterFactor, List.range_succ]
    rw [getLocationID, hg,
      Encode_eq_encodeBits (show ∀ x ∈ ([3] : List ℕ), x < 2 ^ 2 by decide)]
    decide
  have hkey1 : GetHash 1
      ({ nodes := [(1, ⟨[0], []⟩)], maxDepthID := 2, maxElementNo := 10,
         worldMin := [0], worldMax := [4] } : TreeState).maxDepthID
      (getLocationID 1
        ({ nodes := [(1, ⟨[0], []⟩)], maxDepthID := 2, maxElementNo := 10,
           worldMin := [0], worldMax := [4] } : TreeState) [3]) = 7 := by
    rw [hloc1]
    decide
  have hfind1 : findSmallestNodeKey
      ({ nodes := [(1, ⟨[0], []⟩)], maxDepthID := 2, maxElementNo := 10,
         worldMin := [0], worldMax := [4] } : TreeState).nodes 1 one_pos 7 = 1 := by
    rw [findSmallestNodeKey]
    simp [containsKey]
    rw [findSmallestNodeKey]
    simp [containsKey]
    rw [findSmallestNodeKey]
    simp [containsKey]
  rw [h1]
  simp only [pointInsert, hkey1, hfind1]
  norm_num [insertWithoutRebalancingBase, getNode, updateNode,
    TreeNode.isAnyChildExist, TreeNode.addEntity,
    DoesBoxContainPoint, containsDim, List.range_succ]

set_option maxHeartbeats 3000000 in
theorem c2_knn :
    getNearestNeighbors1
      ({ nodes := [(1, ⟨[0, 1], []⟩)], maxDepthID := 2, maxElementNo := 10,
         worldMin := [0], worldMax := [4] } : TreeState) [0, 3] 3 3 100 = [0, 1] := by
  have hsize7 : Nat.size 7 = 3 := by
    have a := Nat.size_le.mpr (show 7 < 2 ^ 3 by norm_num)
    have b := Nat.lt_size.mpr (show 2 ^ 2 ≤ 7 by norm_num)
    omega
  have hsize1 : Nat.size 1 = 1 := by
    have a := Nat.size_le.mpr (show 1 < 2 ^ 1 by norm_num)
    have b := Nat.lt_size.mpr (show 2 ^ 0 ≤ 1 by norm_num)
    omega
  have hd7 : GetDepthID 1 7 = 2 := by rw [GetDepthID, hsize7]
  have hd1 : GetDepthID 1 1 = 0 := by rw [GetDepthID, hsize1]
  have hgrid : getPointGridIDHandled 1
      ({ nodes := [(1, ⟨[0, 1], []⟩)], maxDepthID := 2, maxElementNo := 10,
         worldMin := [0], worldMax := [4] } : TreeState) [3] = [3] := by
    norm_num [getPointGridIDHandled, rasterFactor, List.range_succ]
  have hekey : GetHash 1
      ({ nodes := [(1, ⟨[0, 1], []⟩)], maxDepthID := 2, maxElementNo := 10,
         worldMin := [0], worldMax := [4] } : TreeState).maxDepthID
      (Encode 1 (getPointGridIDHandled 1
        ({ nodes := [(1, ⟨[0, 1], []⟩)], maxDepthID := 2, maxElementNo := 10,
           worldMin := [0], worldMax := [4] } : TreeState) [3])) = 7 := by
    rw [hgrid, Encode_eq_encodeBits (show ∀ x ∈ ([3] : List ℕ), x < 2 ^ 2 by decide)]
    decide
  have hfsk : findSmallestNodeKeyWithDepth
      ({ nodes := [(1, ⟨[0, 1], []⟩)], maxDepthID := 2, maxElementNo := 10,
         worldMin := [0], worldMax := [4] } : TreeState).nodes 1 one_pos 7
      (GetDepthID 1 7) = (1, 0) := by
    rw [hd7]
    rw [findSmallestNodeKeyWithDepth]
    simp [containsKey]
    rw [findSmallestNodeKeyWithDepth]
    simp [containsKey]
    rw [findSmallestNodeKeyWithDepth]
    simp [containsKey]
  have hwall : getNodeWallDistance1
      ({ nodes := [(1, ⟨[0, 1], []⟩)], maxDepthID := 2, maxElementNo := 10,
         worldMin := [0], worldMax := [4] } : TreeState) 3 1 false = 1 := by
    norm_num [getNodeWallDistance1, nodeCenterQ, nodeSizeQ, hd1, deinterleave,
      List.range_succ, abs]
  have hvisit : knnVisitDFS
      ({ nodes := [(1, ⟨[0, 1], []⟩)], maxDepthID := 2, maxElementNo := 10,
         worldMin := [0], worldMax := [4] } : TreeState) [0, 3] 3 3 100 3 1
      ([], XQ.val 100) = ([(3, 0), (0, 1)], XQ.posInf) := by
    rw [knnVisitDFS]
    norm_num [getNode, addEntityDistance1, dist1, getFarestDistance1, XQ.minv, XQ.lt,
      TreeNode.isAnyChildExist, abs]
  have hbfs : knnBFSLoop
      ({ nodes := [(1, ⟨[0, 1], []⟩)], maxDepthID := 2, maxElementNo := 10,
         worldMin := [0], worldMax := [4] } : TreeState) [0, 3] 3 3 100 4 1 0 0 [1]
      [(3, 0), (0, 1)] XQ.posInf = ([(3, 0), (0, 1)], XQ.posInf) := by
    rw [show (4 : ℕ) = 3 + 1 from rfl, knnBFSLoop.eq_2, if_pos rfl]
  have hconv : convertEntityDistanceToList1 [(3, 0), (0, 1)] 3 = [0, 1] := by
    norm_num [convertEntityDistanceToList1]
  simp only [getNearestNeighbors1, hekey, hfsk]
  norm_num [hwall, hvisit, hbfs, hconv, XQ.lt]
  rw [show (1 : ℕ) >>> 1 = 0 from rfl, hbfs]
  exact hconv

/-- Claim C2 is REFUTED on the order it promises: in the one-dimensional
point tree over the world box from 0 to 4 with both entities stored in
the root (entity 0 at point 0, entity 1 at point 3),
`GetNearestNeighbors(point 3, k = 3, maxDistance = 100)` returns the ids
in the stored order 0, 1, although entity 1 lies strictly nearer than
entity 0: when no more candidates than requested are collected,
`ConvertEntityDistanceToList` copies the list without any ordering (and
with more candidates `nth_element` only partitions, it does not sort), so
the ascending-distance order of the claim does not hold. -/
theorem knn_not_ascending_counterexample :
    getNearestNeighbors1
      (pointInsert 1 one_pos (pointInsert 1 one_pos (initBase 2 10 [0] [4]) 0 [0] false).1
        1 [3] false).1 [0, 3] 3 3 100 = [0, 1] ∧
    dist1 3 (([0, 3] : List ℚ).getD 1 0) < dist1 3 (([0, 3] : List ℚ).getD 0 0) := by
  constructor
  · rw [c2_state]
    exact c2_knn
  · norm_num [dist1, abs]

/-- Witness for C9: one-dimensional build over the world box from 0 to 4
of the three points 3, 1 and 2, and of the single box from 1 to 2, whose
rasterized location id 1 lies inside the 4-cell grid. -/
theorem parallelBuild_equals_serialBuild_witness :
    (((pointCreateSerial 1 2 1 [0] [4] [[3], [1], [2]]).map Prod.fst).Perm
      ((pointCreateParallel 1 2 1 [0] [4] [[3], [1], [2]]).map Prod.fst) ∧
    ∀ k, (entitiesOf (pointCreateSerial 1 2 1 [0] [4] [[3], [1], [2]]) k).Perm
      (entitiesOf (pointCreateParallel 1 2 1 [0] [4] [[3], [1], [2]]) k)) ∧
    (((boxCreateSerial 1 2 1 [0] [4] [([1], [2])]).map Prod.fst).Perm
      ((boxCreateParallel 1 2 1 [0] [4] [([1], [2])]).map Prod.fst) ∧
    ∀ k, (entitiesOf (boxCreateSerial 1 2 1 [0] [4] [([1], [2])]) k).Perm
      (entitiesOf (boxCreateParallel 1 2 1 [0] [4] [([1], [2])]) k)) := by
  have h := parallelBuild_equals_serialBuild 1 one_pos 2 1 [0] [4] [[3], [1], [2]]
    [([1], [2])]
  refine ⟨h.1, h.2 ?_⟩
  have hg : getBoxGridID 1 (initBase 2 1 [0] [4]) [1] [2] = ([1], [1]) := by
    norm_num [getBoxGridID, rasterFactor, initBase, List.range_succ]
    decide
  have hE : Encode 1 [1] = 1 := by
    rw [Encode]
    have h1 : ([1] : List ℕ).foldr Nat.lor 0 = 1 := by decide
    rw [h1, Nat.size_one]
    decide
  have hmeta : boxLocation 1 (initBase 2 1 [0] [4]) [1] [2] =
      (⟨2, 1, 0, 0⟩ : RangeLocationMetaData) := by
    simp only [boxLocation, hg, hE]
    rw [GetRangeLocationMetaData, if_pos rfl]
    rfl
  have hlist : boxBuildLocations 1 (initBase 2 1 [0] [4]) [([1], [2])] =
      [(0, boxLocation 1 (initBase 2 1 [0] [4]) [1] [2])] := rfl
  intro l hl
  rw [hlist, List.mem_singleton] at hl
  rw [hl]
  show (boxLocation 1 (initBase 2 1 [0] [4]) [1] [2]).LocID < 2 ^ (2 * 1)
  rw [hmeta]
  decide

end Octree
